import Mathlib

/-!
# The codecs and `main` of `encoder_main.c`

A shallow embedding of the hexadecimal and base64 codecs and of the function
`main` of `src/contractCertRequest/c_executable/encoder_main.c`, and the
properties of the specification that concern them.

Conventions of the embedding.

* A C `char` is an `Int` (the value of the character after promotion to
  `int`); a `uint8_t` is a `Nat` below 256.  Character constants are written
  as their ASCII codes, with the character in a comment.
* A C string argument is the `List Int` of the characters stored at the
  pointer; `strlen` counts the characters before the first NUL, and a list
  without a NUL stands for that text followed by its terminator.
* `size_t` values are `Nat`; a length is below `2^64`, which the theorems that
  need it take as a hypothesis, and the subtractions that can wrap
  (`input_len - 1`, `(*output_len)--`) wrap explicitly.  `int` is 32 bits wide
  and `uint32_t` arithmetic is taken modulo `2^32`.
* A `for` loop is a function that recurses on an iteration budget and tests
  the loop condition itself; it answers `none` (`out_of_fuel` in
  `base64_decode`) only when the budget runs out while the condition still
  holds.  The callers pass a budget that is large enough, which the theorems
  below establish by giving the result.
* A buffer obtained from `malloc` is a list of cells that are `none` until
  they are written; `malloc` is assumed to succeed.
* A read outside the input text or outside the decoding table is undefined
  behaviour in C; the embedding reports it as the outcome `out_of_bounds`.
* `unsigned long`, `unsigned long long` and `long long` are 64 bits wide; the
  conversions `strtoull`, `strtoul` and `strtoll` follow ISO C.
* The macros of the cbV2G headers, which are not among the sources, are the
  fields of `Constants`.  What the XML query layer, the conversion to
  `exi_signed_t` and the encoder answer in one run are the fields of `Env`.
* `main` is the sequence of its blocks on the record `doc`; a block that jumps
  to `cleanup` ends the sequence.  A run is described by its `Outcome`: the
  return value, the text written to `stdout`, the blocks entered and the
  record handed to the encoder.  A field of `doc` is `none` until `main`
  assigns it.
-/

namespace ExiRequest

/-! ## Hex decoding -/

/-- The C library function `strlen`: the number of characters before the
first NUL. -/
def strlen : List Int → Nat
  | [] => 0
  | c :: rest => if c = 0 then 0 else strlen rest + 1

/-- The conversion `(int)byte_len` of a `size_t` to a 32-bit `int`
(two's complement wrap-around). -/
def int_of_size_t (n : Nat) : Int :=
  if n % 2 ^ 32 < 2 ^ 31 then ((n % 2 ^ 32 : Nat) : Int)
  else ((n % 2 ^ 32 : Nat) : Int) - 2 ^ 32

/-- The function `hex_char_to_int` of `encoder_main.c`. -/
def hex_char_to_int (c : Int) : Int :=
  if c ≥ 48 ∧ c ≤ 57 then        -- c >= '0' && c <= '9'
    c - 48
  else if c ≥ 97 ∧ c ≤ 102 then  -- c >= 'a' && c <= 'f'
    c - 97 + 10
  else if c ≥ 65 ∧ c ≤ 70 then   -- c >= 'A' && c <= 'F'
    c - 65 + 10
  else
    -1

/-- The byte `(uint8_t)((high_nibble << 4) | low_nibble)`; both nibbles are
non-negative where the code evaluates it. -/
def nibbles_to_byte (high_nibble low_nibble : Int) : Nat :=
  ((high_nibble.toNat <<< 4) ||| low_nibble.toNat) % 256

/-- The loop `for (size_t i = 0; i < byte_len; ++i)` of `hex_decode`, from
index `i` on, together with the `return` that follows it.  The result is the
returned `int` and the final content of `byte_array`. -/
def hex_decode_loop (hex_string : List Int) (byte_len : Nat) :
    Nat → Nat → List Nat → Option (Int × List Nat)
  | 0, i, byte_array =>
    if i < byte_len then none else some (int_of_size_t byte_len, byte_array)
  | fuel + 1, i, byte_array =>
    if i < byte_len then
      let high_nibble := hex_char_to_int (hex_string.getD (2 * i) 0)
      let low_nibble := hex_char_to_int (hex_string.getD (2 * i + 1) 0)
      if high_nibble = -1 ∨ low_nibble = -1 then
        some (-3, byte_array)
      else
        hex_decode_loop hex_string byte_len fuel (i + 1)
          (byte_array.set i (nibbles_to_byte high_nibble low_nibble))
    else some (int_of_size_t byte_len, byte_array)

/-- The function `hex_decode` of `encoder_main.c`.  `byte_array` is the
caller's array before the call; the result is the returned `int` and the
array after the call. -/
def hex_decode (hex_string : List Int) (byte_array : List Nat) (max_bytes : Nat) :
    Option (Int × List Nat) :=
  let hex_len := strlen hex_string
  if hex_len % 2 ≠ 0 then
    some (-1, byte_array)
  else
    let byte_len := hex_len / 2
    if byte_len > max_bytes then
      some (-2, byte_array)
    else
      hex_decode_loop hex_string byte_len byte_len 0 byte_array

/-! ## Base64 encoding -/

/-- The array `base64_chars` of `encoder_main.c`: the characters
`A`-`Z`, `a`-`z`, `0`-`9`, `+` and `/`. -/
def base64_chars : List Int :=
  [65, 66, 67, 68, 69, 70, 71, 72, 73, 74, 75, 76, 77,       -- A .. M
   78, 79, 80, 81, 82, 83, 84, 85, 86, 87, 88, 89, 90,       -- N .. Z
   97, 98, 99, 100, 101, 102, 103, 104, 105, 106, 107, 108, 109,      -- a .. m
   110, 111, 112, 113, 114, 115, 116, 117, 118, 119, 120, 121, 122,   -- n .. z
   48, 49, 50, 51, 52, 53, 54, 55, 56, 57,                   -- 0 .. 9
   43, 47]                                                   -- + and /

/-- The loop `for (i = 0, j = 0; i < input_len;)` of `base64_encode`, from the
state `(i, j, output)` on.  A cell of `output` is `none` until it is written. -/
def base64_encode_loop (input : List Nat) (input_len : Nat) :
    Nat → Nat → Nat → List (Option Int) → Option (List (Option Int))
  | 0, i, _, output => if i < input_len then none else some output
  | fuel + 1, i, j, output =>
    if i < input_len then
      -- octet_a = i < input_len ? input[i++] : 0;
      let octet_a := if i < input_len then input.getD i 0 else 0
      let i1 := if i < input_len then i + 1 else i
      -- octet_b = i < input_len ? input[i++] : 0;
      let octet_b := if i1 < input_len then input.getD i1 0 else 0
      let i2 := if i1 < input_len then i1 + 1 else i1
      -- octet_c = i < input_len ? input[i++] : 0;
      let octet_c := if i2 < input_len then input.getD i2 0 else 0
      let i3 := if i2 < input_len then i2 + 1 else i2
      let triple := ((octet_a <<< 16) + (octet_b <<< 8) + octet_c) % 2 ^ 32
      let output := output.set j (some (base64_chars.getD ((triple >>> (3 * 6)) &&& 63) 0))
      let output := output.set (j + 1) (some (base64_chars.getD ((triple >>> (2 * 6)) &&& 63) 0))
      let output := output.set (j + 2) (some (base64_chars.getD ((triple >>> (1 * 6)) &&& 63) 0))
      let output := output.set (j + 3) (some (base64_chars.getD ((triple >>> (0 * 6)) &&& 63) 0))
      base64_encode_loop input input_len fuel i3 (j + 4) output
    else some output

/-- The function `base64_encode` of `encoder_main.c`.  The result is the
content of the returned buffer of `output_len + 1` characters. -/
def base64_encode (input : List Nat) (input_len : Nat) : Option (List (Option Int)) :=
  let output_len := 4 * ((input_len + 2) / 3)
  let output : List (Option Int) := List.replicate (output_len + 1) none
  match base64_encode_loop input input_len input_len 0 0 output with
  | none => none
  | some output =>
    let padding := input_len % 3
    let output :=
      if padding > 0 then
        let output := output.set (output_len - 1) (some 61)   -- '='
        if padding = 1 then output.set (output_len - 2) (some 61) else output
      else output
    some (output.set output_len (some 0))

/-- The C string held in a character buffer: the characters before the first
NUL.  Reading stops at a cell that was never written. -/
def c_string : List (Option Int) → List Int
  | [] => []
  | none :: _ => []
  | some c :: rest => if c = 0 then [] else c :: c_string rest

/-! ## Base64 decoding -/

/-- The static array `base64_decoding_table` as the C runtime initialises it:
an object of static storage duration without an initialiser is zeroed. -/
def initial_decoding_table : List Int := List.replicate 256 0

/-- The function `build_base64_decoding_table` of `encoder_main.c`, as a
function of the table before the call. -/
def build_base64_decoding_table (table : List Int) : List Int :=
  -- for (i = 0; i < 256; i++) base64_decoding_table[i] = -1;
  let table := (List.range 256).foldl (fun t i => t.set i (-1)) table
  -- for (i = 0; i < 64; i++) base64_decoding_table[(int)base64_chars[i]] = i;
  (List.range 64).foldl (fun t i => t.set (base64_chars.getD i 0).toNat (i : Int)) table

/-- The table after a call of `build_base64_decoding_table`.  No path of the
program reaches this state; it is the state the lookup is written for. -/
def built_decoding_table : List Int := build_base64_decoding_table initial_decoding_table

/-- What a call of `base64_decode` does. -/
inductive DecodeResult where
  /-- The call returned `NULL`. -/
  | null : DecodeResult
  /-- The call returned the buffer `output` (a cell is `none` until it is
  written) and stored `output_len`. -/
  | ok (output : List (Option Nat)) (output_len : Nat) : DecodeResult
  /-- The call read outside the input or outside the table. -/
  | out_of_bounds : DecodeResult
  /-- The iteration budget of the loop model ran out. -/
  | out_of_fuel : DecodeResult
  deriving DecidableEq

/-- The conversion of an `int` table entry to `uint32_t`. -/
def uint32_of_int (v : Int) : Nat := (v % 2 ^ 32).toNat

/-- The subtraction `a - b` of `size_t` values (64 bits, wrapping). -/
def size_t_sub (a b : Nat) : Nat := (a + 2 ^ 64 - b % 2 ^ 64) % 2 ^ 64

/-- The sextet that `base64_decode` takes from `input[i]`: 0 for `=`, and
`base64_decoding_table[(int)input[i]]` otherwise.  `none` when `i` is outside
the input or the character is not an index of the table. -/
def sextet (table : List Int) (input : List Int) (i : Nat) : Option Nat :=
  match input.get? i with
  | none => none
  | some c =>
    if c = 61 then some 0          -- input[i] == '='
    else if 0 ≤ c then (table.get? c.toNat).map uint32_of_int
    else none

/-- The statement `if (j < *output_len) output[j++] = v;` of `base64_decode`,
on the state `(output, j)`. -/
def store_byte (output_len : Nat) (st : List (Option Nat) × Nat) (v : Nat) :
    List (Option Nat) × Nat :=
  if st.2 < output_len then (st.1.set st.2 (some v), st.2 + 1) else st

/-- The loop `for (i = 0, j = 0; i < input_len;)` of `base64_decode`, from the
state `(i, j, output)` on, together with the `return` that follows it. -/
def base64_decode_loop (table : List Int) (input : List Int) (input_len output_len : Nat) :
    Nat → Nat → Nat → List (Option Nat) → DecodeResult
  | 0, i, _, output =>
    if i < input_len then DecodeResult.out_of_fuel else DecodeResult.ok output output_len
  | fuel + 1, i, j, output =>
    if i < input_len then
      match sextet table input i, sextet table input (i + 1),
            sextet table input (i + 2), sextet table input (i + 3) with
      | some sextet_a, some sextet_b, some sextet_c, some sextet_d =>
        if sextet_a = 4294967295 ∨ sextet_b = 4294967295 ∨
           sextet_c = 4294967295 ∨ sextet_d = 4294967295 then   -- == (uint32_t)-1
          DecodeResult.null
        else
          let triple := ((sextet_a <<< (3 * 6)) + (sextet_b <<< (2 * 6)) +
                         (sextet_c <<< (1 * 6)) + (sextet_d <<< (0 * 6))) % 2 ^ 32
          -- if (j < *output_len) output[j++] = (triple >> 2 * 8) & 0xFF;
          let st := store_byte output_len (output, j) ((triple >>> (2 * 8)) &&& 255)
          -- if (j < *output_len) output[j++] = (triple >> 1 * 8) & 0xFF;
          let st := store_byte output_len st ((triple >>> (1 * 8)) &&& 255)
          -- if (j < *output_len) output[j++] = (triple >> 0 * 8) & 0xFF;
          let st := store_byte output_len st ((triple >>> (0 * 8)) &&& 255)
          base64_decode_loop table input input_len output_len fuel (i + 4) st.2 st.1
      | _, _, _, _ => DecodeResult.out_of_bounds
    else DecodeResult.ok output output_len

/-- The function `base64_decode` of `encoder_main.c`.  `table` is the content
of `base64_decoding_table` before the call; the result is what the call does
and the content of the table after it. -/
def base64_decode (table : List Int) (input : List Int) (input_len : Nat) :
    DecodeResult × List Int :=
  if input_len % 4 ≠ 0 then (DecodeResult.null, table)
  else
    -- if (base64_decoding_table[(int)'A'] == -1) build_base64_decoding_table();
    let table := if table.getD 65 0 = -1 then build_base64_decoding_table table else table
    -- *output_len = input_len / 4 * 3;
    let output_len := input_len / 4 * 3
    -- if (input[input_len - 1] == '=') (*output_len)--;
    match input.get? (size_t_sub input_len 1), input.get? (size_t_sub input_len 2) with
    | some last, some before_last =>
      let output_len := if last = 61 then size_t_sub output_len 1 else output_len
      let output_len := if before_last = 61 then size_t_sub output_len 1 else output_len
      let output : List (Option Nat) := List.replicate output_len none
      (base64_decode_loop table input input_len output_len input_len 0 0 output, table)
    | _, _ => (DecodeResult.out_of_bounds, table)

/-- The bytes of a buffer all of whose cells were written. -/
def written_bytes : List (Option Nat) → Option (List Nat)
  | [] => some []
  | none :: _ => none
  | some b :: rest => (written_bytes rest).map (fun l => b :: l)

/-- The round trip of the specification in a freshly started process: encode
`b`, read the returned text as a C string, and decode it with its `strlen` as
`input_len`, the decoding table being in its initial state. -/
def round_trip (b : List Nat) : Option DecodeResult :=
  (base64_encode b b.length).map
    (fun buffer => (base64_decode initial_decoding_table (c_string buffer)
      (strlen (c_string buffer))).1)

/-! ### Vocabulary of the hex claims -/

/-- A character of `0-9`, `a-f` or `A-F`. -/
def isHexDigit (c : Int) : Prop :=
  (48 ≤ c ∧ c ≤ 57) ∨ (97 ≤ c ∧ c ≤ 102) ∨ (65 ≤ c ∧ c ≤ 70)

instance (c : Int) : Decidable (isHexDigit c) := by
  unfold isHexDigit; infer_instance

/-- The digit value `v` of the specification: `0`-`9` give 0-9, and both
`a`-`f` and `A`-`F` give 10-15. -/
def hexValue (c : Int) : Nat :=
  if 48 ≤ c ∧ c ≤ 57 then (c - 48).toNat
  else if 97 ≤ c ∧ c ≤ 102 then (c - 97).toNat + 10
  else if 65 ≤ c ∧ c ≤ 70 then (c - 65).toNat + 10
  else 0

/-- The byte that pair `i` of a hex text denotes: `16*v(s[2i]) + v(s[2i+1])`. -/
def hexPairValue (s : List Int) (i : Nat) : Nat :=
  16 * hexValue (s.getD (2 * i) 0) + hexValue (s.getD (2 * i + 1) 0)

/-- Both characters of pair `i` are hex digits. -/
def hexPairValid (s : List Int) (i : Nat) : Prop :=
  isHexDigit (s.getD (2 * i) 0) ∧ isHexDigit (s.getD (2 * i + 1) 0)

instance (s : List Int) (i : Nat) : Decidable (hexPairValid s i) := by
  unfold hexPairValid; infer_instance

/-- ASCII upper-casing of one character. -/
def asciiUpper (c : Int) : Int := if 97 ≤ c ∧ c ≤ 122 then c - 32 else c

/-- ASCII lower-casing of one character. -/
def asciiLower (c : Int) : Int := if 65 ≤ c ∧ c ≤ 90 then c + 32 else c

/-- The largest value of a 32-bit `int`. -/
def INT_MAX : Nat := 2147483647

/-! ### Vocabulary of the base64 claims -/

/-- The `uint32_t` value `triple` that `base64_encode` forms for group `k` of
the input (the bytes `3k`, `3k+1`, `3k+2`, a missing byte being 0). -/
def triple_at (b : List Nat) (k : Nat) : Nat :=
  ((b.getD (3 * k) 0 <<< 16) + (b.getD (3 * k + 1) 0 <<< 8) + b.getD (3 * k + 2) 0) % 2 ^ 32

/-- The character `base64_chars[(triple >> (3 - t) * 6) & 0x3F]`. -/
def sextet_char (triple t : Nat) : Int :=
  base64_chars.getD ((triple >>> ((3 - t) * 6)) &&& 63) 0

/-- The character that `base64_encode` leaves at position `p` of the text for
the input `b`: `=` at a padding position, and otherwise character `p % 4` of
group `p / 4`. -/
def encoded_char (b : List Nat) (p : Nat) : Int :=
  if (b.length % 3 = 1 ∧ 4 * ((b.length + 2) / 3) - 2 ≤ p) ∨
     (b.length % 3 = 2 ∧ 4 * ((b.length + 2) / 3) - 1 ≤ p) then 61
  else sextet_char (triple_at b (p / 4)) (p % 4)

/-- The text that `base64_encode` produces for `b`, position by position. -/
def encoded_text (b : List Nat) : List Int :=
  (List.range (4 * ((b.length + 2) / 3))).map (encoded_char b)

/-- The 24-bit value of group `k` of the specification:
`b[3k]*65536 + b[3k+1]*256 + b[3k+2]`, a missing byte being taken as 0. -/
def group24 (b : List Nat) (k : Nat) : Nat :=
  b.getD (3 * k) 0 * 65536 + b.getD (3 * k + 1) 0 * 256 + b.getD (3 * k + 2) 0

/-- The 6-bit slice number `t` (0 is the most significant) of a 24-bit value. -/
def slice6 (v t : Nat) : Nat := v / 2 ^ (6 * (3 - t)) % 64

/-- The standard base64 alphabet by index: `A`-`Z`, `a`-`z`, `0`-`9`, `+`, `/`. -/
def standardAlphabet (i : Nat) : Int :=
  if i < 26 then 65 + (i : Int)
  else if i < 52 then 97 + ((i : Int) - 26)
  else if i < 62 then 48 + ((i : Int) - 52)
  else if i = 62 then 43
  else 47

/-- A character of `A-Z`, `a-z`, `0-9`, `+` or `/`. -/
def isBase64Char (c : Int) : Prop :=
  (65 ≤ c ∧ c ≤ 90) ∨ (97 ≤ c ∧ c ≤ 122) ∨ (48 ≤ c ∧ c ≤ 57) ∨ c = 43 ∨ c = 47

instance (c : Int) : Decidable (isBase64Char c) := by
  unfold isBase64Char; infer_instance

/-- The number of `=` characters that end the text for an input of `n` bytes,
as the code writes them: two when one byte is left over, one when two are. -/
def padding_count (n : Nat) : Nat :=
  if n % 3 = 1 then 2 else if n % 3 = 2 then 1 else 0

/-! ## The input reader of `main` -/

/-- The macro `INPUT_BUFFER_SIZE`. -/
def INPUT_BUFFER_SIZE : Nat := 4096

/-- The variables of the read loop of `main`: the buffer `xml_content` (a list
of `buffer_capacity` cells, `none` until written), `total_read` and
`buffer_capacity`. -/
structure ReaderState where
  xml_content : List (Option Nat)
  total_read : Nat
  buffer_capacity : Nat
  deriving DecidableEq

/-- The state before the loop: `malloc(INPUT_BUFFER_SIZE)`, `total_read = 0`. -/
def reader_start : ReaderState :=
  ⟨List.replicate INPUT_BUFFER_SIZE none, 0, INPUT_BUFFER_SIZE⟩

/-- The size `buffer_capacity - total_read - 1` that the loop passes to
`fread` (a `size_t`, wrapping). -/
def fread_request (st : ReaderState) : Nat :=
  size_t_sub (size_t_sub st.buffer_capacity st.total_read) 1

/-- The buffer after `fread` has stored `chunk` from index `pos` on. -/
def store_at (buffer : List (Option Nat)) (pos : Nat) (chunk : List Nat) :
    List (Option Nat) :=
  (buffer.take pos ++ chunk.map some ++ buffer.drop (pos + chunk.length)).take buffer.length

/-- The C library function `realloc`, assumed to succeed: the content is kept
and the new cells are not written. -/
def realloc (buffer : List (Option Nat)) (size : Nat) : List (Option Nat) :=
  (buffer ++ List.replicate (size - buffer.length) none).take size

/-- The body of the loop `while ((bytes_read = fread(...)) > 0)` of `main`
for a call of `fread` that stored the bytes `chunk` (`bytes_read` is the
length of `chunk`). -/
def read_step (st : ReaderState) (chunk : List Nat) : ReaderState :=
  let xml_content := store_at st.xml_content st.total_read chunk
  -- total_read += bytes_read;
  let total_read := st.total_read + chunk.length
  -- if (total_read + 1 >= buffer_capacity) { buffer_capacity *= 2; realloc }
  if total_read + 1 ≥ st.buffer_capacity then
    ⟨realloc xml_content (st.buffer_capacity * 2), total_read, st.buffer_capacity * 2⟩
  else
    ⟨xml_content, total_read, st.buffer_capacity⟩

/-- The read loop of `main` on the successive non-empty results of `fread`;
the loop ends when `fread` returns 0, which is the end of the list. -/
def read_loop : List (List Nat) → ReaderState → ReaderState
  | [], st => st
  | chunk :: rest, st => read_loop rest (read_step st chunk)

/-- The chunks are possible results of the calls of `fread`: each has at least
one byte and at most as many as the call asks for. -/
def valid_reads : List (List Nat) → ReaderState → Prop
  | [], _ => True
  | chunk :: rest, st =>
    1 ≤ chunk.length ∧ chunk.length ≤ fread_request st ∧ valid_reads rest (read_step st chunk)

/-- The statements after the loop: `xml_content[total_read] = 0` and
`xml_content_len = total_read`.  The result is the buffer and
`xml_content_len`. -/
def reader_finish (st : ReaderState) : List (Option Nat) × Nat :=
  (st.xml_content.set st.total_read (some 0), st.total_read)

/-- The invariant of the read loop, `read` being the bytes read so far. -/
def ReaderInv (read : List Nat) (st : ReaderState) : Prop :=
  st.total_read + 1 < st.buffer_capacity ∧
  (∃ k, st.buffer_capacity = 4096 * 2 ^ k) ∧
  st.xml_content.length = st.buffer_capacity ∧
  st.total_read = read.length ∧
  st.xml_content.take st.total_read = read.map some ∧
  st.buffer_capacity ≤ 4096 + 2 * st.total_read

/-! ## Numeric conversions of the C library

The functions `strtoull`, `strtoul` and `strtoll` as ISO C 7.22.1.4 describes
them for base 10: white space is skipped, an optional sign and a non-empty
sequence of digits form the subject sequence, `endptr` is left after it (at
the start of the text when there is none), a value outside the range of the
return type is replaced by the limit with `errno = ERANGE`, and a leading
minus sign negates the value in the return type.  `unsigned long` and
`unsigned long long` are 64 bits wide. -/

/-- The C library function `isspace` in the C locale. -/
def isspace (c : Int) : Bool := decide (c = 32 ∨ (9 ≤ c ∧ c ≤ 13))

/-- The C library function `isdigit`. -/
def isdigit (c : Int) : Bool := decide (48 ≤ c ∧ c ≤ 57)

/-- The number that a sequence of decimal digits denotes. -/
def digits_value (digits : List Int) : Nat :=
  digits.foldl (fun acc c => 10 * acc + (c - 48).toNat) 0

/-- The subject sequence of a text: its sign, its digits, and the index
`endptr` after it (0, the start of the text, when there are no digits). -/
structure Subject where
  negative : Bool
  digits : List Int
  endptr : Nat
  deriving DecidableEq

/-- The subject sequence that `strtoull`, `strtoul` and `strtoll` find in
`nptr` for base 10. -/
def subject_sequence (nptr : List Int) : Subject :=
  let white := (nptr.takeWhile isspace).length
  let rest := nptr.drop white
  let negative := decide (rest.head? = some 45)                        -- '-'
  let sign := if rest.head? = some 45 ∨ rest.head? = some 43 then 1 else 0   -- '-' or '+'
  let digits := (rest.drop sign).takeWhile isdigit
  if digits = [] then ⟨false, [], 0⟩
  else ⟨negative, digits, white + sign + digits.length⟩

/-- What a conversion function returns: the value, the index stored in
`*endptr`, and whether it set `errno` to `ERANGE`. -/
structure Conversion where
  value : Int
  endptr : Nat
  erange : Bool
  deriving DecidableEq

/-- The limit `ULLONG_MAX`, which is also `ULONG_MAX` and `UINT64_MAX`. -/
def ULLONG_MAX : Nat := 18446744073709551615

/-- The limit `LLONG_MAX`. -/
def LLONG_MAX : Nat := 9223372036854775807

/-- The C library function `strtoull` for base 10 (and `strtoul`, whose
return type has the same width). -/
def strtoull (nptr : List Int) : Conversion :=
  let s := subject_sequence nptr
  if s.digits = [] then ⟨0, 0, false⟩
  else
    let magnitude := digits_value s.digits
    if magnitude > ULLONG_MAX then ⟨ULLONG_MAX, s.endptr, true⟩
    else if s.negative then ⟨((2 ^ 64 - magnitude) % 2 ^ 64 : Nat), s.endptr, false⟩
    else ⟨magnitude, s.endptr, false⟩

/-- The C library function `strtoul` for base 10. -/
def strtoul (nptr : List Int) : Conversion := strtoull nptr

/-- The C library function `strtoll` for base 10. -/
def strtoll (nptr : List Int) : Conversion :=
  let s := subject_sequence nptr
  if s.digits = [] then ⟨0, 0, false⟩
  else
    let magnitude := digits_value s.digits
    if s.negative then
      if magnitude > LLONG_MAX + 1 then ⟨-((LLONG_MAX : Int) + 1), s.endptr, true⟩
      else ⟨-(magnitude : Int), s.endptr, false⟩
    else
      if magnitude > LLONG_MAX then ⟨LLONG_MAX, s.endptr, true⟩
      else ⟨magnitude, s.endptr, false⟩

/-! ## Field parsers of `main` -/

/-- The TimeStamp statements of `main` (lines 469-487) on the text
`timestamp_xml`: `none` is the jump to `cleanup`, `some v` the value stored in
`Header.TimeStamp`. -/
def parse_timestamp (timestamp_xml : List Int) : Option Nat :=
  -- errno = 0; ts_val = strtoull(timestamp_xml, &endptr, 10);
  let r := strtoull timestamp_xml
  -- if (errno == ERANGE || *endptr != '\0' || timestamp_xml == endptr) goto cleanup;
  if r.erange = true ∨ timestamp_xml.getD r.endptr 0 ≠ 0 ∨ r.endptr = 0 then none
  -- if (ts_val > UINT64_MAX) goto cleanup;
  else if r.value > ULLONG_MAX then none
  -- Header.TimeStamp = (uint64_t)ts_val;
  else some (r.value % 2 ^ 64).toNat

/-- The limit `UINT8_MAX`. -/
def UINT8_MAX : Nat := 255

/-- The MaximumContractCertificateChains statements of `main` (lines 721-738)
on the text `max_chains_xml`: `none` is the jump to `cleanup`, `some v` the
value stored in the `uint8_t` field. -/
def parse_max_chains (max_chains_xml : List Int) : Option Nat :=
  -- errno = 0; maxc_val = strtoul(max_chains_xml, &endptr_maxc, 10);
  let r := strtoul max_chains_xml
  -- if (errno != 0 || *endptr_maxc != '\0' || max_chains_xml == endptr_maxc) goto cleanup;
  if r.erange = true ∨ max_chains_xml.getD r.endptr 0 ≠ 0 ∨ r.endptr = 0 then none
  -- if (maxc_val > UINT8_MAX) goto cleanup;
  else if r.value > UINT8_MAX then none
  -- MaximumContractCertificateChains = (uint8_t)maxc_val;
  else some (r.value % 256).toNat

/-- The SessionID statements of `main` (lines 431-452) on the text
`session_id_hex`: `none` is the jump to `cleanup`, and `some` gives the buffer
`session_id_bytes` and `decoded_len`.  The content of fresh memory is
immaterial, since `hex_decode` writes every cell of the buffer before `main`
reads it. -/
def parse_session_id (session_id_hex : List Int) : Option (List Nat × Nat) :=
  let hex_len := strlen session_id_hex
  -- if (hex_len > 16 || hex_len == 0 || hex_len % 2 != 0) goto cleanup;
  if hex_len > 16 ∨ hex_len = 0 ∨ hex_len % 2 ≠ 0 then none
  else
    -- session_id_bytes = malloc(hex_len / 2);
    let session_id_bytes := List.replicate (hex_len / 2) 0
    -- decoded_len = hex_decode(session_id_hex, session_id_bytes, hex_len / 2);
    match hex_decode session_id_hex session_id_bytes (hex_len / 2) with
    | none => none
    | some (decoded_len, session_id_bytes) =>
      -- if (decoded_len < 0) goto cleanup;
      if decoded_len < 0 then none
      else some (session_id_bytes, decoded_len.toNat)

/-- The C library function `strncpy` on a destination array: cell `i < n`
receives character `i` of `src`, or NUL past the end of `src`. -/
def strncpy (dst : List (Option Int)) (src : List Int) (n : Nat) : List (Option Int) :=
  ((List.range n).map (fun i => some (if i < strlen src then src.getD i 0 else 0)) ++
    dst.drop n).take dst.length

/-- The C library function `strcpy` on a destination array: the characters of
`src` and its terminating NUL. -/
def strcpy (dst : List (Option Int)) (src : List Int) : List (Option Int) :=
  ((src.take (strlen src)).map some ++ [some 0] ++ dst.drop (strlen src + 1)).take dst.length

/-- The conversion `(uint16_t)n`. -/
def uint16 (n : Nat) : Nat := n % 65536

/-- The copy of a text into a string field of `CHARACTER_SIZE` cells, as `main`
does it for `X509IssuerName` (lines 670-681) and for `EMAID` (lines 780-792),
which differ in the field only.  The result is the array `characters` and
`charactersLen`. -/
def copy_string_field (CHARACTER_SIZE : Nat) (characters : List (Option Int))
    (str : List Int) : List (Option Int) × Nat :=
  let len := strlen str
  if len ≥ CHARACTER_SIZE then
    -- strncpy(characters, str, CHARACTER_SIZE - 1);
    let characters := strncpy characters str (CHARACTER_SIZE - 1)
    -- characters[CHARACTER_SIZE - 1] = '\0';
    let characters := characters.set (CHARACTER_SIZE - 1) (some 0)
    -- charactersLen = CHARACTER_SIZE - 1;
    (characters, uint16 (CHARACTER_SIZE - 1))
  else
    -- strcpy(characters, str); charactersLen = (uint16_t)len;
    (strcpy characters str, uint16 len)

/-- A text that `strtoull` reads as a plain decimal numeral: at least one
character, all of them digits. -/
def isNumeral (t : List Int) : Prop := t ≠ [] ∧ ∀ c ∈ t, 48 ≤ c ∧ c ≤ 57

/-! ## The record and the collaborators of `main` -/

/-- The constants that `main` takes from the cbV2G headers, which are not
among the sources of this repository. -/
structure Constants where
  iso20_sessionIDType_BYTES_SIZE : Nat
  iso20_certificateType_3_ARRAY_SIZE : Nat
  iso20_certificateType_BYTES_SIZE : Nat
  iso20_X509IssuerSerialType_20_ARRAY_SIZE : Nat
  iso20_X509IssuerName_CHARACTER_SIZE : Nat
  iso20_identifierType_8_ARRAY_SIZE : Nat
  iso20_EMAID_CHARACTER_SIZE : Nat
  EXI_ERROR__NO_ERROR : Int
  deriving DecidableEq

/-- The macro `EXI_BUFFER_SIZE`. -/
def EXI_BUFFER_SIZE : Nat := 16384

/-- An entry of `SubCertificates.Certificate.array`; a cell or a field is
`none` until `main` assigns it. -/
structure certificateType where
  bytes : List (Option Nat)
  bytesLen : Option Nat
  deriving DecidableEq

/-- The type `exi_signed_t` of cbV2G, as far as `main` is concerned. -/
structure exi_signed_t where
  is_negative : Bool
  octets : List Nat
  deriving DecidableEq

/-- An entry of `ListOfRootCertificateIDs.RootCertificateID.array`. -/
structure X509IssuerSerialType where
  X509IssuerName_characters : List (Option Int)
  X509IssuerName_charactersLen : Option Nat
  X509SerialNumber : Option exi_signed_t
  deriving DecidableEq

/-- An entry of `PrioritizedEMAIDs.EMAID.array`. -/
structure identifierType where
  characters : List (Option Int)
  charactersLen : Option Nat
  deriving DecidableEq

/-- The fields of `struct iso20_exiDocument doc` that `main` assigns.  `doc` is
declared without an initialiser, so every field is `none` (not assigned) at
first. -/
structure Doc where
  CertificateInstallationReq_isUsed : Option Nat
  SessionID_bytes : List (Option Nat)
  SessionID_bytesLen : Option Nat
  TimeStamp : Option Nat
  Signature_isUsed : Option Nat
  SubCertificates_isUsed : Option Nat
  SubCertificates_arrayLen : Option Nat
  SubCertificates_array : List certificateType
  RootCertificateID_arrayLen : Option Nat
  RootCertificateID_array : List X509IssuerSerialType
  MaximumContractCertificateChains : Option Nat
  PrioritizedEMAIDs_isUsed : Option Nat
  EMAID_arrayLen : Option Nat
  EMAID_array : List identifierType
  deriving DecidableEq

/-- The record `doc` at its declaration. -/
def initial_doc (k : Constants) : Doc :=
  { CertificateInstallationReq_isUsed := none
    SessionID_bytes := List.replicate k.iso20_sessionIDType_BYTES_SIZE none
    SessionID_bytesLen := none
    TimeStamp := none
    Signature_isUsed := none
    SubCertificates_isUsed := none
    SubCertificates_arrayLen := none
    SubCertificates_array := List.replicate k.iso20_certificateType_3_ARRAY_SIZE
      ⟨List.replicate k.iso20_certificateType_BYTES_SIZE none, none⟩
    RootCertificateID_arrayLen := none
    RootCertificateID_array := List.replicate k.iso20_X509IssuerSerialType_20_ARRAY_SIZE
      ⟨List.replicate k.iso20_X509IssuerName_CHARACTER_SIZE none, none, none⟩
    MaximumContractCertificateChains := none
    PrioritizedEMAIDs_isUsed := none
    EMAID_arrayLen := none
    EMAID_array := List.replicate k.iso20_identifierType_8_ARRAY_SIZE
      ⟨List.replicate k.iso20_EMAID_CHARACTER_SIZE none, none⟩ }

/-- What `child->type` and `child->name` say about a child of a
`RootCertificateID` node. -/
inductive ChildKind where
  | X509IssuerName : ChildKind
  | X509SerialNumber : ChildKind
  | other_element : ChildKind
  | not_element : ChildKind
  deriving DecidableEq

/-- A child of a `RootCertificateID` node: its kind and what
`xmlNodeGetContent` returns for it (`none` is `NULL`). -/
structure XmlChild where
  kind : ChildKind
  content : Option (List Int)
  deriving DecidableEq

/-- What the collaborators of `main` answer in one run: the XML query layer
(through `get_xpath_count`, `get_xpath_content`, `get_xpath_nodeset` and
`xmlNodeGetContent`; `none` is `NULL`, a node set is the list of its nodes in
document order), `exi_basetypes_convert_to_signed`, and the encoder, which
gives its return value, the content of `exi_buffer` and
`exi_bitstream_get_length`. -/
structure Env where
  read_error : Bool
  document_parsed : Bool
  context_created : Bool
  request_count : Int
  session_id : Option (List Int)
  timestamp : Option (List Int)
  signature_count : Int
  sub_certs : Option (List (Option (List Int)))
  root_ids : Option (List (List XmlChild))
  max_chains : Option (List Int)
  emaids_present : Int
  emaids : Option (List (Option (List Int)))
  convert_to_signed : Int → Option exi_signed_t
  encode : Doc → Int × List Nat × Nat

/-- The blocks of `main` that extract a field, in the order of the source, and
the call of the encoder. -/
inductive Step where
  | request : Step
  | session_id : Step
  | timestamp : Step
  | signature : Step
  | sub_certificates : Step
  | root_certificate_ids : Step
  | maximum_chains : Step
  | prioritized_emaids : Step
  | encode : Step
  deriving DecidableEq

/-- How a block of `main` stops the population of the record: by
`goto cleanup`, by a read outside an object (undefined behaviour), or because
the iteration budget of a loop model ran out. -/
inductive Abort where
  | cleanup : Abort
  | undefined : Abort
  | out_of_fuel : Abort
  deriving DecidableEq

/-- The state that the blocks of `main` pass on: the record and the table
`base64_decoding_table`. -/
structure Run where
  doc : Doc
  table : List Int
  deriving DecidableEq

/-- The C library function `memcpy` on a destination array that is declared
with `size` cells: the first `n` cells receive the first `n` cells of `src`.
A copy of more cells than the destination or the source has writes or reads
outside an object, which is undefined behaviour in C (`none`). -/
def memcpy (size : Nat) (dst src : List (Option Nat)) (n : Nat) :
    Option (List (Option Nat)) :=
  if n ≤ size ∧ n ≤ src.length then some (src.take n ++ dst.drop n) else none

/-- A loop `for (int i = 0; i < count; ++i) body`, from index `i` on; the body
may leave the loop by `goto cleanup`. -/
def for_loop {σ : Type} (count : Nat) (body : Nat → σ → Except Abort σ) :
    Nat → Nat → σ → Except Abort σ
  | 0, i, s => if i < count then Except.error Abort.out_of_fuel else Except.ok s
  | fuel + 1, i, s =>
    if i < count then
      match body i s with
      | Except.ok s' => for_loop count body fuel (i + 1) s'
      | Except.error e => Except.error e
    else Except.ok s

/-- Iteration `i` of a loop of `main` over a node set: it takes `nodeTab[i]`
and assigns `array[i]`.  `entry` is the rest of the body, on the node, the
global state and the entry. -/
def populate_array_body {M E G : Type} (entry : M → G × E → Except Abort (G × E))
    (nodeTab : List M) (i : Nat) (st : G × List E) : Except Abort (G × List E) :=
  match nodeTab.get? i, st.2.get? i with
  | some node, some cell =>
    match entry node (st.1, cell) with
    | Except.ok (g, cell') => Except.ok (g, st.2.set i cell')
    | Except.error e => Except.error e
  | _, _ => Except.error Abort.undefined

/-- The three loops of `main` over a node set (sub-certificates, root
certificate IDs, EMAIDs). -/
def populate_array {M E G : Type} (entry : M → G × E → Except Abort (G × E))
    (nodeTab : List M) (count : Nat) (st : G × List E) : Except Abort (G × List E) :=
  for_loop count (populate_array_body entry nodeTab) count 0 st

/-- The count that a loop of `main` processes: `if (n > SIZE) count = SIZE;
else count = n;`. -/
def clamp_count (n ARRAY_SIZE : Nat) : Nat :=
  if n > ARRAY_SIZE then ARRAY_SIZE else n

/-! ## The blocks of `main` -/

/-- The block of `main` on the count of `CertificateInstallationReq` nodes
(lines 401-406). -/
def populate_request (env : Env) (r : Run) : Except Abort Run :=
  if env.request_count ≠ 1 then Except.error Abort.cleanup
  else Except.ok { r with doc := { r.doc with CertificateInstallationReq_isUsed := some 1 } }

/-- The block of `main` on `SessionID` (lines 420-456).  The array
`SessionID.bytes` has `iso20_sessionIDType_BYTES_SIZE` cells. -/
def populate_session_id (k : Constants) (env : Env) (r : Run) : Except Abort Run :=
  match env.session_id with
  | none => Except.error Abort.cleanup
  | some session_id_hex =>
    match parse_session_id session_id_hex with
    | none => Except.error Abort.cleanup
    | some (session_id_bytes, decoded_len) =>
      -- memcpy(SessionID.bytes, session_id_bytes, decoded_len);
      match memcpy k.iso20_sessionIDType_BYTES_SIZE r.doc.SessionID_bytes
          (session_id_bytes.map some) decoded_len with
      | none => Except.error Abort.undefined
      | some bytes =>
        -- SessionID.bytesLen = (uint16_t)decoded_len;
        Except.ok { r with doc := { r.doc with
          SessionID_bytes := bytes
          SessionID_bytesLen := some (uint16 decoded_len) } }

/-- The block of `main` on `TimeStamp` (lines 459-489). -/
def populate_timestamp (env : Env) (r : Run) : Except Abort Run :=
  match env.timestamp with
  | none => Except.error Abort.cleanup
  | some timestamp_xml =>
    match parse_timestamp timestamp_xml with
    | none => Except.error Abort.cleanup
    | some ts_val => Except.ok { r with doc := { r.doc with TimeStamp := some ts_val } }

/-- The block of `main` on `Signature` (lines 492-509). -/
def populate_signature (env : Env) (r : Run) : Except Abort Run :=
  if env.signature_count > 0 then
    Except.ok { r with doc := { r.doc with Signature_isUsed := some 1 } }
  else if env.signature_count = 0 then
    Except.ok { r with doc := { r.doc with Signature_isUsed := some 0 } }
  else Except.error Abort.cleanup

/-- The body of the loop over the `Certificate` nodes (lines 547-582), after
`cur_node = nodeTab[i]`: `node` is what `xmlNodeGetContent` returns.  The array
`bytes` of an entry has `iso20_certificateType_BYTES_SIZE` cells. -/
def store_sub_certificate (k : Constants) (node : Option (List Int))
    (st : List Int × certificateType) : Except Abort (List Int × certificateType) :=
  match node with
  | none => Except.error Abort.cleanup
  | some sub_cert_base64 =>
    let sub_cert_base64_len := strlen sub_cert_base64
    match base64_decode st.1 sub_cert_base64 sub_cert_base64_len with
    | (DecodeResult.null, _) => Except.error Abort.cleanup
    | (DecodeResult.ok decoded current_decoded_len, table) =>
      if current_decoded_len > k.iso20_certificateType_BYTES_SIZE then
        -- memcpy(array[i].bytes, decoded_sub_certs[i], iso20_certificateType_BYTES_SIZE);
        match memcpy k.iso20_certificateType_BYTES_SIZE st.2.bytes decoded
            k.iso20_certificateType_BYTES_SIZE with
        | none => Except.error Abort.undefined
        | some bytes =>
          Except.ok (table,
            { bytes := bytes
              bytesLen := some (uint16 k.iso20_certificateType_BYTES_SIZE) })
      else
        -- memcpy(array[i].bytes, decoded_sub_certs[i], current_decoded_len);
        match memcpy k.iso20_certificateType_BYTES_SIZE st.2.bytes decoded
            current_decoded_len with
        | none => Except.error Abort.undefined
        | some bytes =>
          Except.ok (table,
            { bytes := bytes
              bytesLen := some (uint16 current_decoded_len) })
    | (DecodeResult.out_of_bounds, _) => Except.error Abort.undefined
    | (DecodeResult.out_of_fuel, _) => Except.error Abort.out_of_fuel

/-- The block of `main` on the sub-certificates (lines 521-595);
`sub_certs_nodes` is what `get_xpath_nodeset` returns. -/
def populate_sub_certificates (k : Constants)
    (sub_certs_nodes : Option (List (Option (List Int)))) (r : Run) : Except Abort Run :=
  match sub_certs_nodes with
  | some nodeTab =>
    let num_sub_certs := nodeTab.length
    if num_sub_certs > 0 then
      let sub_cert_count := clamp_count num_sub_certs k.iso20_certificateType_3_ARRAY_SIZE
      match populate_array (store_sub_certificate k) nodeTab sub_cert_count
          (r.table, r.doc.SubCertificates_array) with
      | Except.ok (table, array) =>
        Except.ok
          { doc := { r.doc with
              SubCertificates_isUsed := some 1
              SubCertificates_arrayLen := some (uint16 sub_cert_count)
              SubCertificates_array := array }
            table := table }
      | Except.error e => Except.error e
    else Except.ok { r with doc := { r.doc with SubCertificates_isUsed := some 0 } }
  | none => Except.ok { r with doc := { r.doc with SubCertificates_isUsed := some 0 } }

/-- The variables that the loop over the children of a `RootCertificateID`
node sets (lines 632-648). -/
structure ChildScan where
  issuer_name_xml : Option (List Int)
  serial_num_xml : Option (List Int)
  found_name : Bool
  found_serial : Bool
  deriving DecidableEq

/-- The loop `for (child = cur_node->children; child != NULL; child =
child->next)` of `main`. -/
def scan_children (children : List XmlChild) : ChildScan :=
  children.foldl
    (fun scan child =>
      match child.kind with
      | ChildKind.X509IssuerName =>
        { scan with issuer_name_xml := child.content, found_name := true }
      | ChildKind.X509SerialNumber =>
        { scan with serial_num_xml := child.content, found_serial := true }
      | _ => scan)
    ⟨none, none, false, false⟩

/-- The body of the loop over the `RootCertificateID` nodes (lines 626-704),
after `cur_node = nodeTab[i]`: `children` are the children of the node. -/
def store_root_certificate_id (k : Constants) (convert_to_signed : Int → Option exi_signed_t)
    (children : List XmlChild) (st : Unit × X509IssuerSerialType) :
    Except Abort (Unit × X509IssuerSerialType) :=
  let scan := scan_children children
  match scan.found_name, scan.issuer_name_xml, scan.found_serial, scan.serial_num_xml with
  | true, some issuer_name_str, true, some serial_num_xml =>
    let name := copy_string_field k.iso20_X509IssuerName_CHARACTER_SIZE
      st.2.X509IssuerName_characters issuer_name_str
    -- errno = 0; serial_ll = strtoll(serial_num_xml, &endptr_serial, 10);
    let conv := strtoll serial_num_xml
    -- if (errno != 0 || *endptr_serial != '\0' || serial_num_xml == endptr_serial)
    if conv.erange = true ∨ serial_num_xml.getD conv.endptr 0 ≠ 0 ∨ conv.endptr = 0 then
      Except.error Abort.cleanup
    else
      -- if (exi_basetypes_convert_to_signed(&X509SerialNumber, serial_ll, 8) != 0)
      match convert_to_signed conv.value with
      | none => Except.error Abort.cleanup
      | some serial =>
        Except.ok ((),
          { X509IssuerName_characters := name.1
            X509IssuerName_charactersLen := some name.2
            X509SerialNumber := some serial })
  | _, _, _, _ => Except.error Abort.cleanup

/-- The block of `main` on the root certificate IDs (lines 598-708);
`root_id_nodes` is what `get_xpath_nodeset` returns. -/
def populate_root_certificate_ids (k : Constants)
    (convert_to_signed : Int → Option exi_signed_t)
    (root_id_nodes : Option (List (List XmlChild))) (r : Run) : Except Abort Run :=
  match root_id_nodes with
  | none => Except.error Abort.cleanup
  | some nodeTab =>
    -- xmlXPathNodeSetIsEmpty(root_id_nodes->nodesetval)
    if nodeTab.length = 0 then Except.error Abort.cleanup
    else
      let root_id_count := clamp_count nodeTab.length k.iso20_X509IssuerSerialType_20_ARRAY_SIZE
      match populate_array (store_root_certificate_id k convert_to_signed) nodeTab
          root_id_count ((), r.doc.RootCertificateID_array) with
      | Except.ok (_, array) =>
        Except.ok { r with doc := { r.doc with
          RootCertificateID_arrayLen := some (uint16 root_id_count)
          RootCertificateID_array := array } }
      | Except.error e => Except.error e

/-- The block of `main` on `MaximumContractCertificateChains` (lines 711-740). -/
def populate_maximum_chains (env : Env) (r : Run) : Except Abort Run :=
  match env.max_chains with
  | none => Except.error Abort.cleanup
  | some max_chains_xml =>
    match parse_max_chains max_chains_xml with
    | none => Except.error Abort.cleanup
    | some maxc_val =>
      Except.ok { r with doc := { r.doc with MaximumContractCertificateChains := some maxc_val } }

/-- The body of the loop over the `EMAID` nodes (lines 769-794), after
`cur_node = nodeTab[i]`: `node` is what `xmlNodeGetContent` returns. -/
def store_emaid (k : Constants) (node : Option (List Int)) (st : Unit × identifierType) :
    Except Abort (Unit × identifierType) :=
  match node with
  | none => Except.error Abort.cleanup
  | some emaid_str =>
    let field := copy_string_field k.iso20_EMAID_CHARACTER_SIZE st.2.characters emaid_str
    Except.ok ((), { characters := field.1, charactersLen := some field.2 })

/-- The block of `main` on the prioritized EMAIDs (lines 743-825);
`emaids_present` is what `get_xpath_count` returns for `PrioritizedEMAIDs` and
`emaid_nodes` what `get_xpath_nodeset` returns for its `EMAID` children. -/
def populate_prioritized_emaids (k : Constants) (emaids_present : Int)
    (emaid_nodes : Option (List (Option (List Int)))) (r : Run) : Except Abort Run :=
  if emaids_present > 0 then
    match emaid_nodes with
    | some nodeTab =>
      if nodeTab.length > 0 then
        let num_emaids := clamp_count nodeTab.length k.iso20_identifierType_8_ARRAY_SIZE
        match populate_array (store_emaid k) nodeTab num_emaids ((), r.doc.EMAID_array) with
        | Except.ok (_, array) =>
          Except.ok { r with doc := { r.doc with
            PrioritizedEMAIDs_isUsed := some 1
            EMAID_arrayLen := some (uint16 num_emaids)
            EMAID_array := array } }
        | Except.error e => Except.error e
      else Except.ok { r with doc := { r.doc with PrioritizedEMAIDs_isUsed := some 0 } }
    | none => Except.ok { r with doc := { r.doc with PrioritizedEMAIDs_isUsed := some 0 } }
  else if emaids_present = 0 then
    Except.ok { r with doc := { r.doc with PrioritizedEMAIDs_isUsed := some 0 } }
  else Except.error Abort.cleanup

/-- The blocks of `main` that populate the record, in the order of the
source. -/
def stages (k : Constants) (env : Env) : List (Step × (Run → Except Abort Run)) :=
  [(Step.request, populate_request env),
   (Step.session_id, populate_session_id k env),
   (Step.timestamp, populate_timestamp env),
   (Step.signature, populate_signature env),
   (Step.sub_certificates, populate_sub_certificates k env.sub_certs),
   (Step.root_certificate_ids,
     populate_root_certificate_ids k env.convert_to_signed env.root_ids),
   (Step.maximum_chains, populate_maximum_chains env),
   (Step.prioritized_emaids, populate_prioritized_emaids k env.emaids_present env.emaids)]

/-- The blocks run one after the other; the first that stops the population
ends the sequence.  The result is the list of the blocks entered and the
state, or how the population stopped. -/
def run_stages : List (Step × (Run → Except Abort Run)) → Run → List Step →
    List Step × Except Abort Run
  | [], r, trace => (trace, Except.ok r)
  | (step, block) :: rest, r, trace =>
    match block r with
    | Except.ok r' => run_stages rest r' (trace ++ [step])
    | Except.error e => (trace ++ [step], Except.error e)

/-- What a run of `main` does: its return value, what it writes to `stdout`,
the blocks it entered, and the record it handed to the encoder, if it called
the encoder. -/
structure Outcome where
  exit_status : Int
  stdout : List Int
  trace : List Step
  encoder_input : Option Doc
  deriving DecidableEq

/-- The return statement of `main`:
`return (result == 0 && base64_output) ? 0 : 1;`. -/
def exit_status (result : Int) (base64_output : Bool) : Int :=
  if result = 0 ∧ base64_output = true then 0 else 1

/-- The function `main` of `encoder_main.c` from the end of the read loop on.
`none` is a run with undefined behaviour (a read outside an object). -/
def main (k : Constants) (env : Env) : Option Outcome :=
  -- if (ferror(stdin)) return 1;
  if env.read_error = true then some ⟨1, [], [], none⟩
  -- doc_xml == NULL or xpathCtx == NULL: goto cleanup with result = 0
  else if env.document_parsed = false ∨ env.context_created = false then
    some ⟨exit_status 0 false, [], [], none⟩
  else
    match run_stages (stages k env) ⟨initial_doc k, initial_decoding_table⟩ [] with
    | (trace, Except.error Abort.cleanup) => some ⟨exit_status 0 false, [], trace, none⟩
    | (_, Except.error _) => none
    | (trace, Except.ok r) =>
      -- result = encode_iso20_exiDocument(&stream, &doc);
      let encoded := env.encode r.doc
      let result := encoded.1
      let exi_buffer := encoded.2.1
      if result ≠ k.EXI_ERROR__NO_ERROR then
        some ⟨exit_status result false, [], trace ++ [Step.encode], some r.doc⟩
      else
        -- encoded_size = exi_bitstream_get_length(&stream);
        let encoded_size := encoded.2.2
        if encoded_size > exi_buffer.length then none
        else
          -- base64_output = base64_encode(exi_buffer, encoded_size);
          match base64_encode exi_buffer encoded_size with
          | none => some ⟨exit_status result false, [], trace ++ [Step.encode], some r.doc⟩
          | some base64_output =>
            -- fprintf(stdout, "%s\n", base64_output);
            some ⟨exit_status result true, c_string base64_output ++ [10],
              trace ++ [Step.encode], some r.doc⟩

/-! ### Vocabulary of the claims on `main` -/

/-- A SessionID text that the specification accepts: non-empty, of even length,
at most 16 characters, all of them hex digits. -/
def isSessionIDText (h : List Int) : Prop :=
  h ≠ [] ∧ h.length % 2 = 0 ∧ h.length ≤ 16 ∧ ∀ c ∈ h, isHexDigit c

/-- The bytes that a hex text denotes. -/
def hex_bytes (h : List Int) : List Nat :=
  (List.range (h.length / 2)).map (hexPairValue h)

/-- The fixed order in which `main` processes the fields and calls the
encoder. -/
def processing_order : List Step :=
  [Step.request, Step.session_id, Step.timestamp, Step.signature, Step.sub_certificates,
   Step.root_certificate_ids, Step.maximum_chains, Step.prioritized_emaids, Step.encode]

/-- A `RootCertificateID` node has both an `X509IssuerName` and an
`X509SerialNumber` with content, and the serial number is a complete numeral
in the range of `long long` that the conversion to `exi_signed_t` accepts. -/
def root_id_ok (convert_to_signed : Int → Option exi_signed_t) (children : List XmlChild) :
    Prop :=
  (scan_children children).found_name = true ∧
  (∃ name, (scan_children children).issuer_name_xml = some name) ∧
  (scan_children children).found_serial = true ∧
  ∃ serial, (scan_children children).serial_num_xml = some serial ∧
    (strtoll serial).erange = false ∧ serial.getD (strtoll serial).endptr 0 = 0 ∧
    (strtoll serial).endptr ≠ 0 ∧ ∃ v, convert_to_signed (strtoll serial).value = some v

/-- Small capacities for the sample run: 8 SessionID bytes, 3 sub-certificates
of 4 bytes, 2 root certificate IDs with names of 5 characters, 2 EMAIDs of 4
characters, and `EXI_ERROR__NO_ERROR = 0`. -/
def sample_constants : Constants := ⟨8, 3, 4, 2, 5, 2, 4, 0⟩

/-- The sample run: a request with SessionID `01AB`, TimeStamp `12`, a
signature, one sub-certificate `QUJD`, one root certificate ID (`CA`, `7`),
`MaximumContractCertificateChains` 3, three EMAIDs, and an encoder that reports
one byte written to a buffer that starts with the bytes 1, 2, 3. -/
def sample_env : Env :=
  { read_error := false
    document_parsed := true
    context_created := true
    request_count := 1
    session_id := some [48, 49, 65, 66]
    timestamp := some [49, 50]
    signature_count := 1
    sub_certs := some [some [81, 85, 74, 68]]
    root_ids := some [[⟨ChildKind.X509IssuerName, some [67, 65]⟩,
      ⟨ChildKind.X509SerialNumber, some [55]⟩]]
    max_chains := some [51]
    emaids_present := 1
    emaids := some [some [69], some [70], some [71]]
    convert_to_signed := fun v => some ⟨decide (v < 0), [v.natAbs % 256]⟩
    encode := fun _ => (0, [1, 2, 3], 1) }

/-- The sample run with the TimeStamp text `-1` in place of `12`. -/
def sample_env_negative_timestamp : Env :=
  { sample_env with timestamp := some [45, 49] }

/-! ## Lemmas on hex decoding -/

theorem strlen_eq_length (s : List Int) (hs : ∀ c ∈ s, c ≠ 0) : strlen s = s.length := by
  induction s with
  | nil => rfl
  | cons c rest ih =>
    have hc : c ≠ 0 := hs c (List.mem_cons_self _ _)
    have hrest : ∀ d ∈ rest, d ≠ 0 := fun d hd => hs d (List.mem_cons_of_mem _ hd)
    simp [strlen, hc, ih hrest]

theorem int_of_size_t_small (n : Nat) (h : n ≤ INT_MAX) : int_of_size_t n = (n : Int) := by
  unfold INT_MAX at h
  have h1 : n % 2 ^ 32 = n := Nat.mod_eq_of_lt (by omega)
  unfold int_of_size_t
  rw [h1, if_pos (by omega)]

theorem hex_char_to_int_ne_iff (c : Int) : hex_char_to_int c ≠ -1 ↔ isHexDigit c := by
  unfold hex_char_to_int isHexDigit
  split_ifs <;> omega

theorem hex_char_to_int_eq_hexValue (c : Int) (h : isHexDigit c) :
    hex_char_to_int c = (hexValue c : Int) := by
  unfold isHexDigit at h
  unfold hex_char_to_int hexValue
  split_ifs <;> omega

theorem hexValue_lt (c : Int) : hexValue c < 16 := by
  unfold hexValue
  split_ifs <;> omega

theorem shiftLeft_four_lor : ∀ h < 16, ∀ l < 16, (h <<< 4) ||| l = 16 * h + l := by
  decide

theorem nibbles_to_byte_eq (a b : Int) (ha : isHexDigit a) (hb : isHexDigit b) :
    nibbles_to_byte (hex_char_to_int a) (hex_char_to_int b) = 16 * hexValue a + hexValue b := by
  unfold nibbles_to_byte
  rw [hex_char_to_int_eq_hexValue a ha, hex_char_to_int_eq_hexValue b hb]
  simp only [Int.toNat_ofNat]
  rw [shiftLeft_four_lor _ (hexValue_lt a) _ (hexValue_lt b)]
  have := hexValue_lt a
  have := hexValue_lt b
  omega

/-- The loop of `hex_decode` started at index `i` with enough budget: when the
pairs `i .. k-1` are valid and `k` is the end of the text or an invalid pair,
the loop returns (the length, or -3), has written the bytes of the pairs
`i .. k-1` and has left every other cell alone. -/
theorem hex_decode_loop_spec (s : List Int) (byte_len k : Nat) (hk : k ≤ byte_len)
    (hbad : k < byte_len → ¬ hexPairValid s k) :
    ∀ (fuel i : Nat) (arr : List Nat), byte_len - i ≤ fuel → i ≤ k →
      (∀ p, i ≤ p → p < k → hexPairValid s p) →
      ∃ arr', hex_decode_loop s byte_len fuel i arr =
          some (if k < byte_len then -3 else int_of_size_t byte_len, arr') ∧
        arr'.length = arr.length ∧
        (∀ p, i ≤ p → p < k → p < arr.length → arr'[p]? = some (hexPairValue s p)) ∧
        (∀ p, p < i ∨ k ≤ p → arr'[p]? = arr[p]?) := by
  intro fuel
  induction fuel with
  | zero =>
    intro i arr hfuel hik _
    have hi : ¬ i < byte_len := by omega
    have hkb : ¬ k < byte_len := by omega
    refine ⟨arr, ?_, rfl, ?_, fun _ _ => rfl⟩
    · simp [hex_decode_loop, hi, hkb]
    · intro p h1 h2; omega
  | succ fuel ih =>
    intro i arr hfuel hik hvalid
    by_cases hi : i < byte_len
    · by_cases hik' : i = k
      · -- the pair at `i` is invalid
        have hb := hbad (by omega)
        rw [← hik'] at hb
        have hcond : hex_char_to_int (s.getD (2 * i) 0) = -1 ∨
            hex_char_to_int (s.getD (2 * i + 1) 0) = -1 := by
          by_contra hcon
          push_neg at hcon
          exact hb ⟨(hex_char_to_int_ne_iff _).1 hcon.1, (hex_char_to_int_ne_iff _).1 hcon.2⟩
        refine ⟨arr, ?_, rfl, ?_, fun _ _ => rfl⟩
        · have hkb : k < byte_len := by omega
          simp only [hex_decode_loop, if_pos hi, if_pos hcond, if_pos hkb]
        · intro p h1 h2; omega
      · have hv := hvalid i (le_refl _) (by omega)
        have hcond : ¬ (hex_char_to_int (s.getD (2 * i) 0) = -1 ∨
            hex_char_to_int (s.getD (2 * i + 1) 0) = -1) := by
          intro hcon
          rcases hcon with hcon | hcon
          · exact (hex_char_to_int_ne_iff _).2 hv.1 hcon
          · exact (hex_char_to_int_ne_iff _).2 hv.2 hcon
        obtain ⟨arr', hrun, hlen, hwritten, hrest⟩ :=
          ih (i + 1) (arr.set i (nibbles_to_byte (hex_char_to_int (s.getD (2 * i) 0))
            (hex_char_to_int (s.getD (2 * i + 1) 0)))) (by omega) (by omega)
            (fun p h1 h2 => hvalid p (by omega) h2)
        refine ⟨arr', ?_, ?_, ?_, ?_⟩
        · simp only [hex_decode_loop, if_pos hi, if_neg hcond]
          exact hrun
        · rw [hlen, List.length_set]
        · intro p h1 h2 h3
          by_cases hp : p = i
          · subst hp
            rw [hrest p (Or.inl (by omega)), List.getElem?_set_self h3,
              nibbles_to_byte_eq _ _ hv.1 hv.2]
            rfl
          · exact hwritten p (by omega) h2 (by rw [List.length_set]; exact h3)
        · intro p hp
          rw [hrest p (by omega), List.getElem?_set_ne (by omega)]
    · have hkb : ¬ k < byte_len := by omega
      refine ⟨arr, ?_, rfl, ?_, fun _ _ => rfl⟩
      · simp only [hex_decode_loop, if_neg hi, if_neg hkb]
      · intro p h1 h2; omega

theorem getD_mem_of_lt (s : List Int) (i : Nat) (h : i < s.length) : s.getD i 0 ∈ s := by
  rw [List.getD_eq_getElem s 0 h]
  exact List.getElem_mem h

theorem hexPairValid_of_all (s : List Int) (hall : ∀ c ∈ s, isHexDigit c) (k : Nat)
    (hk : k < s.length / 2) : hexPairValid s k :=
  ⟨hall _ (getD_mem_of_lt s _ (by omega)), hall _ (getD_mem_of_lt s _ (by omega))⟩

theorem all_hex_of_pairs (s : List Int) (heven : s.length % 2 = 0)
    (hp : ∀ k, k < s.length / 2 → hexPairValid s k) : ∀ c ∈ s, isHexDigit c := by
  intro c hc
  obtain ⟨n, hn, rfl⟩ := List.mem_iff_getElem.1 hc
  have hv := hp (n / 2) (by omega)
  rcases Nat.mod_two_eq_zero_or_one n with h0 | h1
  · have : 2 * (n / 2) = n := by omega
    have h := hv.1
    rw [this, List.getD_eq_getElem s 0 hn] at h
    exact h
  · have : 2 * (n / 2) + 1 = n := by omega
    have h := hv.2
    rw [this, List.getD_eq_getElem s 0 hn] at h
    exact h

/-- In an even-length text with a character that is no hex digit there is a
first invalid pair. -/
theorem exists_first_invalid_pair (s : List Int) (heven : s.length % 2 = 0)
    (hbad : ∃ c ∈ s, ¬ isHexDigit c) :
    ∃ k, k < s.length / 2 ∧ ¬ hexPairValid s k ∧ ∀ p, p < k → hexPairValid s p := by
  classical
  have hex : ∃ k, k < s.length / 2 ∧ ¬ hexPairValid s k := by
    by_contra hcon
    push_neg at hcon
    obtain ⟨c, hc, hnot⟩ := hbad
    exact hnot (all_hex_of_pairs s heven hcon c hc)
  refine ⟨Nat.find hex, (Nat.find_spec hex).1, (Nat.find_spec hex).2, ?_⟩
  intro p hp
  by_contra hcon
  have hlt : p < s.length / 2 := lt_trans hp (Nat.find_spec hex).1
  exact Nat.find_min hex hp ⟨hlt, hcon⟩

theorem hex_decode_odd (s : List Int) (arr : List Nat) (max_bytes : Nat)
    (hs : ∀ c ∈ s, c ≠ 0) (hodd : s.length % 2 = 1) :
    hex_decode s arr max_bytes = some (-1, arr) := by
  have h : ¬ s.length % 2 = 0 := by omega
  simp [hex_decode, strlen_eq_length s hs, h]

theorem hex_decode_too_small (s : List Int) (arr : List Nat) (max_bytes : Nat)
    (hs : ∀ c ∈ s, c ≠ 0) (heven : s.length % 2 = 0) (hmax : max_bytes < s.length / 2) :
    hex_decode s arr max_bytes = some (-2, arr) := by
  simp [hex_decode, strlen_eq_length s hs, heven, hmax]

theorem hex_decode_even (s : List Int) (arr : List Nat) (max_bytes : Nat)
    (hs : ∀ c ∈ s, c ≠ 0) (heven : s.length % 2 = 0) (hmax : s.length / 2 ≤ max_bytes) :
    hex_decode s arr max_bytes =
      hex_decode_loop s (s.length / 2) (s.length / 2) 0 arr := by
  have h : ¬ max_bytes < s.length / 2 := by omega
  simp [hex_decode, strlen_eq_length s hs, heven, h]

theorem hex_char_to_int_asciiUpper (c : Int) :
    hex_char_to_int (asciiUpper c) = hex_char_to_int c := by
  unfold hex_char_to_int asciiUpper
  split_ifs <;> omega

theorem hex_char_to_int_asciiLower (c : Int) :
    hex_char_to_int (asciiLower c) = hex_char_to_int c := by
  unfold hex_char_to_int asciiLower
  split_ifs <;> omega

theorem getD_map_zero (f : Int → Int) (hf : f 0 = 0) (s : List Int) (i : Nat) :
    (s.map f).getD i 0 = f (s.getD i 0) := by
  rw [List.getD_eq_getElem?_getD, List.getD_eq_getElem?_getD, List.getElem?_map]
  cases s[i]? <;> simp [hf]

theorem strlen_map (f : Int → Int) (hf : ∀ c, f c = 0 ↔ c = 0) (s : List Int) :
    strlen (s.map f) = strlen s := by
  induction s with
  | nil => rfl
  | cons c rest ih =>
    by_cases hc : c = 0
    · simp [strlen, hc, (hf 0).2 rfl]
    · have : f c ≠ 0 := fun h => hc ((hf c).1 h)
      simp [strlen, hc, this, ih]

/-- The loop of `hex_decode` depends on the text only through the values
`hex_char_to_int` gives to its characters. -/
theorem hex_decode_loop_congr (s t : List Int) (byte_len : Nat)
    (h : ∀ i, hex_char_to_int (s.getD i 0) = hex_char_to_int (t.getD i 0)) :
    ∀ (fuel i : Nat) (arr : List Nat),
      hex_decode_loop s byte_len fuel i arr = hex_decode_loop t byte_len fuel i arr := by
  intro fuel
  induction fuel with
  | zero => intro i arr; rfl
  | succ fuel ih =>
    intro i arr
    simp only [hex_decode_loop, h, ih]

theorem hex_decode_map (f : Int → Int) (hf : ∀ c, f c = 0 ↔ c = 0)
    (hv : ∀ c, hex_char_to_int (f c) = hex_char_to_int c)
    (s : List Int) (arr : List Nat) (max_bytes : Nat) :
    hex_decode (s.map f) arr max_bytes = hex_decode s arr max_bytes := by
  have hloop := hex_decode_loop_congr (s.map f) s (strlen s / 2)
    (fun i => by rw [getD_map_zero f ((hf 0).2 rfl), hv])
  simp only [hex_decode, strlen_map f hf, hloop]

theorem asciiUpper_eq_zero (c : Int) : asciiUpper c = 0 ↔ c = 0 := by
  unfold asciiUpper
  split_ifs <;> omega

theorem asciiLower_eq_zero (c : Int) : asciiLower c = 0 ↔ c = 0 := by
  unfold asciiLower
  split_ifs <;> omega

/-! ## The hex claims -/

/-- C3, as stated, fails: a text of `2^32` characters `0` is an even-length
text of hex digits, and with `max_bytes = 2^31` the call returns
`(int)2147483648 = -2147483648`, a negative code, not `n/2`. -/
theorem hex_decode_validity_counterexample :
    (∀ c ∈ List.replicate 4294967296 (48 : Int), isHexDigit c) ∧
    (List.replicate 4294967296 (48 : Int)).length % 2 = 0 ∧
    (List.replicate 4294967296 (48 : Int)).length / 2 ≤ 2147483648 ∧
    ∃ arr', hex_decode (List.replicate 4294967296 48) (List.replicate 2147483648 0)
      2147483648 = some (-2147483648, arr') := by
  have hlen : (List.replicate 4294967296 (48 : Int)).length = 4294967296 :=
    List.length_replicate _ _
  have hall : ∀ c ∈ List.replicate 4294967296 (48 : Int), isHexDigit c := by
    intro c hc
    rw [List.eq_of_mem_replicate hc]
    decide
  have hs : ∀ c ∈ List.replicate 4294967296 (48 : Int), c ≠ 0 := by
    intro c hc
    rw [List.eq_of_mem_replicate hc]
    decide
  have heven : (List.replicate 4294967296 (48 : Int)).length % 2 = 0 := by
    rw [hlen]
  have hhalf : (List.replicate 4294967296 (48 : Int)).length / 2 = 2147483648 := by
    rw [hlen]
  refine ⟨hall, heven, by rw [hhalf], ?_⟩
  obtain ⟨arr', hrun, _⟩ := hex_decode_loop_spec (List.replicate 4294967296 (48 : Int))
    2147483648 2147483648 (le_refl _) (fun h => absurd h (lt_irrefl _))
    2147483648 0 (List.replicate 2147483648 0) (by omega) (Nat.zero_le _)
    (fun p _ hp => hexPairValid_of_all _ hall p (by rw [hhalf]; exact hp))
  refine ⟨arr', ?_⟩
  rw [hex_decode_even _ _ _ hs heven (by rw [hhalf]), hhalf, hrun, if_neg (lt_irrefl _)]
  rfl

/-- C3 (amended): for every text `s` of length `n` with `n/2 <= INT_MAX` and
every `max_bytes >= n/2`, `hex_decode` returns a negative code if `n` is odd
or `s` has a character outside `0-9`, `a-f`, `A-F`, and returns exactly `n/2`
otherwise; it returns a non-negative value if and only if `s` is an
even-length text of hex digits. -/
theorem hex_decode_validity (s : List Int) (arr : List Nat) (max_bytes : Nat)
    (hs : ∀ c ∈ s, c ≠ 0) (hmax : s.length / 2 ≤ max_bytes)
    (hint : s.length / 2 ≤ INT_MAX) :
    ∃ code arr', hex_decode s arr max_bytes = some (code, arr') ∧
      ((s.length % 2 = 1 ∨ ∃ c ∈ s, ¬ isHexDigit c) → code < 0) ∧
      ((s.length % 2 = 0 ∧ ∀ c ∈ s, isHexDigit c) → code = ((s.length / 2 : Nat) : Int)) ∧
      (0 ≤ code ↔ (s.length % 2 = 0 ∧ ∀ c ∈ s, isHexDigit c)) := by
  rcases Nat.mod_two_eq_zero_or_one s.length with heven | hodd
  · by_cases hall : ∀ c ∈ s, isHexDigit c
    · obtain ⟨arr', hrun, _⟩ := hex_decode_loop_spec s (s.length / 2) (s.length / 2)
        (le_refl _) (fun h => absurd h (lt_irrefl _)) (s.length / 2) 0 arr (by omega)
        (Nat.zero_le _) (fun p _ hp => hexPairValid_of_all s hall p hp)
      rw [if_neg (lt_irrefl _), int_of_size_t_small _ hint] at hrun
      refine ⟨_, arr', by rw [hex_decode_even s arr max_bytes hs heven hmax]; exact hrun,
        ?_, fun _ => rfl, ?_⟩
      · rintro (h | ⟨c, hc, hnot⟩)
        · omega
        · exact absurd (hall c hc) hnot
      · exact ⟨fun _ => ⟨heven, hall⟩, fun _ => Int.natCast_nonneg _⟩
    · have hbad : ∃ c ∈ s, ¬ isHexDigit c := by
        push_neg at hall
        exact hall
      obtain ⟨k, hk, hkbad, hbefore⟩ := exists_first_invalid_pair s heven hbad
      obtain ⟨arr', hrun, _⟩ := hex_decode_loop_spec s (s.length / 2) k (le_of_lt hk)
        (fun _ => hkbad) (s.length / 2) 0 arr (by omega) (Nat.zero_le _)
        (fun p _ hp => hbefore p hp)
      rw [if_pos hk] at hrun
      refine ⟨_, arr', by rw [hex_decode_even s arr max_bytes hs heven hmax]; exact hrun,
        fun _ => by decide, fun h => absurd h.2 hall, ?_⟩
      exact ⟨fun h => absurd h (by decide), fun h => absurd h.2 hall⟩
  · refine ⟨_, arr, hex_decode_odd s arr max_bytes hs hodd, fun _ => by decide,
      fun h => by omega, ?_⟩
    exact ⟨fun h => absurd h (by decide), fun h => by omega⟩

/-- Witness of C3 (amended) at the text `"01Af"`. -/
theorem hex_decode_validity_witness :
    ∃ code arr', hex_decode [48, 49, 65, 102] [255, 255] 2 = some (code, arr') ∧
      (([48, 49, 65, 102] : List Int).length % 2 = 1 ∨
        (∃ c ∈ ([48, 49, 65, 102] : List Int), ¬ isHexDigit c) → code < 0) ∧
      ((([48, 49, 65, 102] : List Int).length % 2 = 0 ∧
        ∀ c ∈ ([48, 49, 65, 102] : List Int), isHexDigit c) →
        code = ((([48, 49, 65, 102] : List Int).length / 2 : Nat) : Int)) ∧
      (0 ≤ code ↔ (([48, 49, 65, 102] : List Int).length % 2 = 0 ∧
        ∀ c ∈ ([48, 49, 65, 102] : List Int), isHexDigit c)) :=
  hex_decode_validity [48, 49, 65, 102] [255, 255] 2 (by decide) (by decide) (by decide)

/-- C4, as stated, fails: on the text `"00zz"` with the array `[255, 255]`
the call returns -3 after it has overwritten cell 0 with the decoded byte 0. -/
theorem hex_decode_atomic_counterexample :
    hex_decode [48, 48, 122, 122] [255, 255] 2 = some (-3, [0, 255]) ∧
    ([0, 255] : List Nat) ≠ [255, 255] := by
  decide

/-- C4 (amended): on an odd length `hex_decode` returns -1, and on an output
that is too small it returns -2, in both cases with the caller's array exactly
as it was.  When the first invalid pair is pair `k`, it returns -3, the cells
from index `k` on are as they were, and the cells below `k` hold the decoded
bytes of the pairs before `k`. -/
theorem hex_decode_failure_effect (s : List Int) (arr : List Nat) (max_bytes : Nat)
    (hs : ∀ c ∈ s, c ≠ 0) :
    (s.length % 2 = 1 → hex_decode s arr max_bytes = some (-1, arr)) ∧
    (s.length % 2 = 0 → max_bytes < s.length / 2 →
      hex_decode s arr max_bytes = some (-2, arr)) ∧
    (∀ k, s.length % 2 = 0 → s.length / 2 ≤ max_bytes → k < s.length / 2 →
      ¬ hexPairValid s k → (∀ p, p < k → hexPairValid s p) →
      ∃ arr', hex_decode s arr max_bytes = some (-3, arr') ∧
        arr'.length = arr.length ∧
        (∀ p, p < k → p < arr.length → arr'[p]? = some (hexPairValue s p)) ∧
        (∀ p, k ≤ p → arr'[p]? = arr[p]?)) := by
  refine ⟨hex_decode_odd s arr max_bytes hs, hex_decode_too_small s arr max_bytes hs, ?_⟩
  intro k heven hmax hk hkbad hbefore
  obtain ⟨arr', hrun, hlen, hwritten, hrest⟩ := hex_decode_loop_spec s (s.length / 2) k
    (le_of_lt hk) (fun _ => hkbad) (s.length / 2) 0 arr (by omega) (Nat.zero_le _)
    (fun p _ hp => hbefore p hp)
  rw [if_pos hk] at hrun
  refine ⟨arr', by rw [hex_decode_even s arr max_bytes hs heven hmax]; exact hrun, hlen,
    fun p hp hlt => hwritten p (Nat.zero_le _) hp hlt, fun p hp => hrest p (Or.inr hp)⟩

/-- Witness of C4 (amended) at the text `"00zz"`, whose first invalid pair is
pair 1. -/
theorem hex_decode_failure_effect_witness :
    ∃ arr', hex_decode [48, 48, 122, 122] [255, 255] 2 = some (-3, arr') ∧
      arr'.length = ([255, 255] : List Nat).length ∧
      (∀ p, p < 1 → p < ([255, 255] : List Nat).length →
        arr'[p]? = some (hexPairValue [48, 48, 122, 122] p)) ∧
      (∀ p, 1 ≤ p → arr'[p]? = ([255, 255] : List Nat)[p]?) :=
  (hex_decode_failure_effect [48, 48, 122, 122] [255, 255] 2 (by decide)).2.2 1
    (by decide) (by decide) (by decide) (by decide) (by decide)

/-- C5: for every even-length text `s` of hex digits with
`len(s)/2 <= max_bytes` (the array having room for `max_bytes` bytes),
`hex_decode` succeeds and output byte `i` is `16*v(s[2i]) + v(s[2i+1])` for
every `i < len(s)/2`; and the upper-cased and the lower-cased text decode to
the same result as `s`. -/
theorem hex_decode_value (s : List Int) (arr : List Nat) (max_bytes : Nat)
    (hs : ∀ c ∈ s, c ≠ 0) (heven : s.length % 2 = 0) (hall : ∀ c ∈ s, isHexDigit c)
    (hmax : s.length / 2 ≤ max_bytes) (hcap : max_bytes ≤ arr.length) :
    (∃ arr', hex_decode s arr max_bytes = some (int_of_size_t (s.length / 2), arr') ∧
      arr'.length = arr.length ∧
      (∀ i, i < s.length / 2 → arr'[i]? = some (hexPairValue s i)) ∧
      (∀ i, s.length / 2 ≤ i → arr'[i]? = arr[i]?)) ∧
    hex_decode (s.map asciiUpper) arr max_bytes = hex_decode s arr max_bytes ∧
    hex_decode (s.map asciiLower) arr max_bytes = hex_decode s arr max_bytes := by
  refine ⟨?_, hex_decode_map asciiUpper asciiUpper_eq_zero hex_char_to_int_asciiUpper _ _ _,
    hex_decode_map asciiLower asciiLower_eq_zero hex_char_to_int_asciiLower _ _ _⟩
  obtain ⟨arr', hrun, hlen, hwritten, hrest⟩ := hex_decode_loop_spec s (s.length / 2)
    (s.length / 2) (le_refl _) (fun h => absurd h (lt_irrefl _)) (s.length / 2) 0 arr
    (by omega) (Nat.zero_le _) (fun p _ hp => hexPairValid_of_all s hall p hp)
  rw [if_neg (lt_irrefl _)] at hrun
  refine ⟨arr', by rw [hex_decode_even s arr max_bytes hs heven hmax]; exact hrun, hlen,
    fun i hi => hwritten i (Nat.zero_le _) hi (by omega), fun i hi => hrest i (Or.inr hi)⟩

/-- Witness of C5 at the text `"01Af"`, which decodes to the bytes 1 and 175. -/
theorem hex_decode_value_witness :
    (∃ arr', hex_decode [48, 49, 65, 102] [255, 255, 255] 3 =
        some (int_of_size_t (([48, 49, 65, 102] : List Int).length / 2), arr') ∧
      arr'.length = ([255, 255, 255] : List Nat).length ∧
      (∀ i, i < ([48, 49, 65, 102] : List Int).length / 2 →
        arr'[i]? = some (hexPairValue [48, 49, 65, 102] i)) ∧
      (∀ i, ([48, 49, 65, 102] : List Int).length / 2 ≤ i →
        arr'[i]? = ([255, 255, 255] : List Nat)[i]?)) ∧
    hex_decode (([48, 49, 65, 102] : List Int).map asciiUpper) [255, 255, 255] 3 =
      hex_decode [48, 49, 65, 102] [255, 255, 255] 3 ∧
    hex_decode (([48, 49, 65, 102] : List Int).map asciiLower) [255, 255, 255] 3 =
      hex_decode [48, 49, 65, 102] [255, 255, 255] 3 :=
  hex_decode_value [48, 49, 65, 102] [255, 255, 255] 3 (by decide) (by decide) (by decide)
    (by decide) (by decide)

/-! ## Lemmas on base64 encoding -/

theorem getD_guard (b : List Nat) (i : Nat) :
    (if i < b.length then b.getD i 0 else 0) = b.getD i 0 := by
  split_ifs with h
  · rfl
  · rw [List.getD_eq_default]
    omega

/-- One iteration of the loop of `base64_encode` on group `k`. -/
theorem base64_encode_loop_step (b : List Nat) (fuel k : Nat) (output : List (Option Int))
    (hi : 3 * k < b.length) :
    base64_encode_loop b b.length (fuel + 1) (3 * k) (4 * k) output =
      base64_encode_loop b b.length fuel (min (3 * k + 3) b.length) (4 * (k + 1))
        ((((output.set (4 * k) (some (sextet_char (triple_at b k) 0))).set (4 * k + 1)
          (some (sextet_char (triple_at b k) 1))).set (4 * k + 2)
          (some (sextet_char (triple_at b k) 2))).set (4 * k + 3)
          (some (sextet_char (triple_at b k) 3))) := by
  have h4 : 4 * (k + 1) = 4 * k + 4 := by ring
  simp only [base64_encode_loop, if_pos hi, h4, sextet_char, triple_at]
  by_cases h1 : 3 * k + 1 < b.length
  · by_cases h2 : 3 * k + 1 + 1 < b.length
    · have hmin : min (3 * k + 3) b.length = 3 * k + 1 + 1 + 1 := by omega
      simp only [if_pos h1, if_pos h2, hmin]
    · have hmin : min (3 * k + 3) b.length = 3 * k + 1 + 1 := by omega
      have h0 : b.getD (3 * k + 2) 0 = 0 := List.getD_eq_default _ _ (by omega)
      simp only [if_pos h1, if_neg h2, hmin, h0]
  · have hmin : min (3 * k + 3) b.length = 3 * k + 1 := by omega
    have h0 : b.getD (3 * k + 2) 0 = 0 := List.getD_eq_default _ _ (by omega)
    have h0' : b.getD (3 * k + 1) 0 = 0 := List.getD_eq_default _ _ (by omega)
    simp only [if_neg h1, hmin, h0, h0']

/-- The loop of `base64_encode` started at group `k` with enough budget: it
ends, writes the four characters of every group from `k` on, and leaves the
other cells alone. -/
theorem base64_encode_loop_spec (b : List Nat) :
    ∀ (fuel k i : Nat) (output : List (Option Int)),
      (i < b.length → i = 3 * k) → (b.length ≤ i → k = (b.length + 2) / 3) →
      (b.length + 2) / 3 - k ≤ fuel → 4 * ((b.length + 2) / 3) < output.length →
      ∃ out', base64_encode_loop b b.length fuel i (4 * k) output = some out' ∧
        out'.length = output.length ∧
        (∀ p, p < 4 * k ∨ 4 * ((b.length + 2) / 3) ≤ p → out'[p]? = output[p]?) ∧
        (∀ k' t, k ≤ k' → k' < (b.length + 2) / 3 → t < 4 →
          out'[4 * k' + t]? = some (some (sextet_char (triple_at b k') t))) := by
  intro fuel
  induction fuel with
  | zero =>
    intro k i output h1 h2 hfuel _
    have hi : ¬ i < b.length := by
      intro hi
      have := h1 hi
      omega
    refine ⟨output, by simp [base64_encode_loop, hi], rfl, fun _ _ => rfl, ?_⟩
    intro k' t hk hk'
    omega
  | succ fuel ih =>
    intro k i output h1 h2 hfuel hlen
    by_cases hi : i < b.length
    · have hik := h1 hi
      subst hik
      rw [base64_encode_loop_step b fuel k output hi]
      obtain ⟨out', hrun, hlen', hrest, hgroups⟩ := ih (k + 1) (min (3 * k + 3) b.length)
        ((((output.set (4 * k) (some (sextet_char (triple_at b k) 0))).set (4 * k + 1)
          (some (sextet_char (triple_at b k) 1))).set (4 * k + 2)
          (some (sextet_char (triple_at b k) 2))).set (4 * k + 3)
          (some (sextet_char (triple_at b k) 3)))
        (by omega) (by omega) (by omega) (by simpa using hlen)
      refine ⟨out', hrun, by simpa using hlen', ?_, ?_⟩
      · intro p hp
        rw [hrest p (by omega)]
        rw [List.getElem?_set_ne (by omega), List.getElem?_set_ne (by omega),
          List.getElem?_set_ne (by omega), List.getElem?_set_ne (by omega)]
      · intro k' t hk hk' ht
        by_cases hkk : k' = k
        · subst hkk
          rw [hrest (4 * k' + t) (Or.inl (by omega))]
          have hl : 4 * k' + 3 < output.length := by omega
          have ht' : t = 0 ∨ t = 1 ∨ t = 2 ∨ t = 3 := by omega
          rcases ht' with rfl | rfl | rfl | rfl
          · simp only [Nat.add_zero]
            rw [List.getElem?_set_ne (by omega), List.getElem?_set_ne (by omega),
              List.getElem?_set_ne (by omega), List.getElem?_set_self (by omega)]
          · rw [List.getElem?_set_ne (by omega), List.getElem?_set_ne (by omega),
              List.getElem?_set_self (by simp; omega)]
          · rw [List.getElem?_set_ne (by omega),
              List.getElem?_set_self (by simp; omega)]
          · rw [List.getElem?_set_self (by simp; omega)]
        · exact hgroups k' t (by omega) hk' ht
    · have hk := h2 (by omega)
      refine ⟨output, by simp [base64_encode_loop, hi], rfl, fun _ _ => rfl, ?_⟩
      intro k' t hk1 hk2
      omega

theorem sextet_index_lt (v t : Nat) : (v >>> ((3 - t) * 6)) &&& 63 < 64 :=
  Nat.lt_succ_of_le Nat.and_le_right

theorem base64_chars_eq_standardAlphabet :
    ∀ i < 64, base64_chars.getD i 0 = standardAlphabet i := by
  decide

theorem standardAlphabet_isBase64Char : ∀ i < 64, isBase64Char (standardAlphabet i) := by
  decide

theorem isBase64Char_ne (c : Int) (h : isBase64Char c) : c ≠ 0 ∧ c ≠ 61 := by
  unfold isBase64Char at h
  omega

theorem sextet_char_isBase64Char (v t : Nat) : isBase64Char (sextet_char v t) := by
  unfold sextet_char
  rw [base64_chars_eq_standardAlphabet _ (sextet_index_lt v t)]
  exact standardAlphabet_isBase64Char _ (sextet_index_lt v t)

theorem encoded_char_ne_zero (b : List Nat) (p : Nat) : encoded_char b p ≠ 0 := by
  unfold encoded_char
  split_ifs
  · decide
  · exact (isBase64Char_ne _ (sextet_char_isBase64Char _ _)).1

/-- The padding and the terminator that `base64_encode` writes after its loop,
as a function of the buffer the loop left. -/
theorem base64_encode_eq (b : List Nat) (out' : List (Option Int))
    (hrun : base64_encode_loop b b.length b.length 0 0
      (List.replicate (4 * ((b.length + 2) / 3) + 1) none) = some out') :
    base64_encode b b.length = some
      ((if b.length % 3 > 0 then
          (if b.length % 3 = 1 then
            (out'.set (4 * ((b.length + 2) / 3) - 1) (some 61)).set
              (4 * ((b.length + 2) / 3) - 2) (some 61)
          else out'.set (4 * ((b.length + 2) / 3) - 1) (some 61))
        else out').set (4 * ((b.length + 2) / 3)) (some 0)) := by
  simp only [base64_encode, hrun]

/-- What `base64_encode` returns: a buffer of `4 * ((n + 2) / 3) + 1` cells,
all written, holding the characters of the text and then the NUL. -/
theorem base64_encode_spec (b : List Nat) :
    ∃ buf, base64_encode b b.length = some buf ∧
      buf.length = 4 * ((b.length + 2) / 3) + 1 ∧
      buf[4 * ((b.length + 2) / 3)]? = some (some 0) ∧
      ∀ p, p < 4 * ((b.length + 2) / 3) → buf[p]? = some (some (encoded_char b p)) := by
  obtain ⟨out', hrun, hlen, _, hgroups⟩ := base64_encode_loop_spec b b.length 0 0
    (List.replicate (4 * ((b.length + 2) / 3) + 1) none)
    (fun h => by omega) (fun h => by omega) (by omega) (by simp)
  have hlen' : out'.length = 4 * ((b.length + 2) / 3) + 1 := by simpa using hlen
  have hchar : ∀ p, p < 4 * ((b.length + 2) / 3) →
      out'[p]? = some (some (sextet_char (triple_at b (p / 4)) (p % 4))) := by
    intro p hp
    have := hgroups (p / 4) (p % 4) (Nat.zero_le _) (by omega) (by omega)
    rwa [Nat.div_add_mod] at this
  rw [Nat.mul_zero] at hrun
  refine ⟨_, base64_encode_eq b out' hrun, ?_, ?_, ?_⟩
  · split_ifs <;> simp [hlen']
  · rw [List.getElem?_set_self]
    split_ifs <;> simp [hlen']
  · intro p hp
    rw [List.getElem?_set_ne (by omega)]
    have hmod : b.length % 3 = 0 ∨ b.length % 3 = 1 ∨ b.length % 3 = 2 := by omega
    unfold encoded_char
    rcases hmod with h0 | h1 | h2
    · rw [if_neg (by omega), if_neg (by omega)]
      exact hchar p hp
    · rw [if_pos (by omega), if_pos h1]
      by_cases hp2 : 4 * ((b.length + 2) / 3) - 2 ≤ p
      · rw [if_pos (Or.inl ⟨h1, hp2⟩)]
        by_cases hp1 : p = 4 * ((b.length + 2) / 3) - 2
        · rw [hp1, List.getElem?_set_self (by simp; omega)]
        · rw [List.getElem?_set_ne (by omega)]
          have : p = 4 * ((b.length + 2) / 3) - 1 := by omega
          rw [this, List.getElem?_set_self (by omega)]
      · rw [if_neg (by omega), List.getElem?_set_ne (by omega),
          List.getElem?_set_ne (by omega)]
        exact hchar p hp
    · rw [if_pos (by omega), if_neg (by omega)]
      by_cases hp1 : 4 * ((b.length + 2) / 3) - 1 ≤ p
      · rw [if_pos (Or.inr ⟨h2, hp1⟩)]
        have : p = 4 * ((b.length + 2) / 3) - 1 := by omega
        rw [this, List.getElem?_set_self (by omega)]
      · rw [if_neg (by omega), List.getElem?_set_ne (by omega)]
        exact hchar p hp

theorem c_string_append_nul (l : List Int) (hl : ∀ c ∈ l, c ≠ 0) (rest : List (Option Int)) :
    c_string (l.map some ++ some 0 :: rest) = l := by
  induction l with
  | nil => simp [c_string]
  | cons c l ih =>
    have hc : c ≠ 0 := hl c (List.mem_cons_self _ _)
    have hrest : ∀ d ∈ l, d ≠ 0 := fun d hd => hl d (List.mem_cons_of_mem _ hd)
    simp [c_string, hc, ih hrest]

theorem encoded_text_length (b : List Nat) :
    (encoded_text b).length = 4 * ((b.length + 2) / 3) := by
  simp [encoded_text]

theorem encoded_text_getElem? (b : List Nat) (p : Nat) (hp : p < 4 * ((b.length + 2) / 3)) :
    (encoded_text b)[p]? = some (encoded_char b p) := by
  simp [encoded_text, List.getElem?_map, List.getElem?_range hp]

theorem encoded_text_ne_zero (b : List Nat) : ∀ c ∈ encoded_text b, c ≠ 0 := by
  intro c hc
  simp only [encoded_text, List.mem_map] at hc
  obtain ⟨p, _, rfl⟩ := hc
  exact encoded_char_ne_zero b p

/-- The buffer `base64_encode` returns holds the text `encoded_text b` and its
NUL terminator, so that the C string in it is `encoded_text b`. -/
theorem base64_encode_text (b : List Nat) :
    ∃ buf, base64_encode b b.length = some buf ∧
      buf = (encoded_text b).map some ++ [some 0] ∧
      c_string buf = encoded_text b := by
  obtain ⟨buf, hrun, hlen, hnul, hchars⟩ := base64_encode_spec b
  have hbuf : buf = (encoded_text b).map some ++ [some 0] := by
    apply List.ext_getElem?
    intro p
    rcases Nat.lt_trichotomy p (4 * ((b.length + 2) / 3)) with hp | hp | hp
    · rw [hchars p hp, List.getElem?_append_left (by simp [encoded_text_length]; exact hp),
        List.getElem?_map, encoded_text_getElem? b p hp]
      rfl
    · rw [hp, hnul, List.getElem?_append_right (by simp [encoded_text_length])]
      simp [encoded_text_length]
    · rw [List.getElem?_eq_none (by omega), List.getElem?_eq_none]
      simp [encoded_text_length]
      omega
  refine ⟨buf, hrun, hbuf, ?_⟩
  rw [hbuf]
  exact c_string_append_nul _ (encoded_text_ne_zero b) []

theorem ceil_div_three (n : ℕ) : ⌈(n : ℚ) / 3⌉₊ = (n + 2) / 3 := by
  rcases Nat.eq_zero_or_pos ((n + 2) / 3) with h | h
  · have hn : n = 0 := by omega
    subst hn
    simp
  · rw [Nat.ceil_eq_iff (by omega)]
    constructor
    · rw [lt_div_iff₀ (by norm_num)]
      have h1 : ((n + 2) / 3 - 1) * 3 < n := by omega
      exact_mod_cast h1
    · rw [div_le_iff₀ (by norm_num)]
      have h2 : n ≤ (n + 2) / 3 * 3 := by omega
      exact_mod_cast h2

theorem getD_lt_256 (b : List Nat) (hb : ∀ x ∈ b, x < 256) (i : Nat) : b.getD i 0 < 256 := by
  by_cases h : i < b.length
  · rw [List.getD_eq_getElem b 0 h]
    exact hb _ (List.getElem_mem h)
  · rw [List.getD_eq_default _ _ (by omega)]
    decide

theorem triple_at_eq_group24 (b : List Nat) (hb : ∀ x ∈ b, x < 256) (k : Nat) :
    triple_at b k = group24 b k := by
  have h0 := getD_lt_256 b hb (3 * k)
  have h1 := getD_lt_256 b hb (3 * k + 1)
  have h2 := getD_lt_256 b hb (3 * k + 2)
  have e16 : (2 : Nat) ^ 16 = 65536 := by norm_num
  have e8 : (2 : Nat) ^ 8 = 256 := by norm_num
  unfold triple_at group24
  rw [Nat.shiftLeft_eq, Nat.shiftLeft_eq, e16, e8]
  exact Nat.mod_eq_of_lt (by omega)

theorem sextet_char_eq (v t : Nat) :
    sextet_char v t = standardAlphabet (slice6 v t) := by
  unfold sextet_char
  rw [base64_chars_eq_standardAlphabet _ (sextet_index_lt v t)]
  congr 1
  unfold slice6
  rw [Nat.shiftRight_eq_div_pow, Nat.mul_comm 6 (3 - t)]
  exact Nat.and_pow_two_sub_one_eq_mod _ 6

theorem encoded_char_of_group (b : List Nat) (k t : Nat) (ht : t < 4)
    (hnopad : ¬ ((b.length % 3 = 1 ∧ 4 * ((b.length + 2) / 3) - 2 ≤ 4 * k + t) ∨
      (b.length % 3 = 2 ∧ 4 * ((b.length + 2) / 3) - 1 ≤ 4 * k + t))) :
    encoded_char b (4 * k + t) = sextet_char (triple_at b k) t := by
  unfold encoded_char
  rw [if_neg hnopad]
  have h1 : (4 * k + t) / 4 = k := by omega
  have h2 : (4 * k + t) % 4 = t := by omega
  rw [h1, h2]

/-- The text for `b` is a body without `=` followed by `padding_count`
characters `=`. -/
theorem encoded_text_padding (b : List Nat) :
    ∃ body, encoded_text b = body ++ List.replicate (padding_count b.length) 61 ∧
      (61 : Int) ∉ body := by
  have hk : padding_count b.length ≤ 4 * ((b.length + 2) / 3) := by
    unfold padding_count
    split_ifs <;> omega
  refine ⟨(encoded_text b).take (4 * ((b.length + 2) / 3) - padding_count b.length), ?_, ?_⟩
  · conv_lhs => rw [← List.take_append_drop
      (4 * ((b.length + 2) / 3) - padding_count b.length) (encoded_text b)]
    congr 1
    apply List.ext_getElem?
    intro i
    rw [List.getElem?_drop, List.getElem?_replicate]
    split_ifs with hi
    · rw [encoded_text_getElem? b _ (by omega)]
      congr 1
      unfold encoded_char
      rw [if_pos]
      unfold padding_count at hi ⊢
      split_ifs at hi ⊢ <;> omega
    · rw [List.getElem?_eq_none]
      rw [encoded_text_length]
      omega
  · intro hmem
    obtain ⟨i, hi, heq⟩ := List.mem_iff_getElem.1 hmem
    rw [List.length_take, encoded_text_length] at hi
    rw [List.getElem_take] at heq
    have h1 : (encoded_text b)[i]? = some (encoded_char b i) :=
      encoded_text_getElem? b i (by omega)
    rw [List.getElem?_eq_getElem (by rw [encoded_text_length]; omega), heq] at h1
    have h2 : encoded_char b i = 61 := (Option.some.inj h1).symm
    unfold encoded_char at h2
    rw [if_neg] at h2
    · exact (isBase64Char_ne _ (sextet_char_isBase64Char _ _)).2 h2
    · unfold padding_count at hi
      split_ifs at hi <;> omega

/-! ## The base64 encoding claims -/

/-- C6: for every byte sequence `b` and every complete group `k`
(`3k+2 < len(b)`), the output characters `4k .. 4k+3` are the standard
alphabet characters indexed by the four 6-bit slices, most significant first,
of `b[3k]*65536 + b[3k+1]*256 + b[3k+2]`; for a final group of one or two
bytes the missing bytes count as 0 and the two or three characters before the
padding are the leading slices; and every output character other than `=` is
in the alphabet. -/
theorem base64_encode_group_content (b : List Nat) (hb : ∀ x ∈ b, x < 256) :
    ∃ buf, base64_encode b b.length = some buf ∧
      (∀ k t, 3 * k + 2 < b.length → t < 4 →
        buf[4 * k + t]? = some (some (standardAlphabet (slice6 (group24 b k) t)))) ∧
      (∀ t, b.length % 3 = 1 → t < 2 →
        buf[4 * (b.length / 3) + t]? =
          some (some (standardAlphabet (slice6 (group24 b (b.length / 3)) t)))) ∧
      (∀ t, b.length % 3 = 2 → t < 3 →
        buf[4 * (b.length / 3) + t]? =
          some (some (standardAlphabet (slice6 (group24 b (b.length / 3)) t)))) ∧
      (∀ p c, p < 4 * ((b.length + 2) / 3) → buf[p]? = some (some c) → c ≠ 61 →
        isBase64Char c) := by
  obtain ⟨buf, hrun, _, _, hchars⟩ := base64_encode_spec b
  have hgroup : ∀ k t, t < 4 → 4 * k + t < 4 * ((b.length + 2) / 3) →
      ¬ ((b.length % 3 = 1 ∧ 4 * ((b.length + 2) / 3) - 2 ≤ 4 * k + t) ∨
        (b.length % 3 = 2 ∧ 4 * ((b.length + 2) / 3) - 1 ≤ 4 * k + t)) →
      buf[4 * k + t]? = some (some (standardAlphabet (slice6 (group24 b k) t))) := by
    intro k t ht hp hnopad
    rw [hchars _ hp, encoded_char_of_group b k t ht hnopad, sextet_char_eq,
      triple_at_eq_group24 b hb]
  refine ⟨buf, hrun, ?_, ?_, ?_, ?_⟩
  · intro k t hk ht
    exact hgroup k t ht (by omega) (by omega)
  · intro t hmod ht
    exact hgroup _ t (by omega) (by omega) (by omega)
  · intro t hmod ht
    exact hgroup _ t (by omega) (by omega) (by omega)
  · intro p c hp hpc hne
    rw [hchars p hp] at hpc
    have hc : encoded_char b p = c := Option.some.inj (Option.some.inj hpc)
    unfold encoded_char at hc
    split_ifs at hc
    · exact absurd hc.symm hne
    · rw [← hc]
      exact sextet_char_isBase64Char _ _

/-- Witness of C6 at the bytes `Man` followed by `M`: the text is `TWFuTQ==`. -/
theorem base64_encode_group_content_witness :
    ∃ buf, base64_encode [77, 97, 110, 77] ([77, 97, 110, 77] : List Nat).length = some buf ∧
      (∀ k t, 3 * k + 2 < ([77, 97, 110, 77] : List Nat).length → t < 4 →
        buf[4 * k + t]? =
          some (some (standardAlphabet (slice6 (group24 [77, 97, 110, 77] k) t)))) ∧
      (∀ t, ([77, 97, 110, 77] : List Nat).length % 3 = 1 → t < 2 →
        buf[4 * (([77, 97, 110, 77] : List Nat).length / 3) + t]? =
          some (some (standardAlphabet (slice6 (group24 [77, 97, 110, 77]
            (([77, 97, 110, 77] : List Nat).length / 3)) t)))) ∧
      (∀ t, ([77, 97, 110, 77] : List Nat).length % 3 = 2 → t < 3 →
        buf[4 * (([77, 97, 110, 77] : List Nat).length / 3) + t]? =
          some (some (standardAlphabet (slice6 (group24 [77, 97, 110, 77]
            (([77, 97, 110, 77] : List Nat).length / 3)) t)))) ∧
      (∀ p c, p < 4 * ((([77, 97, 110, 77] : List Nat).length + 2) / 3) →
        buf[p]? = some (some c) → c ≠ 61 → isBase64Char c) :=
  base64_encode_group_content [77, 97, 110, 77] (by decide)

/-- C7, as stated, fails: one leftover byte (`len mod 3 = 1`) gives the text
`AA==`, which ends with two `=`, not exactly one; two leftover bytes
(`len mod 3 = 2`) give `AAA=`, which ends with one `=`, not two. -/
theorem base64_encode_padding_counterexample :
    (([0] : List Nat).length % 3 = 1 ∧
      (base64_encode [0] 1).map c_string = some [65, 65, 61, 61]) ∧
    (([0, 0] : List Nat).length % 3 = 2 ∧
      (base64_encode [0, 0] 2).map c_string = some [65, 65, 65, 61]) := by
  decide

/-- C7 (amended): for every byte sequence `b`, if `len(b) mod 3 = 1` (one
leftover byte) the text ends with exactly two `=` characters, if
`len(b) mod 3 = 2` (two leftover bytes) it ends with exactly one `=`, and if
`len(b) mod 3 = 0` it contains no `=`; no `=` occurs before that ending. -/
theorem base64_encode_padding (b : List Nat) :
    ∃ buf, base64_encode b b.length = some buf ∧
      (b.length % 3 = 1 → ∃ body, c_string buf = body ++ [61, 61] ∧ (61 : Int) ∉ body) ∧
      (b.length % 3 = 2 → ∃ body, c_string buf = body ++ [61] ∧ (61 : Int) ∉ body) ∧
      (b.length % 3 = 0 → (61 : Int) ∉ c_string buf) := by
  obtain ⟨buf, hrun, _, htext⟩ := base64_encode_text b
  obtain ⟨body, hbody, hnot⟩ := encoded_text_padding b
  rw [← htext] at hbody
  refine ⟨buf, hrun, ?_, ?_, ?_⟩
  · intro h
    refine ⟨body, ?_, hnot⟩
    rw [hbody, padding_count, if_pos h]
    rfl
  · intro h
    refine ⟨body, ?_, hnot⟩
    rw [hbody, padding_count, if_neg (by omega), if_pos h]
    rfl
  · intro h
    rw [hbody, padding_count, if_neg (by omega), if_neg (by omega)]
    simpa using hnot

/-- C8: for every byte sequence `b` the returned NUL-terminated text has length
exactly `4 * ceil(len(b)/3)`, which is 0 for the empty input; every position
below that length is written, none of them with a NUL, and the NUL stands at
that length. -/
theorem base64_encode_output_length (b : List Nat) :
    ∃ buf, base64_encode b b.length = some buf ∧
      strlen (c_string buf) = 4 * ⌈(b.length : ℚ) / 3⌉₊ ∧
      (c_string buf).length = 4 * ⌈(b.length : ℚ) / 3⌉₊ ∧
      (b = [] → c_string buf = []) ∧
      (∀ p, p < 4 * ⌈(b.length : ℚ) / 3⌉₊ → ∃ c, buf[p]? = some (some c) ∧ c ≠ 0) ∧
      buf[4 * ⌈(b.length : ℚ) / 3⌉₊]? = some (some 0) := by
  obtain ⟨buf, hrun, hlen, hnul, hchars⟩ := base64_encode_spec b
  obtain ⟨buf', hrun', _, htext⟩ := base64_encode_text b
  have hsame : buf' = buf := by
    rw [hrun] at hrun'
    exact (Option.some.inj hrun').symm
  subst hsame
  rw [ceil_div_three]
  refine ⟨buf', hrun, ?_, ?_, ?_, ?_, hnul⟩
  · rw [htext, strlen_eq_length _ (encoded_text_ne_zero b), encoded_text_length]
  · rw [htext, encoded_text_length]
  · intro hb
    rw [htext, hb]
    rfl
  · intro p hp
    exact ⟨_, hchars p hp, encoded_char_ne_zero b p⟩

/-! ## Lemmas on base64 decoding -/

/-- The invariant of the output state `(output, j)` of `base64_decode`: the
buffer has `output_len` cells, `j` is within it, and every cell below `j`
holds a byte. -/
theorem store_byte_spec (output_len : Nat) (st : List (Option Nat) × Nat) (v : Nat)
    (hv : v < 256) (hlen : st.1.length = output_len) (hj : st.2 ≤ output_len)
    (hwritten : ∀ p, p < st.2 → ∃ w, st.1[p]? = some (some w) ∧ w < 256) :
    (store_byte output_len st v).1.length = output_len ∧
    (store_byte output_len st v).2 = min (st.2 + 1) output_len ∧
    (∀ p, p < (store_byte output_len st v).2 →
      ∃ w, (store_byte output_len st v).1[p]? = some (some w) ∧ w < 256) := by
  unfold store_byte
  split_ifs with h
  · refine ⟨by simpa using hlen, by simp; omega, ?_⟩
    intro p hp
    by_cases hpj : p = st.2
    · subst hpj
      exact ⟨v, List.getElem?_set_self (by omega), hv⟩
    · obtain ⟨w, hw, hw'⟩ := hwritten p (by simp at hp; omega)
      exact ⟨w, by rw [List.getElem?_set_ne (by omega)]; exact hw, hw'⟩
  · exact ⟨hlen, by omega, hwritten⟩

theorem and_255_lt (x : Nat) : x &&& 255 < 256 :=
  Nat.lt_succ_of_le Nat.and_le_right

/-- When the loop of `base64_decode` returns a buffer, it stores `output_len`
unchanged and every cell of the buffer holds a byte. -/
theorem base64_decode_loop_ok (table input : List Int) (input_len output_len : Nat)
    (h4 : input_len % 4 = 0) :
    ∀ (fuel i j : Nat) (output out : List (Option Nat)) (olen : Nat),
      base64_decode_loop table input input_len output_len fuel i j output =
        DecodeResult.ok out olen →
      i % 4 = 0 → output.length = output_len → j ≤ output_len →
      output_len ≤ j + 3 * ((input_len - i) / 4) →
      (∀ p, p < j → ∃ w, output[p]? = some (some w) ∧ w < 256) →
      olen = output_len ∧ out.length = output_len ∧
        ∀ p, p < output_len → ∃ w, out[p]? = some (some w) ∧ w < 256 := by
  intro fuel
  induction fuel with
  | zero =>
    intro i j output out olen hrun hi hlen hj hrem hwritten
    simp only [base64_decode_loop] at hrun
    split_ifs at hrun with hlt
    simp only [DecodeResult.ok.injEq] at hrun
    obtain ⟨rfl, rfl⟩ := hrun
    have : (input_len - i) / 4 = 0 := by omega
    refine ⟨rfl, hlen, fun p hp => hwritten p (by omega)⟩
  | succ fuel ih =>
    intro i j output out olen hrun hi hlen hj hrem hwritten
    simp only [base64_decode_loop] at hrun
    split_ifs at hrun with hlt
    · split at hrun
      · split_ifs at hrun with hbad
        rename_i sa sb sc sd _ _ _ _
        obtain ⟨l1, j1, w1⟩ := store_byte_spec output_len (output, j) _
          (and_255_lt _) hlen hj hwritten
        obtain ⟨l2, j2, w2⟩ := store_byte_spec output_len _ _ (and_255_lt _) l1
          (by rw [j1]; omega) w1
        obtain ⟨l3, j3, w3⟩ := store_byte_spec output_len _ _ (and_255_lt _) l2
          (by rw [j2]; omega) w2
        refine ih (i + 4) _ _ out olen hrun (by omega) l3 (by rw [j3]; omega) ?_ w3
        rw [j3, j2, j1]
        simp only
        omega
      · exact absurd hrun (by simp)
    · simp only [DecodeResult.ok.injEq] at hrun
      obtain ⟨rfl, rfl⟩ := hrun
      have : (input_len - i) / 4 = 0 := by omega
      refine ⟨rfl, hlen, fun p hp => hwritten p (by omega)⟩

/-- The budget `base64_decode` gives its loop is enough: the loop never
answers `out_of_fuel`. -/
theorem base64_decode_loop_fuel (table input : List Int) (input_len output_len : Nat) :
    ∀ (fuel i j : Nat) (output : List (Option Nat)), input_len - i ≤ 4 * fuel →
      base64_decode_loop table input input_len output_len fuel i j output ≠
        DecodeResult.out_of_fuel := by
  intro fuel
  induction fuel with
  | zero =>
    intro i j output hfuel
    have hi : ¬ i < input_len := by omega
    simp [base64_decode_loop, hi]
  | succ fuel ih =>
    intro i j output hfuel
    simp only [base64_decode_loop]
    split_ifs with hlt
    · split
      · split_ifs
        · simp
        · exact ih _ _ _ (by omega)
      · simp
    · simp

theorem size_t_sub_small (a b : Nat) (hb : b ≤ a) (ha : a < 2 ^ 64) :
    size_t_sub a b = a - b := by
  unfold size_t_sub
  have h1 : b % 2 ^ 64 = b := Nat.mod_eq_of_lt (by omega)
  rw [h1]
  have h2 : a + 2 ^ 64 - b = (a - b) + 2 ^ 64 := by omega
  rw [h2, Nat.add_mod_right]
  exact Nat.mod_eq_of_lt (by omega)

/-- A length that is no multiple of 4 makes `base64_decode` return `NULL` at
once, the table untouched and no character read. -/
theorem base64_decode_bad_length (table input : List Int) (input_len : Nat)
    (h : input_len % 4 ≠ 0) :
    base64_decode table input input_len = (DecodeResult.null, table) := by
  simp [base64_decode, h]

/-- The function `base64_decode` never answers `out_of_fuel`. -/
theorem base64_decode_total (table input : List Int) (input_len : Nat) :
    (base64_decode table input input_len).1 ≠ DecodeResult.out_of_fuel := by
  by_cases h : input_len % 4 ≠ 0
  · rw [base64_decode_bad_length table input input_len h]
    simp
  · simp only [base64_decode, if_neg h]
    generalize (if table.getD 65 0 = -1 then build_base64_decoding_table table else table) = t
    split
    · exact base64_decode_loop_fuel _ _ _ _ _ _ _ _ (by omega)
    · simp

theorem drop_last_two (l : List Int) (a b : Int) (hn : 2 ≤ l.length)
    (ha : l[l.length - 2]? = some a) (hb : l[l.length - 1]? = some b) :
    l.drop (l.length - 2) = [a, b] := by
  apply List.ext_getElem?
  intro i
  rw [List.getElem?_drop]
  rcases i with _ | _ | i
  · simpa using ha
  · have : l.length - 2 + (0 + 1) = l.length - 1 := by omega
    rw [this, hb]
    rfl
  · rw [List.getElem?_eq_none (by omega)]
    rfl

/-- The value `base64_decode` computes for `*output_len` from a length `n >= 4`
that is a multiple of 4 and the last two characters. -/
theorem output_len_eq (n : Nat) (last before_last : Int) (h4 : n % 4 = 0) (hn : 4 ≤ n)
    (hsize : n < 2 ^ 64) :
    (if before_last = 61 then
        size_t_sub (if last = 61 then size_t_sub (n / 4 * 3) 1 else n / 4 * 3) 1
      else (if last = 61 then size_t_sub (n / 4 * 3) 1 else n / 4 * 3)) =
      3 * n / 4 - List.count 61 [before_last, last] := by
  have h1 : size_t_sub (n / 4 * 3) 1 = n / 4 * 3 - 1 :=
    size_t_sub_small _ _ (by omega) (by omega)
  have h2 : size_t_sub (n / 4 * 3 - 1) 1 = n / 4 * 3 - 1 - 1 :=
    size_t_sub_small _ _ (by omega) (by omega)
  have h3 : size_t_sub (n / 4 * 3) 1 = n / 4 * 3 - 1 := h1
  by_cases hb : before_last = 61 <;> by_cases hl : last = 61 <;>
    simp [hb, hl, h1, h2, List.count_cons] <;> omega

/-! ## The base64 decoding claims -/

/-- C10: whenever `base64_decode` succeeds on an input of length `n`, `n` is a
positive multiple of 4, `*output_len` is `3*n/4` minus the number of `=`
among the last two input characters, and the returned buffer has exactly that
many cells, each of them written with a byte. -/
theorem base64_decode_output_length (table input : List Int)
    (output : List (Option Nat)) (output_len : Nat) (table' : List Int)
    (hsize : input.length < 2 ^ 64)
    (hok : base64_decode table input input.length =
      (DecodeResult.ok output output_len, table')) :
    0 < input.length ∧ input.length % 4 = 0 ∧
    output_len = 3 * input.length / 4 - (input.drop (input.length - 2)).count 61 ∧
    (input.drop (input.length - 2)).count 61 ≤ 2 ∧
    output.length = output_len ∧
    ∀ p, p < output_len → ∃ w, output[p]? = some (some w) ∧ w < 256 := by
  have h4 : input.length % 4 = 0 := by
    by_contra h
    rw [base64_decode_bad_length table input input.length h] at hok
    simp at hok
  have hpos : 0 < input.length := by
    by_contra h
    have h0 : input.length = 0 := by omega
    have hnil : input = [] := List.length_eq_zero.1 h0
    subst hnil
    simp [base64_decode, size_t_sub] at hok
  have hn : 4 ≤ input.length := by omega
  have hs1 : size_t_sub input.length 1 = input.length - 1 :=
    size_t_sub_small _ _ (by omega) hsize
  have hs2 : size_t_sub input.length 2 = input.length - 2 :=
    size_t_sub_small _ _ (by omega) hsize
  obtain ⟨last, hlast⟩ : ∃ c, input[input.length - 1]? = some c :=
    ⟨_, List.getElem?_eq_getElem (by omega)⟩
  obtain ⟨before_last, hbefore⟩ : ∃ c, input[input.length - 2]? = some c :=
    ⟨_, List.getElem?_eq_getElem (by omega)⟩
  have hdrop := drop_last_two input before_last last (by omega) hbefore hlast
  have hlen := output_len_eq input.length last before_last h4 hn hsize
  simp only [base64_decode, if_neg (not_not.2 h4), hs1, hs2, List.get?_eq_getElem?,
    hlast, hbefore, Prod.mk.injEq] at hok
  rw [hlen] at hok
  obtain ⟨e1, e2, e3⟩ := base64_decode_loop_ok _ input input.length _ h4 _ _ _ _ _ _
    hok.1 (by rfl) (by simp) (Nat.zero_le _) (by omega) (fun p hp => absurd hp (by omega))
  rw [hdrop]
  refine ⟨hpos, h4, e1, ?_, by rw [e2, e1], fun p hp => e3 p (by rw [← e1]; exact hp)⟩
  by_cases hb : before_last = 61 <;> by_cases hl : last = 61 <;> simp [hb, hl, List.count_cons]

/-- Witness of C10 at the text `AQ==` with the table in its initial state. -/
theorem base64_decode_output_length_witness :
    0 < ([65, 81, 61, 61] : List Int).length ∧ ([65, 81, 61, 61] : List Int).length % 4 = 0 ∧
    1 = 3 * ([65, 81, 61, 61] : List Int).length / 4 -
      (([65, 81, 61, 61] : List Int).drop (([65, 81, 61, 61] : List Int).length - 2)).count 61 ∧
    (([65, 81, 61, 61] : List Int).drop (([65, 81, 61, 61] : List Int).length - 2)).count 61 ≤ 2 ∧
    ([some 0] : List (Option Nat)).length = 1 ∧
    ∀ p, p < 1 → ∃ w, ([some 0] : List (Option Nat))[p]? = some (some w) ∧ w < 256 :=
  base64_decode_output_length initial_decoding_table [65, 81, 61, 61] [some 0] 1
    initial_decoding_table (by norm_num) rfl

set_option maxRecDepth 20000 in
/-- The guard `base64_decoding_table[(int)'A'] == -1` of `base64_decode` is
false for the table as the C runtime initialises it (entry `'A'` is 0), and it
is false again after `build_base64_decoding_table` (entry `'A'` is the index
0): no call of `base64_decode` ever builds the table. -/
theorem decoding_table_guard_never_fires :
    initial_decoding_table.getD 65 0 ≠ -1 ∧
    (build_base64_decoding_table initial_decoding_table).getD 65 0 ≠ -1 := by
  have h1 : initial_decoding_table.getD 65 0 = 0 := rfl
  have h2 : (build_base64_decoding_table initial_decoding_table).getD 65 0 = 0 := rfl
  rw [h1, h2]
  exact ⟨by decide, by decide⟩

/-- C1, evaluated where it fails: in a freshly started process the round trip
of the byte sequence `[1]` (text `AQ==`) succeeds with the single byte 0, not
1, because every lookup in the never-built table gives 0; and the round trip
of the empty sequence makes `base64_decode` read `input[input_len - 1]` with
`input_len = 0`, outside the text. -/
theorem round_trip_fresh_process :
    round_trip [1] = some (DecodeResult.ok [some 0] 1) ∧
    written_bytes [some 0] = some [0] ∧
    round_trip [] = some DecodeResult.out_of_bounds := by
  decide

/-- C2, evaluated where it fails: in a freshly started process the text `!!!!`
(length 4, no character of the alphabet and no `=`) is not rejected:
`base64_decode` returns a buffer of three bytes 0 and leaves the table in its
initial state. -/
theorem base64_decode_accepts_malformed :
    (∀ c ∈ ([33, 33, 33, 33] : List Int), ¬ isBase64Char c ∧ c ≠ 61) ∧
    base64_decode initial_decoding_table [33, 33, 33, 33] 4 =
      (DecodeResult.ok [some 0, some 0, some 0] 3, initial_decoding_table) := by
  refine ⟨by decide, rfl⟩

/-- C9, evaluated where it fails: on the empty input (`input_len = 0`) the
length test `input_len % 4 != 0` does not reject, and `base64_decode` reads
`input[input_len - 1]`, a character outside the input, instead of returning
`NULL`. -/
theorem base64_decode_empty_input (table : List Int) :
    (0 : Nat) % 4 = 0 ∧ size_t_sub 0 1 = 18446744073709551615 ∧
    (base64_decode table [] 0).1 = DecodeResult.out_of_bounds := by
  refine ⟨rfl, by decide, ?_⟩
  simp [base64_decode]

/-! ## The codec with a built table

The lemmas of this section describe `base64_decode` in the state
`built_decoding_table`, which the guard of `base64_decode` never produces:
with that table the round trip holds for every non-empty byte sequence and
malformed text is rejected. -/

set_option maxRecDepth 20000 in
theorem built_decoding_table_eq : built_decoding_table = [
   -1, -1, -1, -1, -1, -1, -1, -1, -1, -1, -1, -1, -1, -1, -1, -1,
   -1, -1, -1, -1, -1, -1, -1, -1, -1, -1, -1, -1, -1, -1, -1, -1,
   -1, -1, -1, -1, -1, -1, -1, -1, -1, -1, -1, 62, -1, -1, -1, 63,
   52, 53, 54, 55, 56, 57, 58, 59, 60, 61, -1, -1, -1, -1, -1, -1,
   -1, 0, 1, 2, 3, 4, 5, 6, 7, 8, 9, 10, 11, 12, 13, 14,
   15, 16, 17, 18, 19, 20, 21, 22, 23, 24, 25, -1, -1, -1, -1, -1,
   -1, 26, 27, 28, 29, 30, 31, 32, 33, 34, 35, 36, 37, 38, 39, 40,
   41, 42, 43, 44, 45, 46, 47, 48, 49, 50, 51, -1, -1, -1, -1, -1,
   -1, -1, -1, -1, -1, -1, -1, -1, -1, -1, -1, -1, -1, -1, -1, -1,
   -1, -1, -1, -1, -1, -1, -1, -1, -1, -1, -1, -1, -1, -1, -1, -1,
   -1, -1, -1, -1, -1, -1, -1, -1, -1, -1, -1, -1, -1, -1, -1, -1,
   -1, -1, -1, -1, -1, -1, -1, -1, -1, -1, -1, -1, -1, -1, -1, -1,
   -1, -1, -1, -1, -1, -1, -1, -1, -1, -1, -1, -1, -1, -1, -1, -1,
   -1, -1, -1, -1, -1, -1, -1, -1, -1, -1, -1, -1, -1, -1, -1, -1,
   -1, -1, -1, -1, -1, -1, -1, -1, -1, -1, -1, -1, -1, -1, -1, -1,
   -1, -1, -1, -1, -1, -1, -1, -1, -1, -1, -1, -1, -1, -1, -1, -1] := rfl

set_option maxRecDepth 20000 in
theorem built_table_alphabet :
    ∀ i < 64, built_decoding_table.get? (standardAlphabet i).toNat = some (i : Int) := by
  rw [built_decoding_table_eq]
  decide

set_option maxRecDepth 20000 in
theorem built_table_other :
    ∀ c : Nat, c < 256 → ¬ isBase64Char (c : Int) →
      built_decoding_table.get? c = some (-1) := by
  rw [built_decoding_table_eq]
  decide

theorem built_table_guard : ¬ built_decoding_table.getD 65 0 = -1 := by
  rw [built_decoding_table_eq]
  decide

theorem uint32_of_int_natCast (i : Nat) (h : i < 2 ^ 32) : uint32_of_int (i : Int) = i := by
  unfold uint32_of_int
  have h1 : ((i : Int) % 2 ^ 32) = (i : Int) := Int.emod_eq_of_lt (by omega) (by omega)
  rw [h1]
  rfl

theorem slice6_lt (v t : Nat) : slice6 v t < 64 := by
  unfold slice6
  omega

theorem group24_lt (b : List Nat) (hb : ∀ x ∈ b, x < 256) (k : Nat) :
    group24 b k < 2 ^ 24 := by
  have h0 := getD_lt_256 b hb (3 * k)
  have h1 := getD_lt_256 b hb (3 * k + 1)
  have h2 := getD_lt_256 b hb (3 * k + 2)
  unfold group24
  omega

/-- The four 6-bit slices of a 24-bit value give the value back when they are
shifted into place and added, as `base64_decode` does. -/
theorem slices_recombine (v : Nat) (hv : v < 2 ^ 24) :
    ((slice6 v 0 <<< (3 * 6)) + (slice6 v 1 <<< (2 * 6)) + (slice6 v 2 <<< (1 * 6)) +
      (slice6 v 3 <<< (0 * 6))) % 2 ^ 32 = v := by
  unfold slice6
  simp only [Nat.shiftLeft_eq]
  norm_num
  omega

theorem and_255_eq_mod (x : Nat) : x &&& 255 = x % 256 :=
  Nat.and_pow_two_sub_one_eq_mod x 8

/-- The three bytes that `base64_decode` takes out of the triple of group `k`
are the bytes of the group. -/
theorem group24_bytes (b : List Nat) (hb : ∀ x ∈ b, x < 256) (k : Nat) :
    (group24 b k >>> (2 * 8)) &&& 255 = b.getD (3 * k) 0 ∧
    (group24 b k >>> (1 * 8)) &&& 255 = b.getD (3 * k + 1) 0 ∧
    (group24 b k >>> (0 * 8)) &&& 255 = b.getD (3 * k + 2) 0 := by
  have h0 := getD_lt_256 b hb (3 * k)
  have h1 := getD_lt_256 b hb (3 * k + 1)
  have h2 := getD_lt_256 b hb (3 * k + 2)
  simp only [and_255_eq_mod, Nat.shiftRight_eq_div_pow]
  unfold group24
  generalize b.getD (3 * k) 0 = x at h0 ⊢
  generalize b.getD (3 * k + 1) 0 = y at h1 ⊢
  generalize b.getD (3 * k + 2) 0 = z at h2 ⊢
  norm_num
  refine ⟨?_, ?_, ?_⟩ <;> omega

theorem encoded_char_eq_61_iff (b : List Nat) (p : Nat) :
    encoded_char b p = 61 ↔
      ((b.length % 3 = 1 ∧ 4 * ((b.length + 2) / 3) - 2 ≤ p) ∨
       (b.length % 3 = 2 ∧ 4 * ((b.length + 2) / 3) - 1 ≤ p)) := by
  unfold encoded_char
  split_ifs with h
  · exact ⟨fun _ => h, fun _ => rfl⟩
  · exact ⟨fun h61 => absurd h61 (isBase64Char_ne _ (sextet_char_isBase64Char _ _)).2,
      fun h' => absurd h' h⟩

/-- With the built table, the sextet that `base64_decode` takes from position
`p` of the text for `b` is slice `p % 4` of group `p / 4`. -/
theorem sextet_encoded_text (b : List Nat) (hb : ∀ x ∈ b, x < 256) (p : Nat)
    (hp : p < 4 * ((b.length + 2) / 3)) :
    sextet built_decoding_table (encoded_text b) p =
      some (slice6 (group24 b (p / 4)) (p % 4)) := by
  unfold sextet
  rw [List.get?_eq_getElem?, encoded_text_getElem? b p hp]
  simp only
  by_cases hpad : (b.length % 3 = 1 ∧ 4 * ((b.length + 2) / 3) - 2 ≤ p) ∨
      (b.length % 3 = 2 ∧ 4 * ((b.length + 2) / 3) - 1 ≤ p)
  · rw [if_pos ((encoded_char_eq_61_iff b p).2 hpad)]
    congr 1
    have hk : p / 4 = b.length / 3 := by omega
    have h2 : b.getD (3 * (b.length / 3) + 2) 0 = 0 := List.getD_eq_default _ _ (by omega)
    rw [hk]
    unfold slice6 group24
    rw [h2]
    rcases hpad with ⟨h1, hp1⟩ | ⟨h1, hp1⟩
    · have h3 : b.getD (3 * (b.length / 3) + 1) 0 = 0 := List.getD_eq_default _ _ (by omega)
      rw [h3]
      generalize b.getD (3 * (b.length / 3)) 0 = x
      have hp4 : p % 4 = 2 ∨ p % 4 = 3 := by omega
      rcases hp4 with h | h <;> rw [h] <;> norm_num <;> omega
    · have hp4 : p % 4 = 3 := by omega
      rw [hp4]
      generalize b.getD (3 * (b.length / 3)) 0 = x
      generalize b.getD (3 * (b.length / 3) + 1) 0 = y
      norm_num
      omega
  · have hne : ¬ encoded_char b p = 61 := fun h => hpad ((encoded_char_eq_61_iff b p).1 h)
    rw [if_neg hne]
    have hchar : encoded_char b p =
        standardAlphabet (slice6 (group24 b (p / 4)) (p % 4)) := by
      unfold encoded_char
      rw [if_neg hpad, sextet_char_eq, triple_at_eq_group24 b hb]
    have hbase : isBase64Char (encoded_char b p) := by
      rw [hchar]
      exact standardAlphabet_isBase64Char _ (slice6_lt _ _)
    have hnonneg : 0 ≤ encoded_char b p := by
      unfold isBase64Char at hbase
      omega
    rw [if_pos hnonneg, hchar, built_table_alphabet _ (slice6_lt _ _)]
    simp only [Option.map_some']
    rw [uint32_of_int_natCast _ (by have := slice6_lt (group24 b (p / 4)) (p % 4); omega)]

/-- One statement `if (j < *output_len) output[j++] = v;` on a buffer of
`output_len` cells. -/
theorem store_byte_get (output_len : Nat) (st : List (Option Nat) × Nat) (v : Nat)
    (hlen : st.1.length = output_len) (hj : st.2 ≤ output_len) :
    (store_byte output_len st v).1.length = output_len ∧
    (store_byte output_len st v).2 = min (st.2 + 1) output_len ∧
    (∀ p, p ≠ st.2 → (store_byte output_len st v).1[p]? = st.1[p]?) ∧
    (st.2 < output_len → (store_byte output_len st v).1[st.2]? = some (some v)) := by
  unfold store_byte
  split_ifs with h
  · refine ⟨by simpa using hlen, by simp; omega, ?_, ?_⟩
    · intro p hp
      exact List.getElem?_set_ne (fun h' => hp h'.symm)
    · intro _
      exact List.getElem?_set_self (by omega)
  · exact ⟨hlen, by omega, fun _ _ => rfl, fun h' => absurd h' h⟩

/-- The loop of `base64_decode` on the text for `b`, with the built table,
from group `k` on: it returns the bytes of `b`. -/
theorem base64_decode_loop_round_trip (b : List Nat) (hb : ∀ x ∈ b, x < 256) :
    ∀ (fuel k : Nat) (output : List (Option Nat)),
      (b.length + 2) / 3 - k ≤ fuel → k ≤ (b.length + 2) / 3 →
      output.length = b.length →
      (∀ p, p < min (3 * k) b.length → output[p]? = some (some (b.getD p 0))) →
      ∃ out, base64_decode_loop built_decoding_table (encoded_text b)
          (4 * ((b.length + 2) / 3)) b.length fuel (4 * k) (min (3 * k) b.length) output =
            DecodeResult.ok out b.length ∧
        out.length = b.length ∧
        ∀ p, p < b.length → out[p]? = some (some (b.getD p 0)) := by
  intro fuel
  induction fuel with
  | zero =>
    intro k output hfuel hk hlen hwritten
    have hi : ¬ 4 * k < 4 * ((b.length + 2) / 3) := by omega
    refine ⟨output, by simp [base64_decode_loop, hi], hlen, ?_⟩
    intro p hp
    exact hwritten p (by omega)
  | succ fuel ih =>
    intro k output hfuel hk hlen hwritten
    by_cases hi : 4 * k < 4 * ((b.length + 2) / 3)
    · have hs : ∀ t, t < 4 → sextet built_decoding_table (encoded_text b) (4 * k + t) =
          some (slice6 (group24 b k) t) := by
        intro t ht
        have h := sextet_encoded_text b hb (4 * k + t) (by omega)
        have h1 : (4 * k + t) / 4 = k := by omega
        have h2 : (4 * k + t) % 4 = t := by omega
        rwa [h1, h2] at h
      have hs0 := hs 0 (by omega)
      rw [Nat.add_zero] at hs0
      have hbad : ¬ (slice6 (group24 b k) 0 = 4294967295 ∨ slice6 (group24 b k) 1 = 4294967295 ∨
          slice6 (group24 b k) 2 = 4294967295 ∨ slice6 (group24 b k) 3 = 4294967295) := by
        have := slice6_lt (group24 b k) 0
        have := slice6_lt (group24 b k) 1
        have := slice6_lt (group24 b k) 2
        have := slice6_lt (group24 b k) 3
        omega
      obtain ⟨hb0, hb1, hb2⟩ := group24_bytes b hb k
      simp only [base64_decode_loop, if_pos hi, hs0, hs 1 (by omega), hs 2 (by omega),
        hs 3 (by omega), if_neg hbad, slices_recombine _ (group24_lt b hb k), hb0, hb1, hb2]
      have hmin : min (3 * k) b.length = 3 * k := by omega
      rw [hmin] at hwritten ⊢
      obtain ⟨l1, j1, o1, w1⟩ := store_byte_get b.length (output, 3 * k) (b.getD (3 * k) 0)
        hlen (by simp only; omega)
      obtain ⟨l2, j2, o2, w2⟩ := store_byte_get b.length _ (b.getD (3 * k + 1) 0)
        l1 (by rw [j1]; omega)
      obtain ⟨l3, j3, o3, w3⟩ := store_byte_get b.length _ (b.getD (3 * k + 2) 0)
        l2 (by rw [j2]; omega)
      simp only at j1 o1 w1
      have e1 : (store_byte b.length (output, 3 * k) (b.getD (3 * k) 0)).2 = 3 * k + 1 := by
        rw [j1]; omega
      rw [e1] at j2 o2 w2
      have e3 : (store_byte b.length (store_byte b.length
          (store_byte b.length (output, 3 * k) (b.getD (3 * k) 0))
          (b.getD (3 * k + 1) 0)) (b.getD (3 * k + 2) 0)).2 = min (3 * (k + 1)) b.length := by
        rw [j3, j2]; omega
      have e4 : 4 * k + 4 = 4 * (k + 1) := by ring
      rw [e3, e4]
      apply ih (k + 1) _ (by omega) (by omega) l3
      intro p hp
      by_cases hp2 : p = (store_byte b.length (store_byte b.length (output, 3 * k)
          (b.getD (3 * k) 0)) (b.getD (3 * k + 1) 0)).2
      · rw [hp2]
        have hp3 : p = 3 * k + 2 := by rw [hp2, j2]; omega
        rw [w3 (by rw [← hp2]; omega), j2]
        have : min (3 * k + 1 + 1) b.length = 3 * k + 2 := by omega
        rw [this]
      · rw [o3 p hp2]
        by_cases hp1 : p = 3 * k + 1
        · rw [hp1, w2 (by omega)]
        · rw [o2 p hp1]
          by_cases hp0 : p = 3 * k
          · rw [hp0, w1 (by omega)]
          · rw [o1 p hp0]
            apply hwritten p
            rw [j2] at hp2
            omega
    · refine ⟨output, by simp [base64_decode_loop, hi], hlen, ?_⟩
      intro p hp
      exact hwritten p (by omega)

/-- Had the table been built, the round trip would hold for every non-empty
byte sequence: `base64_decode` on the text of `base64_encode b` returns the
bytes of `b` with `*output_len = len(b)`. -/
theorem round_trip_with_built_table (b : List Nat) (hb : ∀ x ∈ b, x < 256) (hne : b ≠ [])
    (hsize : 4 * ((b.length + 2) / 3) < 2 ^ 64) :
    ∃ buf, base64_encode b b.length = some buf ∧
      base64_decode built_decoding_table (c_string buf) (strlen (c_string buf)) =
        (DecodeResult.ok (b.map some) b.length, built_decoding_table) := by
  obtain ⟨buf, hrun, _, htext⟩ := base64_encode_text b
  refine ⟨buf, hrun, ?_⟩
  have hpos : 0 < b.length := List.length_pos.2 hne
  have hL : 4 ≤ 4 * ((b.length + 2) / 3) := by omega
  rw [htext, strlen_eq_length _ (encoded_text_ne_zero b), encoded_text_length]
  have hs1 : size_t_sub (4 * ((b.length + 2) / 3)) 1 = 4 * ((b.length + 2) / 3) - 1 :=
    size_t_sub_small _ _ (by omega) hsize
  have hs2 : size_t_sub (4 * ((b.length + 2) / 3)) 2 = 4 * ((b.length + 2) / 3) - 2 :=
    size_t_sub_small _ _ (by omega) hsize
  have hlast := encoded_text_getElem? b (4 * ((b.length + 2) / 3) - 1) (by omega)
  have hbefore := encoded_text_getElem? b (4 * ((b.length + 2) / 3) - 2) (by omega)
  have holen := output_len_eq (4 * ((b.length + 2) / 3))
    (encoded_char b (4 * ((b.length + 2) / 3) - 1))
    (encoded_char b (4 * ((b.length + 2) / 3) - 2)) (by omega) hL hsize
  have hcount : 3 * (4 * ((b.length + 2) / 3)) / 4 -
      List.count 61 [encoded_char b (4 * ((b.length + 2) / 3) - 2),
        encoded_char b (4 * ((b.length + 2) / 3) - 1)] = b.length := by
    have h1 := encoded_char_eq_61_iff b (4 * ((b.length + 2) / 3) - 1)
    have h2 := encoded_char_eq_61_iff b (4 * ((b.length + 2) / 3) - 2)
    have hmod : b.length % 3 = 0 ∨ b.length % 3 = 1 ∨ b.length % 3 = 2 := by omega
    rcases hmod with h | h | h
    · have e1 : ¬ encoded_char b (4 * ((b.length + 2) / 3) - 1) = 61 :=
        fun e => by have := h1.1 e; omega
      have e2 : ¬ encoded_char b (4 * ((b.length + 2) / 3) - 2) = 61 :=
        fun e => by have := h2.1 e; omega
      simp only [List.count_cons, List.count_nil, beq_iff_eq, e1, e2, if_false]
      omega
    · have e1 : encoded_char b (4 * ((b.length + 2) / 3) - 1) = 61 :=
        h1.2 (Or.inl ⟨h, by omega⟩)
      have e2 : encoded_char b (4 * ((b.length + 2) / 3) - 2) = 61 :=
        h2.2 (Or.inl ⟨h, by omega⟩)
      simp only [List.count_cons, List.count_nil, beq_iff_eq, e1, e2, if_true]
      omega
    · have e1 : encoded_char b (4 * ((b.length + 2) / 3) - 1) = 61 :=
        h1.2 (Or.inr ⟨h, by omega⟩)
      have e2 : ¬ encoded_char b (4 * ((b.length + 2) / 3) - 2) = 61 :=
        fun e => by have := h2.1 e; omega
      simp only [List.count_cons, List.count_nil, beq_iff_eq, e1, e2, if_true, if_false]
      omega
  rw [hcount] at holen
  have h4 : ¬ (4 * ((b.length + 2) / 3)) % 4 ≠ 0 := by omega
  simp only [base64_decode, if_neg h4, if_neg built_table_guard, hs1, hs2,
    List.get?_eq_getElem?, hlast, hbefore]
  rw [holen]
  obtain ⟨out, hloop, hlen, hout⟩ := base64_decode_loop_round_trip b hb
    (4 * ((b.length + 2) / 3)) 0 (List.replicate b.length none) (by omega) (by omega)
    (by simp) (fun p hp => absurd hp (by omega))
  have hout' : out = b.map some := by
    apply List.ext_getElem?
    intro p
    by_cases hp : p < b.length
    · rw [hout p hp, List.getElem?_map, List.getElem?_eq_getElem hp,
        List.getD_eq_getElem b 0 hp]
      rfl
    · rw [List.getElem?_eq_none (by omega), List.getElem?_eq_none (by simp; omega)]
  rw [Nat.mul_zero] at hloop
  have hmin : min 0 b.length = 0 := by omega
  rw [hmin] at hloop
  rw [hloop, hout']

/-- Witness of the round trip with a built table at the bytes `Man` and `M`. -/
theorem round_trip_with_built_table_witness :
    ∃ buf, base64_encode [77, 97, 110, 77] ([77, 97, 110, 77] : List Nat).length = some buf ∧
      base64_decode built_decoding_table (c_string buf) (strlen (c_string buf)) =
        (DecodeResult.ok (([77, 97, 110, 77] : List Nat).map some)
          ([77, 97, 110, 77] : List Nat).length, built_decoding_table) :=
  round_trip_with_built_table [77, 97, 110, 77] (by decide) (by decide) (by norm_num)

set_option maxRecDepth 20000 in
theorem built_table_length : built_decoding_table.length = 256 := by
  rw [built_decoding_table_eq]
  rfl

/-- With the built table, a character in the range of an `unsigned char` has a
sextet, which is `(uint32_t)-1` when the character is neither in the alphabet
nor `=`. -/
theorem sextet_in_range (input : List Int) (hrange : ∀ c ∈ input, 0 ≤ c ∧ c < 256)
    (p : Nat) (hp : p < input.length) :
    ∃ v, sextet built_decoding_table input p = some v ∧
      ((¬ isBase64Char (input.getD p 0) ∧ input.getD p 0 ≠ 61) → v = 4294967295) := by
  have hget : input[p]? = some (input.getD p 0) := by
    rw [List.getD_eq_getElem input 0 hp, List.getElem?_eq_getElem hp]
  obtain ⟨h0, h256⟩ := hrange _ (getD_mem_of_lt input p hp)
  unfold sextet
  rw [List.get?_eq_getElem?, hget]
  simp only
  by_cases h61 : input.getD p 0 = 61
  · rw [if_pos h61]
    exact ⟨0, rfl, fun h => absurd h61 h.2⟩
  · rw [if_neg h61, if_pos h0]
    have hlt : (input.getD p 0).toNat < 256 := by omega
    obtain ⟨e, he⟩ : ∃ e, built_decoding_table.get? (input.getD p 0).toNat = some e := by
      rw [List.get?_eq_getElem?]
      exact ⟨_, List.getElem?_eq_getElem (by rw [built_table_length]; exact hlt)⟩
    refine ⟨uint32_of_int e, by rw [he]; rfl, ?_⟩
    intro hbad
    have hcast : (((input.getD p 0).toNat : Nat) : Int) = input.getD p 0 :=
      Int.toNat_of_nonneg h0
    have hother := built_table_other _ hlt (by rw [hcast]; exact hbad.1)
    rw [he] at hother
    rw [Option.some.inj hother]
    rfl

/-- With the built table, the loop of `base64_decode` returns `NULL` when a
character that is neither in the alphabet nor `=` lies ahead. -/
theorem base64_decode_loop_rejects (input : List Int)
    (hrange : ∀ c ∈ input, 0 ≤ c ∧ c < 256) (output_len : Nat)
    (h4 : input.length % 4 = 0) :
    ∀ (fuel i j : Nat) (output : List (Option Nat)), i % 4 = 0 →
      input.length - i ≤ 4 * fuel →
      (∃ p, i ≤ p ∧ p < input.length ∧
        ¬ isBase64Char (input.getD p 0) ∧ input.getD p 0 ≠ 61) →
      base64_decode_loop built_decoding_table input input.length output_len fuel i j output =
        DecodeResult.null := by
  intro fuel
  induction fuel with
  | zero =>
    intro i j output _ hfuel hbad
    obtain ⟨p, h1, h2, _⟩ := hbad
    omega
  | succ fuel ih =>
    intro i j output hi hfuel hbad
    obtain ⟨p, hp1, hp2, hpbad⟩ := hbad
    have hlt : i < input.length := by omega
    obtain ⟨v0, hv0, hb0⟩ := sextet_in_range input hrange i (by omega)
    obtain ⟨v1, hv1, hb1⟩ := sextet_in_range input hrange (i + 1) (by omega)
    obtain ⟨v2, hv2, hb2⟩ := sextet_in_range input hrange (i + 2) (by omega)
    obtain ⟨v3, hv3, hb3⟩ := sextet_in_range input hrange (i + 3) (by omega)
    simp only [base64_decode_loop, if_pos hlt, hv0, hv1, hv2, hv3]
    split_ifs with hcond
    · rfl
    · apply ih _ _ _ (by omega) (by omega)
      refine ⟨p, ?_, hp2, hpbad⟩
      by_contra hcon
      have hcases : p = i ∨ p = i + 1 ∨ p = i + 2 ∨ p = i + 3 := by omega
      rcases hcases with h | h | h | h <;> subst h
      · exact hcond (Or.inl (hb0 hpbad))
      · exact hcond (Or.inr (Or.inl (hb1 hpbad)))
      · exact hcond (Or.inr (Or.inr (Or.inl (hb2 hpbad))))
      · exact hcond (Or.inr (Or.inr (Or.inr (hb3 hpbad))))

/-- Had the table been built, malformed text would be rejected: on a text of
`unsigned char` values whose length is a positive multiple of 4 and that has
a character neither in the alphabet nor `=`, `base64_decode` returns `NULL`. -/
theorem base64_decode_rejects_with_built_table (input : List Int)
    (hrange : ∀ c ∈ input, 0 ≤ c ∧ c < 256) (hpos : 0 < input.length)
    (h4 : input.length % 4 = 0) (hsize : input.length < 2 ^ 64)
    (hbad : ∃ c ∈ input, ¬ isBase64Char c ∧ c ≠ 61) :
    base64_decode built_decoding_table input input.length =
      (DecodeResult.null, built_decoding_table) := by
  have hs1 : size_t_sub input.length 1 = input.length - 1 :=
    size_t_sub_small _ _ (by omega) hsize
  have hs2 : size_t_sub input.length 2 = input.length - 2 :=
    size_t_sub_small _ _ (by omega) hsize
  obtain ⟨last, hlast⟩ : ∃ c, input[input.length - 1]? = some c :=
    ⟨_, List.getElem?_eq_getElem (by omega)⟩
  obtain ⟨before_last, hbefore⟩ : ∃ c, input[input.length - 2]? = some c :=
    ⟨_, List.getElem?_eq_getElem (by omega)⟩
  obtain ⟨c, hc, hcbad⟩ := hbad
  obtain ⟨p, hp, hpc⟩ := List.mem_iff_getElem.1 hc
  have hgetD : input.getD p 0 = c := by rw [List.getD_eq_getElem input 0 hp, hpc]
  simp only [base64_decode, if_neg (not_not.2 h4), if_neg built_table_guard, hs1, hs2,
    List.get?_eq_getElem?, hlast, hbefore]
  rw [base64_decode_loop_rejects input hrange _ h4 _ 0 0 _ (by rfl) (by omega)
    ⟨p, Nat.zero_le _, hp, by rw [hgetD]; exact hcbad⟩]

/-- Witness of the rejection with a built table at the text `!!!!`. -/
theorem base64_decode_rejects_with_built_table_witness :
    base64_decode built_decoding_table [33, 33, 33, 33] ([33, 33, 33, 33] : List Int).length =
      (DecodeResult.null, built_decoding_table) :=
  base64_decode_rejects_with_built_table [33, 33, 33, 33] (by decide) (by decide) (by decide)
    (by norm_num) (by decide)

/-! ## `=` at any position -/

theorem initial_table_guard : ¬ initial_decoding_table.getD 65 0 = -1 := by
  decide

theorem fread_request_eq (st : ReaderState) (h1 : st.total_read + 1 < st.buffer_capacity)
    (h2 : st.buffer_capacity < 2 ^ 64) :
    fread_request st = st.buffer_capacity - st.total_read - 1 := by
  unfold fread_request
  rw [size_t_sub_small _ _ (by omega) h2, size_t_sub_small _ _ (by omega) (by omega)]

theorem store_at_length (buffer : List (Option Nat)) (pos : Nat) (chunk : List Nat)
    (h : pos + chunk.length ≤ buffer.length) :
    (store_at buffer pos chunk).length = buffer.length := by
  unfold store_at
  simp
  omega

theorem store_at_take (buffer : List (Option Nat)) (pos : Nat) (chunk : List Nat)
    (h : pos + chunk.length ≤ buffer.length) :
    (store_at buffer pos chunk).take (pos + chunk.length) =
      buffer.take pos ++ chunk.map some := by
  unfold store_at
  rw [List.take_take, Nat.min_eq_left h]
  have hlen : (buffer.take pos ++ chunk.map some).length = pos + chunk.length := by
    simp
    omega
  rw [List.take_append_eq_append_take, hlen, Nat.sub_self, List.take_zero,
    List.append_nil, List.take_of_length_le (by omega)]

theorem realloc_length (buffer : List (Option Nat)) (size : Nat) (h : buffer.length ≤ size) :
    (realloc buffer size).length = size := by
  unfold realloc
  simp
  omega

theorem realloc_take (buffer : List (Option Nat)) (size n : Nat) (h : buffer.length ≤ size)
    (hn : n ≤ buffer.length) : (realloc buffer size).take n = buffer.take n := by
  unfold realloc
  rw [List.take_take, Nat.min_eq_left (by omega), List.take_append_of_le_length hn]

/-- One call of `fread` and the growth step keep the invariant of the loop. -/
theorem read_step_inv (read chunk : List Nat) (st : ReaderState) (hinv : ReaderInv read st)
    (h1 : 1 ≤ chunk.length) (h2 : chunk.length ≤ fread_request st)
    (hsize : st.total_read < 2 ^ 62) :
    ReaderInv (read ++ chunk) (read_step st chunk) := by
  obtain ⟨hlt, ⟨k, hk⟩, hlen, htotal, hcontent, hcap⟩ := hinv
  rw [fread_request_eq st hlt (by omega)] at h2
  have hfit : st.total_read + chunk.length ≤ st.xml_content.length := by omega
  have hstore := store_at_take st.xml_content st.total_read chunk hfit
  have hslen := store_at_length st.xml_content st.total_read chunk hfit
  unfold read_step
  simp only
  split_ifs with hgrow
  · refine ⟨by simp only; omega, ⟨k + 1, by simp only; rw [hk, pow_succ]; ring⟩, ?_, ?_, ?_, ?_⟩
    · simp only
      exact realloc_length _ _ (by omega)
    · simp only [List.length_append]
      omega
    · simp only
      rw [realloc_take _ _ _ (by omega) (by omega), hstore, hcontent, List.map_append]
    · simp only
      omega
  · refine ⟨by simp only; omega, ⟨k, hk⟩, ?_, ?_, ?_, ?_⟩
    · simp only
      rw [hslen, hlen]
    · simp only [List.length_append]
      omega
    · simp only
      rw [hstore, hcontent, List.map_append]
    · simp only
      omega

theorem reader_start_inv : ReaderInv [] reader_start := by
  refine ⟨?_, ⟨0, ?_⟩, ?_, rfl, rfl, ?_⟩
  · show 0 + 1 < INPUT_BUFFER_SIZE
    unfold INPUT_BUFFER_SIZE
    omega
  · show INPUT_BUFFER_SIZE = 4096 * 2 ^ 0
    rfl
  · show (List.replicate INPUT_BUFFER_SIZE (none : Option Nat)).length = INPUT_BUFFER_SIZE
    exact List.length_replicate _ _
  · show INPUT_BUFFER_SIZE ≤ 4096 + 2 * 0
    unfold INPUT_BUFFER_SIZE
    omega

theorem take_set_self (l : List (Option Nat)) (n : Nat) (a : Option Nat) :
    (l.set n a).take n = l.take n := by
  apply List.ext_getElem?
  intro i
  simp only [List.getElem?_take]
  split_ifs with h
  · rw [List.getElem?_set_ne (by omega)]
  · rfl

theorem flatten_take_length_le (chunks : List (List Nat)) (n : Nat) :
    ((chunks.take n).flatten).length ≤ chunks.flatten.length := by
  have h := congrArg (fun l => l.flatten.length) (List.take_append_drop n chunks)
  simp only [List.flatten_append, List.length_append] at h
  omega

/-- The invariant holds before every call of `fread` and at the exit of the
loop. -/
theorem read_loop_inv : ∀ (chunks : List (List Nat)) (read : List Nat) (st : ReaderState),
    ReaderInv read st → valid_reads chunks st → (read ++ chunks.flatten).length < 2 ^ 62 →
    ∀ n, n ≤ chunks.length →
      ReaderInv (read ++ (chunks.take n).flatten) (read_loop (chunks.take n) st) := by
  intro chunks
  induction chunks with
  | nil =>
    intro read st hinv _ _ n _
    simpa [read_loop] using hinv
  | cons chunk rest ih =>
    intro read st hinv hvalid hsize n hn
    rcases n with _ | n
    · simpa [read_loop] using hinv
    · obtain ⟨h1, h2, hrest⟩ := hvalid
      have htotal : st.total_read < 2 ^ 62 := by
        have := hinv.2.2.2.1
        simp only [List.length_append] at hsize
        omega
      have hstep := read_step_inv read chunk st hinv h1 h2 htotal
      have := ih (read ++ chunk) (read_step st chunk) hstep hrest
        (by simpa [List.append_assoc] using hsize) n (by simpa using hn)
      simpa [read_loop, List.append_assoc] using this

/-- C20: starting from `(total_read, buffer_capacity) = (0, 4096)` and for
every sequence of reads of `r` bytes with `1 <= r <= buffer_capacity -
total_read - 1`: before every read and at the exit of the loop
`total_read + 1 < buffer_capacity`, so that the requested size is at least 1,
and the capacity is `4096 * 2^k`; at the exit the buffer holds every byte read,
in order, `xml_content_len` is the exact byte count, and the terminator is
written at index `total_read` within the capacity, after the bytes. -/
theorem reader_growth_invariant (chunks : List (List Nat))
    (hvalid : valid_reads chunks reader_start) (hsize : chunks.flatten.length < 2 ^ 62) :
    (∀ n, n ≤ chunks.length →
      (read_loop (chunks.take n) reader_start).total_read + 1 <
        (read_loop (chunks.take n) reader_start).buffer_capacity ∧
      1 ≤ fread_request (read_loop (chunks.take n) reader_start) ∧
      (∃ k, (read_loop (chunks.take n) reader_start).buffer_capacity = 4096 * 2 ^ k) ∧
      (read_loop (chunks.take n) reader_start).xml_content.length =
        (read_loop (chunks.take n) reader_start).buffer_capacity) ∧
    (read_loop chunks reader_start).total_read = chunks.flatten.length ∧
    (reader_finish (read_loop chunks reader_start)).2 = chunks.flatten.length ∧
    (read_loop chunks reader_start).total_read <
      (read_loop chunks reader_start).buffer_capacity ∧
    (reader_finish (read_loop chunks reader_start)).1.length =
      (read_loop chunks reader_start).buffer_capacity ∧
    (reader_finish (read_loop chunks reader_start)).1.take chunks.flatten.length =
      chunks.flatten.map some ∧
    (reader_finish (read_loop chunks reader_start)).1[chunks.flatten.length]? =
      some (some 0) := by
  have hall := read_loop_inv chunks [] reader_start reader_start_inv hvalid
    (by simpa using hsize)
  refine ⟨?_, ?_⟩
  · intro n hn
    obtain ⟨hlt, hk, hlen, htotal, _, hcap⟩ := hall n hn
    have hle := flatten_take_length_le chunks n
    simp only [List.nil_append] at htotal
    refine ⟨hlt, ?_, hk, hlen⟩
    rw [fread_request_eq _ hlt (by omega)]
    omega
  · obtain ⟨hlt, _, hlen, htotal, hcontent, _⟩ := hall chunks.length (le_refl _)
    simp only [List.take_length, List.nil_append] at hlt hlen htotal hcontent
    refine ⟨htotal, htotal, by omega, ?_, ?_, ?_⟩
    · simp only [reader_finish, List.length_set]
      exact hlen
    · simp only [reader_finish]
      rw [← htotal, take_set_self, hcontent]
    · simp only [reader_finish]
      rw [← htotal, List.getElem?_set_self (by omega)]

/-- Witness of C20 at a single read of the three bytes `<a>`. -/
theorem reader_growth_invariant_witness :
    (read_loop [[60, 97, 62]] reader_start).total_read =
      ([[60, 97, 62]] : List (List Nat)).flatten.length :=
  (reader_growth_invariant [[60, 97, 62]] ⟨by decide, by decide, trivial⟩
    (by norm_num)).2.1

/-! ## Numeric fields -/

theorem subject_sequence_numeral (t : List Int) (ht : isNumeral t) :
    subject_sequence t = ⟨false, t, t.length⟩ := by
  obtain ⟨hne, hdig⟩ := ht
  obtain ⟨c, rest, rfl⟩ := List.exists_cons_of_ne_nil hne
  have hc := hdig c (List.mem_cons_self _ _)
  have hspace : isspace c = false := by
    unfold isspace
    simp only [decide_eq_false_iff_not]
    omega
  have hwhite : (c :: rest).takeWhile isspace = [] := by
    rw [List.takeWhile_cons, hspace]
    rfl
  have hall : (c :: rest).takeWhile isdigit = c :: rest := by
    rw [List.takeWhile_eq_self_iff]
    intro d hd
    unfold isdigit
    simp only [decide_eq_true_eq]
    exact hdig d hd
  have h45 : ¬ (some c = some (45 : Int)) := by
    intro h
    have := Option.some.inj h
    omega
  have h43 : ¬ (some c = some (43 : Int)) := by
    intro h
    have := Option.some.inj h
    omega
  simp [subject_sequence, hwhite, hall, h45, h43]

theorem getD_length (t : List Int) : t.getD t.length 0 = 0 :=
  List.getD_eq_default _ _ (le_refl _)

/-- On a plain decimal numeral `strtoull` returns its value, or `ULLONG_MAX`
with `ERANGE` when the value is too large, and leaves `endptr` at the end. -/
theorem strtoull_numeral (t : List Int) (ht : isNumeral t) :
    strtoull t = if digits_value t > ULLONG_MAX then ⟨ULLONG_MAX, t.length, true⟩
      else ⟨digits_value t, t.length, false⟩ := by
  unfold strtoull
  rw [subject_sequence_numeral t ht]
  simp only [if_neg ht.1]
  split_ifs <;> simp_all

/-- On a plain decimal numeral the TimeStamp statements store its value when
it is at most `2^64 - 1` and jump to `cleanup` otherwise. -/
theorem parse_timestamp_numeral (t : List Int) (ht : isNumeral t) :
    parse_timestamp t =
      if digits_value t ≤ ULLONG_MAX then some (digits_value t) else none := by
  have hlen : t.length ≠ 0 := fun h => ht.1 (List.length_eq_zero.1 h)
  unfold parse_timestamp
  rw [strtoull_numeral t ht]
  by_cases h : digits_value t > ULLONG_MAX
  · have hnot : ¬ digits_value t ≤ ULLONG_MAX := by omega
    simp [h, hnot]
  · have hle : digits_value t ≤ ULLONG_MAX := by omega
    have hle' : ¬ ((digits_value t : Int) > (ULLONG_MAX : Int)) := by omega
    have hmod : ((digits_value t : Int) % 2 ^ 64).toNat = digits_value t := by
      unfold ULLONG_MAX at hle
      omega
    simp only [if_neg h, getD_length, hlen, hle, hle', hmod]
    simp

/-- On a plain decimal numeral the MaximumContractCertificateChains statements
store its value when it is at most 255 and jump to `cleanup` otherwise. -/
theorem parse_max_chains_numeral (m : List Int) (hm : isNumeral m) :
    parse_max_chains m =
      if digits_value m ≤ UINT8_MAX then some (digits_value m) else none := by
  have hlen : m.length ≠ 0 := fun h => hm.1 (List.length_eq_zero.1 h)
  unfold parse_max_chains strtoul
  rw [strtoull_numeral m hm]
  by_cases h : digits_value m > ULLONG_MAX
  · have h8 : ¬ digits_value m ≤ UINT8_MAX := by
      unfold UINT8_MAX
      unfold ULLONG_MAX at h
      omega
    simp [h, h8]
  · by_cases h8 : digits_value m ≤ UINT8_MAX
    · have hle' : ¬ ((digits_value m : Int) > (UINT8_MAX : Int)) := by omega
      have hmod : ((digits_value m : Int) % 256).toNat = digits_value m := by
        unfold UINT8_MAX at h8
        omega
      simp only [if_neg h, getD_length, hlen, h8, hle', hmod]
      simp
    · have hgt : (digits_value m : Int) > (UINT8_MAX : Int) := by omega
      simp only [if_neg h, getD_length, hlen, h8, hgt]
      simp

/-- C14, evaluated where it fails: the TimeStamp text `-1` is not rejected.
`strtoull` negates in the return type without `ERANGE`, the test
`ts_val > UINT64_MAX` can never hold, and `Header.TimeStamp` receives
`2^64 - 1`, which is -1 modulo `2^64`. -/
theorem parse_timestamp_negative :
    strtoull [45, 49] = ⟨18446744073709551615, 2, false⟩ ∧
    parse_timestamp [45, 49] = some 18446744073709551615 ∧
    (18446744073709551615 : Int) = -1 + 2 ^ 64 := by
  decide

/-- C15, evaluated where it fails: the text `-18446744073709551615` denotes a
value below 0, yet it is accepted and the field receives 1, because `strtoul`
negates in the 64-bit return type without `ERANGE`. -/
theorem parse_max_chains_negative :
    strtoul [45, 49, 56, 52, 52, 54, 55, 52, 52, 48, 55, 51, 55, 48, 57, 53, 53, 49, 54,
      49, 53] = ⟨1, 21, false⟩ ∧
    parse_max_chains [45, 49, 56, 52, 52, 54, 55, 52, 52, 48, 55, 51, 55, 48, 57, 53, 53,
      49, 54, 49, 53] = some 1 ∧
    digits_value [49, 56, 52, 52, 54, 55, 52, 52, 48, 55, 51, 55, 48, 57, 53, 53, 49, 54,
      49, 53] = 18446744073709551615 := by
  decide

/-! ## String fields -/

theorem getElem?_prefix_take {α : Type} (pre rest : List α) (n i : Nat)
    (hi : i < pre.length) (hn : pre.length ≤ n) :
    ((pre ++ rest).take n)[i]? = pre[i]? := by
  rw [List.getElem?_take, if_pos (by omega), List.getElem?_append_left hi]

/-- A buffer whose first cells hold the characters of a NUL-free text and
whose next cell holds NUL contains that text as a C string. -/
theorem c_string_of_cells : ∀ (l : List Int) (buf : List (Option Int)),
    (∀ c ∈ l, c ≠ 0) → (∀ i, i < l.length → buf[i]? = some (some (l.getD i 0))) →
    buf[l.length]? = some (some 0) → c_string buf = l := by
  intro l
  induction l with
  | nil =>
    intro buf _ _ hnul
    cases buf with
    | nil => rfl
    | cons b rest =>
      have hb : b = some 0 := by simpa using hnul
      simp [c_string, hb]
  | cons c l ih =>
    intro buf hl hcells hnul
    cases buf with
    | nil => simp at hnul
    | cons b rest =>
      have hb : b = some c := by
        have := hcells 0 (by simp)
        simpa using this
      have hc : c ≠ 0 := hl c (List.mem_cons_self _ _)
      have hrest := ih rest (fun d hd => hl d (List.mem_cons_of_mem _ hd))
        (fun i hi => by
          have := hcells (i + 1) (by simpa using hi)
          simpa using this)
        (by simpa using hnul)
      simp [c_string, hb, hc, hrest]

/-- C13: for every source text `s` copied into a string field of capacity `K`
(`1 <= K <= 65536`; the character sizes of `X509IssuerName` and of `EMAID`):
if `len(s) >= K` the field holds the first `K-1` characters of `s` and a
terminator at index `K-1`, and `charactersLen = K-1`; if `len(s) < K` the
field holds `s` unchanged with a terminator and `charactersLen = len(s)`.  In
both cases `charactersLen <= K-1` and `characters[charactersLen]` is the
terminator. -/
theorem copy_string_field_spec (K : Nat) (characters : List (Option Int)) (s : List Int)
    (hs : ∀ c ∈ s, c ≠ 0) (hK : 0 < K) (hK16 : K ≤ 65536) (hlen : characters.length = K) :
    (K ≤ s.length →
      (copy_string_field K characters s).2 = K - 1 ∧
      (∀ i, i < K - 1 →
        (copy_string_field K characters s).1[i]? = some (some (s.getD i 0))) ∧
      (copy_string_field K characters s).1[K - 1]? = some (some 0) ∧
      c_string (copy_string_field K characters s).1 = s.take (K - 1)) ∧
    (s.length < K →
      (copy_string_field K characters s).2 = s.length ∧
      (∀ i, i < s.length →
        (copy_string_field K characters s).1[i]? = some (some (s.getD i 0))) ∧
      (copy_string_field K characters s).1[s.length]? = some (some 0) ∧
      c_string (copy_string_field K characters s).1 = s) ∧
    (copy_string_field K characters s).2 ≤ K - 1 ∧
    (copy_string_field K characters s).1[(copy_string_field K characters s).2]? =
      some (some 0) ∧
    (copy_string_field K characters s).1.length = K := by
  have hstr := strlen_eq_length s hs
  by_cases hlong : K ≤ s.length
  · have hval : copy_string_field K characters s =
        ((strncpy characters s (K - 1)).set (K - 1) (some 0), K - 1) := by
      have h16 : uint16 (K - 1) = K - 1 := Nat.mod_eq_of_lt (by omega)
      simp only [copy_string_field, hstr, ge_iff_le, if_pos hlong, h16]
    have hnlen : (strncpy characters s (K - 1)).length = K := by
      simp [strncpy, hlen]
    have hcells : ∀ i, i < K - 1 →
        ((strncpy characters s (K - 1)).set (K - 1) (some 0))[i]? =
          some (some (s.getD i 0)) := by
      intro i hi
      rw [List.getElem?_set_ne (by omega)]
      unfold strncpy
      rw [getElem?_prefix_take _ _ _ _ (by simpa using hi) (by simp; omega),
        List.getElem?_map, List.getElem?_range hi, hstr]
      simp only [Option.map_some']
      rw [if_pos (by omega)]
    have hnul : ((strncpy characters s (K - 1)).set (K - 1) (some 0))[K - 1]? =
        some (some 0) := List.getElem?_set_self (by omega)
    have htake : (s.take (K - 1)).length = K - 1 := by
      rw [List.length_take]
      omega
    have hcstr : c_string ((strncpy characters s (K - 1)).set (K - 1) (some 0)) =
        s.take (K - 1) := by
      apply c_string_of_cells
      · intro c hc
        exact hs c (List.mem_of_mem_take hc)
      · intro i hi
        rw [htake] at hi
        rw [hcells i hi, List.getD_eq_getElem?_getD, List.getD_eq_getElem?_getD,
          List.getElem?_take, if_pos hi]
      · rw [htake]
        exact hnul
    rw [hval]
    refine ⟨fun _ => ⟨rfl, hcells, hnul, hcstr⟩, fun h => absurd hlong (by omega),
      le_refl _, hnul, ?_⟩
    simp only [List.length_set]
    exact hnlen
  · have hshort : s.length < K := by omega
    have hval : copy_string_field K characters s = (strcpy characters s, s.length) := by
      have h16 : uint16 s.length = s.length := Nat.mod_eq_of_lt (by omega)
      simp only [copy_string_field, hstr, ge_iff_le, if_neg hlong, h16]
    have hpre : ((s.take s.length).map some ++ [some (0 : Int)]).length = s.length + 1 := by
      simp
    have hcells : ∀ i, i < s.length → (strcpy characters s)[i]? = some (some (s.getD i 0)) := by
      intro i hi
      unfold strcpy
      rw [hstr, getElem?_prefix_take _ _ _ _ (by rw [hpre]; omega) (by rw [hpre]; omega),
        List.getElem?_append_left (by simpa using hi), List.getElem?_map, List.take_length,
        List.getElem?_eq_getElem hi, List.getD_eq_getElem s 0 hi]
      rfl
    have hnul : (strcpy characters s)[s.length]? = some (some 0) := by
      unfold strcpy
      rw [hstr, getElem?_prefix_take _ _ _ _ (by rw [hpre]; omega) (by rw [hpre]; omega),
        List.getElem?_append_right (by simp)]
      simp
    have hslen : (strcpy characters s).length = K := by
      simp [strcpy, hstr, hlen]
      omega
    rw [hval]
    exact ⟨fun h => absurd h hlong,
      fun _ => ⟨rfl, hcells, hnul, c_string_of_cells s _ hs hcells hnul⟩,
      by simp only; omega, hnul, hslen⟩

/-- Witness of C13 at the text `ABCDE` and a field of 4 cells. -/
theorem copy_string_field_spec_witness :
    (copy_string_field 4 [none, none, none, none] [65, 66, 67, 68, 69]).2 ≤ 4 - 1 :=
  (copy_string_field_spec 4 [none, none, none, none] [65, 66, 67, 68, 69] (by decide)
    (by decide) (by decide) rfl).2.2.1

/-! ## Loops over node sets -/

/-- The invariant rule of `for_loop`: a property that holds at index `i` and
that every completed iteration carries to the next index holds at `count`
when the loop completes. -/
theorem for_loop_inv {σ : Type} (count : Nat) (body : Nat → σ → Except Abort σ)
    (P : Nat → σ → Prop)
    (hstep : ∀ i s s', i < count → P i s → body i s = Except.ok s' → P (i + 1) s') :
    ∀ (fuel i : Nat) (s s' : σ), i ≤ count → P i s →
      for_loop count body fuel i s = Except.ok s' → P count s' := by
  intro fuel
  induction fuel with
  | zero =>
    intro i s s' hi hP hrun
    simp only [for_loop] at hrun
    split_ifs at hrun with hlt
    have heq : s = s' := by injection hrun
    have hic : i = count := by omega
    rw [← heq, ← hic]
    exact hP
  | succ fuel ih =>
    intro i s s' hi hP hrun
    simp only [for_loop] at hrun
    split_ifs at hrun with hlt
    · cases hb : body i s with
      | ok s1 =>
        rw [hb] at hrun
        exact ih (i + 1) s1 s' (by omega) (hstep i s s1 hlt hP hb) hrun
      | error e =>
        rw [hb] at hrun
        cases hrun
    · have heq : s = s' := by injection hrun
      have hic : i = count := by omega
      rw [← heq, ← hic]
      exact hP

/-- A loop whose budget covers its iterations runs out of budget only when its
body does. -/
theorem for_loop_fuel {σ : Type} (count : Nat) (body : Nat → σ → Except Abort σ)
    (hbody : ∀ i s, body i s ≠ Except.error Abort.out_of_fuel) :
    ∀ (fuel i : Nat) (s : σ), count - i ≤ fuel →
      for_loop count body fuel i s ≠ Except.error Abort.out_of_fuel := by
  intro fuel
  induction fuel with
  | zero =>
    intro i s hfuel
    have hi : ¬ i < count := by omega
    simp [for_loop, hi]
  | succ fuel ih =>
    intro i s hfuel
    simp only [for_loop]
    split_ifs with hlt
    · cases hb : body i s with
      | ok s1 => exact ih (i + 1) s1 (by omega)
      | error e =>
        intro h
        have he : e = Abort.out_of_fuel := by injection h
        exact hbody i s (by rw [hb, he])
    · simp

/-- What a completed loop over a node set leaves: the array keeps its length,
the entries from `count` on are untouched, and entry `i < count` is what the
body makes of node `i` and of the entry as it was. -/
theorem populate_array_spec {M E G : Type} (entry : M → G × E → Except Abort (G × E))
    (nodeTab : List M) (count : Nat) (g g' : G) (array array' : List E)
    (hrun : populate_array entry nodeTab count (g, array) = Except.ok (g', array')) :
    array'.length = array.length ∧
    (∀ i, count ≤ i → array'[i]? = array[i]?) ∧
    (∀ i, i < count → ∃ node cell cell' g1 g2, nodeTab[i]? = some node ∧
      array[i]? = some cell ∧ entry node (g1, cell) = Except.ok (g2, cell') ∧
      array'[i]? = some cell') := by
  have hinv := for_loop_inv count (populate_array_body entry nodeTab)
    (fun n (st : G × List E) => st.2.length = array.length ∧
      (∀ i, n ≤ i → st.2[i]? = array[i]?) ∧
      (∀ i, i < n → ∃ node cell cell' g1 g2, nodeTab[i]? = some node ∧
        array[i]? = some cell ∧ entry node (g1, cell) = Except.ok (g2, cell') ∧
        st.2[i]? = some cell'))
    (by
      intro i st st' hi hP hbody
      obtain ⟨hlen, hrest, hdone⟩ := hP
      simp only [populate_array_body, List.get?_eq_getElem?] at hbody
      split at hbody
      · rename_i node cell hnode hcell
        split at hbody
        · rename_i g2 cell' hentry
          have hst' : st' = (g2, st.2.set i cell') := by injection hbody with h; exact h.symm
          rw [hst']
          refine ⟨by simpa using hlen, ?_, ?_⟩
          · intro j hj
            simp only
            rw [List.getElem?_set_ne (by omega)]
            exact hrest j (by omega)
          · intro j hj
            by_cases hji : j = i
            · subst hji
              refine ⟨node, cell, cell', st.1, g2, hnode, ?_, hentry, ?_⟩
              · rw [← hrest j (le_refl _)]
                exact hcell
              · simp only
                have hlt : j < st.2.length := by
                  rcases Nat.lt_or_ge j st.2.length with h | h
                  · exact h
                  · rw [List.getElem?_eq_none h] at hcell
                    cases hcell
                exact List.getElem?_set_self hlt
            · obtain ⟨n1, c1, c1', a1, a2, h1, h2, h3, h4⟩ := hdone j (by omega)
              refine ⟨n1, c1, c1', a1, a2, h1, h2, h3, ?_⟩
              simp only
              rw [List.getElem?_set_ne (by omega)]
              exact h4
        · cases hbody
      · cases hbody)
    count 0 (g, array) (g', array') (Nat.zero_le _)
    ⟨rfl, fun _ _ => rfl, fun i hi => absurd hi (Nat.not_lt_zero _)⟩ hrun
  exact hinv

theorem clamp_count_eq (n C : Nat) : clamp_count n C = min n C := by
  unfold clamp_count
  split_ifs <;> omega

/-! ## The capped collections -/

theorem uint16_small (n : Nat) (h : n < 65536) : uint16 n = n := Nat.mod_eq_of_lt h

theorem populate_sub_certificates_ok (k : Constants) (nodes : List (Option (List Int)))
    (r r' : Run) (hpos : 0 < nodes.length)
    (h : populate_sub_certificates k (some nodes) r = Except.ok r') :
    ∃ table array,
      populate_array (store_sub_certificate k) nodes
        (clamp_count nodes.length k.iso20_certificateType_3_ARRAY_SIZE)
        (r.table, r.doc.SubCertificates_array) = Except.ok (table, array) ∧
      r' = { doc := { r.doc with
               SubCertificates_isUsed := some 1
               SubCertificates_arrayLen :=
                 some (uint16 (clamp_count nodes.length k.iso20_certificateType_3_ARRAY_SIZE))
               SubCertificates_array := array }
             table := table } := by
  simp only [populate_sub_certificates, gt_iff_lt, if_pos hpos] at h
  split at h
  · rename_i table array heq
    exact ⟨table, array, heq, by injection h with h; exact h.symm⟩
  · cases h

theorem populate_root_certificate_ids_ok (k : Constants)
    (convert_to_signed : Int → Option exi_signed_t) (root_id_nodes : Option (List (List XmlChild)))
    (r r' : Run)
    (h : populate_root_certificate_ids k convert_to_signed root_id_nodes r = Except.ok r') :
    ∃ nodes array, root_id_nodes = some nodes ∧ 0 < nodes.length ∧
      populate_array (store_root_certificate_id k convert_to_signed) nodes
        (clamp_count nodes.length k.iso20_X509IssuerSerialType_20_ARRAY_SIZE)
        ((), r.doc.RootCertificateID_array) = Except.ok ((), array) ∧
      r' = { r with doc := { r.doc with
               RootCertificateID_arrayLen := some (uint16
                 (clamp_count nodes.length k.iso20_X509IssuerSerialType_20_ARRAY_SIZE))
               RootCertificateID_array := array } } := by
  unfold populate_root_certificate_ids at h
  split at h
  · cases h
  · rename_i nodes
    split_ifs at h with hempty
    dsimp only at h
    split at h
    · rename_i u array heq
      exact ⟨nodes, array, rfl, by omega, heq, by injection h with h; exact h.symm⟩
    · cases h

theorem populate_prioritized_emaids_ok (k : Constants) (emaids_present : Int)
    (nodes : List (Option (List Int))) (r r' : Run) (hpresent : 0 < emaids_present)
    (hpos : 0 < nodes.length)
    (h : populate_prioritized_emaids k emaids_present (some nodes) r = Except.ok r') :
    ∃ array,
      populate_array (store_emaid k) nodes
        (clamp_count nodes.length k.iso20_identifierType_8_ARRAY_SIZE)
        ((), r.doc.EMAID_array) = Except.ok ((), array) ∧
      r' = { r with doc := { r.doc with
               PrioritizedEMAIDs_isUsed := some 1
               EMAID_arrayLen := some (uint16
                 (clamp_count nodes.length k.iso20_identifierType_8_ARRAY_SIZE))
               EMAID_array := array } } := by
  simp only [populate_prioritized_emaids, gt_iff_lt, if_pos hpresent, if_pos hpos] at h
  split at h
  · rename_i u array heq
    exact ⟨array, heq, by injection h with h; exact h.symm⟩
  · cases h

theorem populate_array_fuel {M E G : Type} (entry : M → G × E → Except Abort (G × E))
    (hentry : ∀ node st, entry node st ≠ Except.error Abort.out_of_fuel) (nodeTab : List M)
    (count : Nat) (st : G × List E) :
    populate_array entry nodeTab count st ≠ Except.error Abort.out_of_fuel := by
  refine for_loop_fuel count _ (fun i s => ?_) count 0 st (by omega)
  unfold populate_array_body
  split
  · rename_i node cell _ _
    have hne := hentry node (s.1, cell)
    split
    · simp
    · rename_i e he
      intro h
      injection h with h
      rw [h] at he
      exact hne he
  · simp

theorem store_sub_certificate_fuel (k : Constants) (node : Option (List Int))
    (st : List Int × certificateType) :
    store_sub_certificate k node st ≠ Except.error Abort.out_of_fuel := by
  unfold store_sub_certificate
  split
  · simp
  · rename_i text
    dsimp only
    have htotal := base64_decode_total st.1 text (strlen text)
    split
    · simp
    · split_ifs <;> split <;> simp
    · simp
    · rename_i table heq
      rw [heq] at htotal
      exact absurd rfl htotal

theorem store_root_certificate_id_fuel (k : Constants)
    (convert_to_signed : Int → Option exi_signed_t) (children : List XmlChild)
    (st : Unit × X509IssuerSerialType) :
    store_root_certificate_id k convert_to_signed children st ≠
      Except.error Abort.out_of_fuel := by
  unfold store_root_certificate_id
  dsimp only
  split
  · split_ifs
    · simp
    · split <;> simp
  · simp

theorem store_emaid_fuel (k : Constants) (node : Option (List Int))
    (st : Unit × identifierType) :
    store_emaid k node st ≠ Except.error Abort.out_of_fuel := by
  unfold store_emaid
  split <;> simp

theorem populate_sub_certificates_fuel (k : Constants)
    (sub_certs_nodes : Option (List (Option (List Int)))) (r : Run) :
    populate_sub_certificates k sub_certs_nodes r ≠ Except.error Abort.out_of_fuel := by
  unfold populate_sub_certificates
  split
  · rename_i nodes
    dsimp only
    split_ifs
    · have hne := populate_array_fuel (store_sub_certificate k)
        (store_sub_certificate_fuel k) nodes
        (clamp_count nodes.length k.iso20_certificateType_3_ARRAY_SIZE)
        (r.table, r.doc.SubCertificates_array)
      split
      · simp
      · rename_i e he
        intro h
        injection h with h
        rw [h] at he
        exact hne he
    · simp
  · simp

theorem populate_root_certificate_ids_fuel (k : Constants)
    (convert_to_signed : Int → Option exi_signed_t)
    (root_id_nodes : Option (List (List XmlChild))) (r : Run) :
    populate_root_certificate_ids k convert_to_signed root_id_nodes r ≠
      Except.error Abort.out_of_fuel := by
  unfold populate_root_certificate_ids
  split
  · simp
  · rename_i nodes
    split_ifs
    · simp
    · dsimp only
      have hne := populate_array_fuel (store_root_certificate_id k convert_to_signed)
        (store_root_certificate_id_fuel k convert_to_signed) nodes
        (clamp_count nodes.length k.iso20_X509IssuerSerialType_20_ARRAY_SIZE)
        ((), r.doc.RootCertificateID_array)
      split
      · simp
      · rename_i e he
        intro h
        injection h with h
        rw [h] at he
        exact hne he

theorem populate_prioritized_emaids_fuel (k : Constants) (emaids_present : Int)
    (emaid_nodes : Option (List (Option (List Int)))) (r : Run) :
    populate_prioritized_emaids k emaids_present emaid_nodes r ≠
      Except.error Abort.out_of_fuel := by
  unfold populate_prioritized_emaids
  split_ifs
  · split
    · rename_i nodes
      split_ifs
      · dsimp only
        have hne := populate_array_fuel (store_emaid k) (store_emaid_fuel k) nodes
          (clamp_count nodes.length k.iso20_identifierType_8_ARRAY_SIZE)
          ((), r.doc.EMAID_array)
        split
        · simp
        · rename_i e he
          intro h
          injection h with h
          rw [h] at he
          exact hne he
      · simp
    · simp
  · simp
  · simp

theorem populate_request_ok (env : Env) (r r' : Run)
    (h : populate_request env r = Except.ok r') :
    env.request_count = 1 ∧
    r' = { r with doc := { r.doc with CertificateInstallationReq_isUsed := some 1 } } := by
  unfold populate_request at h
  split_ifs at h with hc
  exact ⟨by simpa using hc, by injection h with h; exact h.symm⟩

theorem populate_session_id_ok (k : Constants) (env : Env) (r r' : Run)
    (h : populate_session_id k env r = Except.ok r') :
    ∃ text bytes len cells, env.session_id = some text ∧
      parse_session_id text = some (bytes, len) ∧
      memcpy k.iso20_sessionIDType_BYTES_SIZE r.doc.SessionID_bytes (bytes.map some) len =
        some cells ∧
      r' = { r with doc := { r.doc with
        SessionID_bytes := cells
        SessionID_bytesLen := some (uint16 len) } } := by
  unfold populate_session_id at h
  split at h
  · cases h
  · rename_i text heq
    split at h
    · cases h
    · rename_i bytes len hparse
      split at h
      · cases h
      · rename_i cells hcopy
        exact ⟨text, bytes, len, cells, heq, hparse, hcopy,
          by injection h with h; exact h.symm⟩

theorem populate_timestamp_ok (env : Env) (r r' : Run)
    (h : populate_timestamp env r = Except.ok r') :
    ∃ text ts_val, env.timestamp = some text ∧ parse_timestamp text = some ts_val ∧
      r' = { r with doc := { r.doc with TimeStamp := some ts_val } } := by
  unfold populate_timestamp at h
  split at h
  · cases h
  · rename_i text heq
    split at h
    · cases h
    · rename_i ts_val hparse
      exact ⟨text, ts_val, heq, hparse, by injection h with h; exact h.symm⟩

theorem populate_signature_ok (env : Env) (r r' : Run)
    (h : populate_signature env r = Except.ok r') :
    r' = { r with doc := { r.doc with
      Signature_isUsed := some (if env.signature_count > 0 then 1 else 0) } } := by
  unfold populate_signature at h
  split_ifs at h with h1 h2
  · rw [if_pos h1]
    injection h with h
    exact h.symm
  · rw [if_neg h1]
    injection h with h
    exact h.symm

theorem populate_sub_certificates_flag (k : Constants)
    (sub_certs_nodes : Option (List (Option (List Int)))) (r r' : Run)
    (h : populate_sub_certificates k sub_certs_nodes r = Except.ok r') :
    ∃ table arrayLen array,
      r' = { doc := { r.doc with
               SubCertificates_isUsed := some
                 (match sub_certs_nodes with
                  | some nodes => if nodes.length > 0 then 1 else 0
                  | none => 0)
               SubCertificates_arrayLen := arrayLen
               SubCertificates_array := array }
             table := table } := by
  cases sub_certs_nodes with
  | none =>
    simp only [populate_sub_certificates] at h
    injection h with h
    exact ⟨r.table, r.doc.SubCertificates_arrayLen, r.doc.SubCertificates_array, h.symm⟩
  | some nodes =>
    by_cases hpos : 0 < nodes.length
    · obtain ⟨table, array, _, hr⟩ := populate_sub_certificates_ok k nodes r r' hpos h
      refine ⟨table,
        some (uint16 (clamp_count nodes.length k.iso20_certificateType_3_ARRAY_SIZE)), array, ?_⟩
      rw [hr]
      simp only [gt_iff_lt, if_pos hpos]
    · simp only [populate_sub_certificates, gt_iff_lt, if_neg hpos] at h
      injection h with h
      refine ⟨r.table, r.doc.SubCertificates_arrayLen, r.doc.SubCertificates_array, ?_⟩
      rw [← h]
      simp only [gt_iff_lt, if_neg hpos]

theorem populate_maximum_chains_ok (env : Env) (r r' : Run)
    (h : populate_maximum_chains env r = Except.ok r') :
    ∃ text maxc_val, env.max_chains = some text ∧ parse_max_chains text = some maxc_val ∧
      r' = { r with doc := { r.doc with MaximumContractCertificateChains := some maxc_val } } := by
  unfold populate_maximum_chains at h
  split at h
  · cases h
  · rename_i text heq
    split at h
    · cases h
    · rename_i maxc_val hparse
      exact ⟨text, maxc_val, heq, hparse, by injection h with h; exact h.symm⟩

theorem populate_prioritized_emaids_flag (k : Constants) (emaids_present : Int)
    (emaid_nodes : Option (List (Option (List Int)))) (r r' : Run)
    (h : populate_prioritized_emaids k emaids_present emaid_nodes r = Except.ok r') :
    ∃ arrayLen array,
      r' = { r with doc := { r.doc with
               PrioritizedEMAIDs_isUsed := some
                 (if emaids_present > 0 then
                   match emaid_nodes with
                   | some nodes => if nodes.length > 0 then 1 else 0
                   | none => 0
                  else 0)
               EMAID_arrayLen := arrayLen
               EMAID_array := array } } := by
  by_cases hpresent : 0 < emaids_present
  · cases emaid_nodes with
    | none =>
      simp only [populate_prioritized_emaids, gt_iff_lt, if_pos hpresent] at h
      injection h with h
      refine ⟨r.doc.EMAID_arrayLen, r.doc.EMAID_array, ?_⟩
      rw [← h]
      simp only [gt_iff_lt, if_pos hpresent]
    | some nodes =>
      by_cases hpos : 0 < nodes.length
      · obtain ⟨array, _, hr⟩ :=
          populate_prioritized_emaids_ok k emaids_present nodes r r' hpresent hpos h
        refine ⟨some (uint16 (clamp_count nodes.length k.iso20_identifierType_8_ARRAY_SIZE)),
          array, ?_⟩
        rw [hr]
        simp only [gt_iff_lt, if_pos hpresent, if_pos hpos]
      · simp only [populate_prioritized_emaids, gt_iff_lt, if_pos hpresent, if_neg hpos] at h
        injection h with h
        refine ⟨r.doc.EMAID_arrayLen, r.doc.EMAID_array, ?_⟩
        rw [← h]
        simp only [gt_iff_lt, if_pos hpresent, if_neg hpos]
  · simp only [populate_prioritized_emaids, gt_iff_lt, if_neg hpresent] at h
    split_ifs at h with h0
    injection h with h
    refine ⟨r.doc.EMAID_arrayLen, r.doc.EMAID_array, ?_⟩
    rw [← h]
    simp only [gt_iff_lt, if_neg hpresent]

/-! ## The sequence of the blocks -/

theorem run_stages_cons_ok (step : Step) (block : Run → Except Abort Run)
    (rest : List (Step × (Run → Except Abort Run))) (r r' : Run) (tr tr' : List Step)
    (h : run_stages ((step, block) :: rest) r tr = (tr', Except.ok r')) :
    ∃ r1, block r = Except.ok r1 ∧
      run_stages rest r1 (tr ++ [step]) = (tr', Except.ok r') := by
  unfold run_stages at h
  split at h
  · rename_i r1 heq
    exact ⟨r1, heq, h⟩
  · injection h with _ h2
    cases h2

/-- The blocks entered are a prefix of the blocks of the sequence, and all of
them when the sequence completes. -/
theorem run_stages_trace : ∀ (l : List (Step × (Run → Except Abort Run))) (r : Run)
    (tr : List Step), ∃ n, n ≤ l.length ∧
      (run_stages l r tr).1 = tr ++ (l.take n).map Prod.fst ∧
      (∀ r', (run_stages l r tr).2 = Except.ok r' → n = l.length) := by
  intro l
  induction l with
  | nil =>
    intro r tr
    exact ⟨0, le_refl _, by simp [run_stages], fun _ _ => rfl⟩
  | cons sb rest ih =>
    intro r tr
    obtain ⟨step, block⟩ := sb
    unfold run_stages
    split
    · rename_i r1 heq
      obtain ⟨n, hn, htr, hok⟩ := ih r1 (tr ++ [step])
      refine ⟨n + 1, by simp only [List.length_cons]; omega, ?_, ?_⟩
      · rw [htr]
        simp
      · intro r' hr'
        rw [hok r' hr']
        rfl
    · refine ⟨1, by simp only [List.length_cons]; omega, by simp, ?_⟩
      intro r' hr'
      cases hr'

/-- A block that stops the population whatever the state is ends the
sequence: no later block is entered. -/
theorem run_stages_fails : ∀ (l : List (Step × (Run → Except Abort Run))) (j : Nat) (r : Run)
    (tr : List Step),
    (∃ step block, l[j]? = some (step, block) ∧ ∀ r r', block r ≠ Except.ok r') →
    (run_stages l r tr).1.length ≤ tr.length + j + 1 ∧
    ∀ r', (run_stages l r tr).2 ≠ Except.ok r' := by
  intro l
  induction l with
  | nil =>
    intro j r tr h
    obtain ⟨_, _, h, _⟩ := h
    simp at h
  | cons sb rest ih =>
    intro j r tr h
    obtain ⟨step, block⟩ := sb
    obtain ⟨step', block', hget, hfail⟩ := h
    unfold run_stages
    split
    · rename_i r1 heq
      cases j with
      | zero =>
        simp only [List.getElem?_cons_zero, Option.some.injEq, Prod.mk.injEq] at hget
        obtain ⟨_, hb⟩ := hget
        subst hb
        exact absurd heq (hfail r r1)
      | succ j =>
        simp only [List.getElem?_cons_succ] at hget
        obtain ⟨hlen, hok⟩ := ih j r1 (tr ++ [step]) ⟨step', block', hget, hfail⟩
        refine ⟨?_, hok⟩
        simp only [List.length_append, List.length_singleton] at hlen
        omega
    · refine ⟨by simp only [List.length_append, List.length_singleton]; omega, ?_⟩
      intro r' hr'
      cases hr'

theorem stages_steps (k : Constants) (env : Env) :
    (stages k env).map Prod.fst = processing_order.take 8 := rfl

/-- The blocks that a run of `main` entered before the call of the encoder
are the first blocks of the processing order. -/
theorem stages_trace (k : Constants) (env : Env) (r : Run) :
    ∃ n, n ≤ 8 ∧ (run_stages (stages k env) r []).1 = processing_order.take n ∧
      (∀ r', (run_stages (stages k env) r []).2 = Except.ok r' → n = 8) := by
  obtain ⟨n, hn, htr, hok⟩ := run_stages_trace (stages k env) r []
  have hlen : (stages k env).length = 8 := rfl
  refine ⟨n, by omega, ?_, fun r' hr' => by rw [hok r' hr', hlen]⟩
  rw [htr, List.nil_append, List.map_take, stages_steps, List.take_take]
  congr 1
  omega

theorem stages_ok (k : Constants) (env : Env) (r0 r : Run) (tr : List Step)
    (h : run_stages (stages k env) r0 [] = (tr, Except.ok r)) :
    ∃ r1 r2 r3 r4 r5 r6 r7,
      populate_request env r0 = Except.ok r1 ∧
      populate_session_id k env r1 = Except.ok r2 ∧
      populate_timestamp env r2 = Except.ok r3 ∧
      populate_signature env r3 = Except.ok r4 ∧
      populate_sub_certificates k env.sub_certs r4 = Except.ok r5 ∧
      populate_root_certificate_ids k env.convert_to_signed env.root_ids r5 = Except.ok r6 ∧
      populate_maximum_chains env r6 = Except.ok r7 ∧
      populate_prioritized_emaids k env.emaids_present env.emaids r7 = Except.ok r := by
  unfold stages at h
  obtain ⟨r1, h1, h⟩ := run_stages_cons_ok _ _ _ _ _ _ _ h
  obtain ⟨r2, h2, h⟩ := run_stages_cons_ok _ _ _ _ _ _ _ h
  obtain ⟨r3, h3, h⟩ := run_stages_cons_ok _ _ _ _ _ _ _ h
  obtain ⟨r4, h4, h⟩ := run_stages_cons_ok _ _ _ _ _ _ _ h
  obtain ⟨r5, h5, h⟩ := run_stages_cons_ok _ _ _ _ _ _ _ h
  obtain ⟨r6, h6, h⟩ := run_stages_cons_ok _ _ _ _ _ _ _ h
  obtain ⟨r7, h7, h⟩ := run_stages_cons_ok _ _ _ _ _ _ _ h
  obtain ⟨r8, h8, h⟩ := run_stages_cons_ok _ _ _ _ _ _ _ h
  simp only [run_stages, Prod.mk.injEq, Except.ok.injEq] at h
  obtain ⟨_, h⟩ := h
  subst h
  exact ⟨r1, r2, r3, r4, r5, r6, r7, h1, h2, h3, h4, h5, h6, h7, h8⟩

/-! ## The encoding of the buffer prefix -/

theorem getD_take_of_lt (input : List Nat) (n i : Nat) (h : i < n) :
    (input.take n).getD i 0 = input.getD i 0 := by
  rw [List.getD_eq_getElem?_getD, List.getD_eq_getElem?_getD, List.getElem?_take_of_lt h]

theorem guarded_getD_take (input : List Nat) (n i : Nat) :
    (if i < n then (input.take n).getD i 0 else 0) = (if i < n then input.getD i 0 else 0) := by
  split_ifs with h
  · exact getD_take_of_lt input n i h
  · rfl

/-- The loop of `base64_encode` reads the bytes below `input_len` only. -/
theorem base64_encode_loop_take (input : List Nat) (n : Nat) :
    ∀ (fuel i j : Nat) (output : List (Option Int)),
      base64_encode_loop (input.take n) n fuel i j output =
        base64_encode_loop input n fuel i j output := by
  intro fuel
  induction fuel with
  | zero =>
    intro i j output
    simp only [base64_encode_loop]
  | succ fuel ih =>
    intro i j output
    simp only [base64_encode_loop, guarded_getD_take, ih]

theorem base64_encode_take (input : List Nat) (n : Nat) :
    base64_encode (input.take n) n = base64_encode input n := by
  simp only [base64_encode, base64_encode_loop_take]

/-- The call `base64_encode(exi_buffer, encoded_size)` returns the text of the
first `encoded_size` bytes of the buffer. -/
theorem base64_encode_prefix (input : List Nat) (n : Nat) (hn : n ≤ input.length) :
    ∃ buf, base64_encode input n = some buf ∧ c_string buf = encoded_text (input.take n) := by
  have hl : (input.take n).length = n := by
    rw [List.length_take]
    omega
  obtain ⟨buf, hrun, _, htext⟩ := base64_encode_text (input.take n)
  rw [hl, base64_encode_take] at hrun
  exact ⟨buf, hrun, htext⟩

theorem encoded_char_ne_newline (b : List Nat) (p : Nat) : encoded_char b p ≠ 10 := by
  unfold encoded_char
  split_ifs
  · decide
  · have h := sextet_char_isBase64Char (triple_at b (p / 4)) (p % 4)
    unfold isBase64Char at h
    omega

theorem encoded_text_no_newline (b : List Nat) : (10 : Int) ∉ encoded_text b := by
  intro hc
  simp only [encoded_text, List.mem_map] at hc
  obtain ⟨p, _, hp⟩ := hc
  exact encoded_char_ne_newline b p hp

/-! ## The runs of `main` -/

theorem exit_status_false (result : Int) : exit_status result false = 1 := by
  simp [exit_status]

/-- The runs of `main` that have an outcome: either the encoder is not called,
the return value is 1 and nothing is written, or every block completed and the
encoder is called on the record. -/
theorem main_cases (k : Constants) (env : Env) (o : Outcome) (h : main k env = some o) :
    (o.encoder_input = none ∧ o.exit_status = 1 ∧ o.stdout = [] ∧
      (o.trace = [] ∨
        ∃ e, run_stages (stages k env) ⟨initial_doc k, initial_decoding_table⟩ [] =
          (o.trace, Except.error e))) ∨
    (∃ tr r, run_stages (stages k env) ⟨initial_doc k, initial_decoding_table⟩ [] =
        (tr, Except.ok r) ∧
      o.encoder_input = some r.doc ∧ o.trace = tr ++ [Step.encode] ∧
      (((env.encode r.doc).1 ≠ k.EXI_ERROR__NO_ERROR ∧ o.exit_status = 1 ∧ o.stdout = []) ∨
       ((env.encode r.doc).1 = k.EXI_ERROR__NO_ERROR ∧
        (env.encode r.doc).2.2 ≤ (env.encode r.doc).2.1.length ∧
        o.exit_status = exit_status (env.encode r.doc).1 true ∧
        ∃ buf, base64_encode (env.encode r.doc).2.1 (env.encode r.doc).2.2 = some buf ∧
          c_string buf = encoded_text ((env.encode r.doc).2.1.take (env.encode r.doc).2.2) ∧
          o.stdout = c_string buf ++ [10]))) := by
  unfold main at h
  split_ifs at h with h1 h2
  · injection h with h
    subst h
    exact Or.inl ⟨rfl, rfl, rfl, Or.inl rfl⟩
  · injection h with h
    subst h
    exact Or.inl ⟨rfl, exit_status_false 0, rfl, Or.inl rfl⟩
  · split at h
    · rename_i tr heq
      injection h with h
      subst h
      exact Or.inl ⟨rfl, exit_status_false 0, rfl, Or.inr ⟨_, heq⟩⟩
    · cases h
    · rename_i tr r heq
      dsimp only at h
      split_ifs at h with h3 h4
      · injection h with h
        subst h
        exact Or.inr ⟨tr, r, heq, rfl, rfl, Or.inl ⟨h3, exit_status_false _, rfl⟩⟩
      · obtain ⟨buf, hrun, htext⟩ := base64_encode_prefix (env.encode r.doc).2.1
          (env.encode r.doc).2.2 (by omega)
        rw [hrun] at h
        injection h with h
        subst h
        exact Or.inr ⟨tr, r, heq, rfl, rfl,
          Or.inr ⟨by simpa using h3, by omega, rfl, buf, hrun, htext, rfl⟩⟩

theorem stages_trace_ok (k : Constants) (env : Env) (r0 r : Run) (tr : List Step)
    (h : run_stages (stages k env) r0 [] = (tr, Except.ok r)) :
    tr ++ [Step.encode] = processing_order := by
  obtain ⟨n, _, htr, hok⟩ := stages_trace k env r0
  rw [h] at htr hok
  have hn := hok r rfl
  subst hn
  simp only at htr
  rw [htr]
  rfl

/-- C19: with `EXI_ERROR__NO_ERROR = 0`, `main` returns 0 if and only if every
block of the population completed, the encoder returned
`EXI_ERROR__NO_ERROR` and `base64_encode` returned the text that was written;
then `stdout` receives exactly one line, the base64 text of the first
`exi_bitstream_get_length` bytes of the encoder buffer followed by a newline
(the text itself holds no newline).  On every other path `main` returns 1 and
writes nothing to `stdout`.  A run whose blocks complete and whose encoder
reports no error and a length within the buffer does return 0. -/
theorem exit_status_and_output (k : Constants) (env : Env) (hk : k.EXI_ERROR__NO_ERROR = 0) :
    (∀ o, main k env = some o →
      (o.exit_status = 0 ↔
        ∃ doc buf, o.encoder_input = some doc ∧ o.trace = processing_order ∧
          (env.encode doc).1 = k.EXI_ERROR__NO_ERROR ∧
          base64_encode (env.encode doc).2.1 (env.encode doc).2.2 = some buf ∧
          o.stdout = c_string buf ++ [10]) ∧
      (o.exit_status = 0 →
        ∃ doc, o.encoder_input = some doc ∧
          o.stdout =
            encoded_text ((env.encode doc).2.1.take (env.encode doc).2.2) ++ [10] ∧
          (10 : Int) ∉ encoded_text ((env.encode doc).2.1.take (env.encode doc).2.2)) ∧
      (o.exit_status ≠ 0 → o.exit_status = 1 ∧ o.stdout = [])) ∧
    (env.read_error = false → env.document_parsed = true → env.context_created = true →
      ∀ tr r, run_stages (stages k env) ⟨initial_doc k, initial_decoding_table⟩ [] =
          (tr, Except.ok r) →
        (env.encode r.doc).1 = k.EXI_ERROR__NO_ERROR →
        (env.encode r.doc).2.2 ≤ (env.encode r.doc).2.1.length →
        ∃ o, main k env = some o ∧ o.exit_status = 0) := by
  refine ⟨fun o hmain => ?_, ?_⟩
  · rcases main_cases k env o hmain with ⟨hnone, hexit, hout, _⟩ |
      ⟨tr, r, hrun, hdoc, htrace, hcase⟩
    · refine ⟨⟨fun h0 => ?_, fun hex => ?_⟩, fun h0 => ?_, fun _ => ⟨hexit, hout⟩⟩
      · rw [hexit] at h0
        cases h0
      · obtain ⟨doc, _, hd, _⟩ := hex
        rw [hnone] at hd
        cases hd
      · rw [hexit] at h0
        cases h0
    · rcases hcase with ⟨hne, hexit, hout⟩ | ⟨hres, hsize, hexit, buf, hbuf, htext, hout⟩
      · refine ⟨⟨fun h0 => ?_, fun hex => ?_⟩, fun h0 => ?_, fun _ => ⟨hexit, hout⟩⟩
        · rw [hexit] at h0
          cases h0
        · obtain ⟨doc, _, hd, _, hr, _⟩ := hex
          rw [hdoc] at hd
          injection hd with hd
          subst hd
          exact absurd hr hne
        · rw [hexit] at h0
          cases h0
      · have h0 : o.exit_status = 0 := by
          rw [hexit, hres, hk]
          rfl
        refine ⟨⟨fun _ => ?_, fun _ => h0⟩, fun _ => ?_, fun hne => absurd h0 hne⟩
        · exact ⟨r.doc, buf, hdoc, by rw [htrace]; exact stages_trace_ok k env _ r tr hrun,
            hres, hbuf, hout⟩
        · exact ⟨r.doc, hdoc, by rw [hout, htext], encoded_text_no_newline _⟩
  · intro h1 h2 h3 tr r hrun hres hsize
    obtain ⟨buf, hbuf, _⟩ := base64_encode_prefix (env.encode r.doc).2.1
      (env.encode r.doc).2.2 hsize
    have hnot : ¬ (env.encode r.doc).2.2 > (env.encode r.doc).2.1.length := by omega
    refine ⟨⟨exit_status (env.encode r.doc).1 true, c_string buf ++ [10],
      tr ++ [Step.encode], some r.doc⟩, ?_, ?_⟩
    · simp only [main, h1, h2, h3, hrun, hres, hbuf, hnot]
      simp
    · show exit_status (env.encode r.doc).1 true = 0
      rw [hres, hk]
      rfl

/-- C19, on the sample run: `main` returns 0 and writes the line `AQ==`, the
base64 text of the one byte that the encoder reported. -/
theorem exit_status_and_output_witness :
    ∃ o, main sample_constants sample_env = some o ∧ o.exit_status = 0 ∧
      o.stdout = [65, 81, 61, 61, 10] ∧
      ∃ doc buf, o.encoder_input = some doc ∧ o.trace = processing_order ∧
        (sample_env.encode doc).1 = sample_constants.EXI_ERROR__NO_ERROR ∧
        base64_encode (sample_env.encode doc).2.1 (sample_env.encode doc).2.2 = some buf ∧
        o.stdout = c_string buf ++ [10] :=
  ⟨_, rfl, rfl, rfl,
    ((exit_status_and_output sample_constants sample_env rfl).1 _ rfl).1.1 rfl⟩

/-- C16: on every run of `main` that reaches the encoder, each optional
element has its flag assigned, 1 or 0: `Signature_isUsed` is 1 exactly when the
count of `Header/Signature` is positive, `SubCertificates_isUsed` is 1 exactly
when the node set of the sub-certificates has at least one node, and
`PrioritizedEMAIDs_isUsed` is 1 exactly when `PrioritizedEMAIDs` exists and the
node set of its `EMAID` children has at least one node; a flag is 0 in every
other case. -/
theorem presence_flags (k : Constants) (env : Env) (o : Outcome) (doc : Doc)
    (hmain : main k env = some o) (hdoc : o.encoder_input = some doc) :
    (doc.Signature_isUsed = some 1 ↔ env.signature_count > 0) ∧
    (doc.Signature_isUsed = some 0 ↔ ¬ env.signature_count > 0) ∧
    (doc.SubCertificates_isUsed = some 1 ↔
      ∃ nodes, env.sub_certs = some nodes ∧ 0 < nodes.length) ∧
    (doc.SubCertificates_isUsed = some 0 ↔
      ¬ ∃ nodes, env.sub_certs = some nodes ∧ 0 < nodes.length) ∧
    (doc.PrioritizedEMAIDs_isUsed = some 1 ↔
      env.emaids_present > 0 ∧ ∃ nodes, env.emaids = some nodes ∧ 0 < nodes.length) ∧
    (doc.PrioritizedEMAIDs_isUsed = some 0 ↔
      ¬ (env.emaids_present > 0 ∧ ∃ nodes, env.emaids = some nodes ∧ 0 < nodes.length)) := by
  rcases main_cases k env o hmain with ⟨hnone, _⟩ | ⟨tr, r, hrun, hr, _⟩
  · rw [hnone] at hdoc
    cases hdoc
  rw [hr] at hdoc
  injection hdoc with hdoc
  subst hdoc
  obtain ⟨r1, r2, r3, r4, r5, r6, r7, h1, h2, h3, h4, h5, h6, h7, h8⟩ :=
    stages_ok k env _ r tr hrun
  have e4 := populate_signature_ok env r3 r4 h4
  obtain ⟨table, len5, array5, e5⟩ := populate_sub_certificates_flag k _ r4 r5 h5
  obtain ⟨nodes6, array6, _, _, _, e6⟩ := populate_root_certificate_ids_ok k _ _ r5 r6 h6
  obtain ⟨_, maxc, _, _, e7⟩ := populate_maximum_chains_ok env r6 r7 h7
  obtain ⟨len8, array8, e8⟩ := populate_prioritized_emaids_flag k _ _ r7 r h8
  subst e4 e5 e6 e7 e8
  dsimp only
  refine ⟨?_, ?_, ?_, ?_, ?_, ?_⟩
  · split_ifs with h <;> simp [h]
  · split_ifs with h <;> simp [h]
  · cases env.sub_certs with
    | none => simp
    | some nodes => by_cases hp : 0 < nodes.length <;> simp [hp]
  · cases env.sub_certs with
    | none => simp
    | some nodes => by_cases hp : 0 < nodes.length <;> simp [hp]
  · by_cases hpresent : env.emaids_present > 0
    · cases env.emaids with
      | none => simp [hpresent]
      | some nodes => by_cases hp : 0 < nodes.length <;> simp [hp, hpresent]
    · simp [hpresent]
  · by_cases hpresent : env.emaids_present > 0
    · cases env.emaids with
      | none => simp [hpresent]
      | some nodes => by_cases hp : 0 < nodes.length <;> simp [hp, hpresent]
    · simp [hpresent]

/-- C16, on the sample run, which has a signature, one sub-certificate and
three EMAIDs: the three flags are 1. -/
theorem presence_flags_witness :
    ∃ o doc, main sample_constants sample_env = some o ∧ o.encoder_input = some doc ∧
      doc.Signature_isUsed = some 1 ∧ doc.SubCertificates_isUsed = some 1 ∧
      doc.PrioritizedEMAIDs_isUsed = some 1 ∧
      (doc.Signature_isUsed = some 1 ↔ sample_env.signature_count > 0) :=
  ⟨_, _, rfl, rfl, rfl, rfl, rfl,
    (presence_flags sample_constants sample_env _ _ rfl rfl).1⟩

/-! ## The SessionID -/

theorem hex_bytes_length (h : List Int) : (hex_bytes h).length = h.length / 2 := by
  simp [hex_bytes]

/-- What the SessionID statements of `main` make of a text without an embedded
NUL: a text of the accepted form gives its bytes and their number, and every
other text is the jump to `cleanup`. -/
theorem parse_session_id_spec (h : List Int) (hs : ∀ c ∈ h, c ≠ 0) :
    (isSessionIDText h → parse_session_id h = some (hex_bytes h, h.length / 2)) ∧
    (¬ isSessionIDText h → parse_session_id h = none) := by
  have hlen := strlen_eq_length h hs
  by_cases hform : h.length > 16 ∨ h.length = 0 ∨ h.length % 2 ≠ 0
  · have hnone : parse_session_id h = none := by
      simp only [parse_session_id, hlen, if_pos hform]
    refine ⟨fun hv => ?_, fun _ => hnone⟩
    obtain ⟨hne, heven, hle, _⟩ := hv
    have : h.length ≠ 0 := fun h0 => hne (List.length_eq_zero.1 h0)
    omega
  · have heven : h.length % 2 = 0 := by omega
    have hdec := hex_decode_even h (List.replicate (h.length / 2) 0) (h.length / 2) hs heven
      (le_refl _)
    by_cases hall : ∀ c ∈ h, isHexDigit c
    · obtain ⟨arr', hrun, hlen', hwritten, _⟩ :=
        hex_decode_loop_spec h (h.length / 2) (h.length / 2) (le_refl _)
          (fun hlt => absurd hlt (lt_irrefl _)) (h.length / 2) 0
          (List.replicate (h.length / 2) 0) (by omega) (Nat.zero_le _)
          (fun p _ hp => hexPairValid_of_all h hall p hp)
      rw [if_neg (lt_irrefl _)] at hrun
      have hsmall : int_of_size_t (h.length / 2) = ((h.length / 2 : Nat) : Int) :=
        int_of_size_t_small _ (by unfold INT_MAX; omega)
      have harr : arr' = hex_bytes h := by
        apply List.ext_getElem?
        intro p
        by_cases hp : p < h.length / 2
        · rw [hwritten p (Nat.zero_le _) hp (by rw [List.length_replicate]; exact hp)]
          simp [hex_bytes, List.getElem?_map, List.getElem?_range hp]
        · rw [List.getElem?_eq_none (by rw [hlen', List.length_replicate]; omega),
            List.getElem?_eq_none (by rw [hex_bytes_length]; omega)]
      have hsome : parse_session_id h = some (hex_bytes h, h.length / 2) := by
        have hnn : ¬ (((h.length / 2 : Nat) : Int) < 0) := by omega
        simp only [parse_session_id, hlen, if_neg hform, hdec, hrun, hsmall, harr, if_neg hnn,
          Int.toNat_ofNat]
      refine ⟨fun _ => hsome, fun hnot => absurd ⟨?_, heven, by omega, hall⟩ hnot⟩
      intro hnil
      rw [hnil] at hform
      simp at hform
    · have hbad : ∃ c ∈ h, ¬ isHexDigit c := by
        push_neg at hall
        exact hall
      obtain ⟨j, hj, hinvalid, hvalid⟩ := exists_first_invalid_pair h heven hbad
      obtain ⟨arr', hrun, _, _, _⟩ :=
        hex_decode_loop_spec h (h.length / 2) j (le_of_lt hj) (fun _ => hinvalid)
          (h.length / 2) 0 (List.replicate (h.length / 2) 0) (by omega) (Nat.zero_le _)
          (fun p _ hp => hvalid p hp)
      rw [if_pos hj] at hrun
      have hnone : parse_session_id h = none := by
        simp only [parse_session_id, hlen, if_neg hform, hdec, hrun]
        simp
      exact ⟨fun hv => absurd hv.2.2.2 hall, fun _ => hnone⟩

/-- A copy that stays within the declared size of the destination and
within the source is done. -/
theorem memcpy_some (size : Nat) (dst src : List (Option Nat)) (n : Nat) (hn : n ≤ size)
    (hsrc : n ≤ src.length) : memcpy size dst src n = some (src.take n ++ dst.drop n) := by
  unfold memcpy
  rw [if_pos ⟨hn, hsrc⟩]

/-- A copy is undefined exactly when it is larger than the destination or
than the source. -/
theorem memcpy_eq_none (size : Nat) (dst src : List (Option Nat)) (n : Nat) :
    memcpy size dst src n = none ↔ size < n ∨ src.length < n := by
  unfold memcpy
  split_ifs with h
  · simp only [false_iff]
    omega
  · simp only [true_iff]
    omega

/-- What a copy of `n` cells that is done leaves in a destination of at least
`n` cells: the first `n` cells are those of the source, the others are
untouched, and `n` is at most the declared size. -/
theorem memcpy_prefix (size : Nat) (dst src cells : List (Option Nat)) (n : Nat)
    (hn : n ≤ dst.length) (h : memcpy size dst src n = some cells) :
    n ≤ size ∧ cells.take n = src.take n ∧ cells.length = dst.length ∧
    cells.drop n = dst.drop n := by
  unfold memcpy at h
  split_ifs at h with hc
  injection h with h
  have htake : (src.take n).length = n := by
    rw [List.length_take]
    omega
  rw [← h]
  refine ⟨hc.1, ?_, ?_, ?_⟩
  · rw [List.take_append_of_le_length (by omega), List.take_take, min_self]
  · rw [List.length_append, htake, List.length_drop]
    omega
  · rw [List.drop_append_of_le_length (by omega), List.drop_of_length_le (by omega),
      List.nil_append]

theorem populate_session_id_reject (k : Constants) (env : Env) (r : Run) (h : List Int)
    (henv : env.session_id = some h) (hparse : parse_session_id h = none) :
    populate_session_id k env r = Except.error Abort.cleanup := by
  simp only [populate_session_id, henv, hparse]

/-- The block of `main` on a request count stops by `goto cleanup` or
completes. -/
theorem populate_request_cases (env : Env) (r : Run) :
    populate_request env r = Except.error Abort.cleanup ∨
    ∃ r', populate_request env r = Except.ok r' := by
  unfold populate_request
  split_ifs
  · exact Or.inl rfl
  · exact Or.inr ⟨_, rfl⟩

/-- C17: for a SessionID text `h` (without an embedded NUL) and a SessionID
field of at least 8 bytes, the block of `main` on the SessionID completes if
and only if `h` is a non-empty text of even length, of at most 16 characters,
all of them hex digits; on every run that reaches the encoder the text has
this form, `SessionID.bytesLen` is `len(h)/2`, between 1 and 8, and the first
`bytesLen` bytes of `SessionID.bytes` are the hex decoding of `h`; for every
other text `main` ends without calling the encoder, returns 1 and writes
nothing. -/
theorem session_id_validation (k : Constants) (env : Env) (h : List Int)
    (hs : ∀ c ∈ h, c ≠ 0) (hk : 8 ≤ k.iso20_sessionIDType_BYTES_SIZE)
    (henv : env.session_id = some h) :
    (∀ r, (∃ r', populate_session_id k env r = Except.ok r') ↔ isSessionIDText h) ∧
    (∀ o doc, main k env = some o → o.encoder_input = some doc →
      isSessionIDText h ∧ doc.SessionID_bytesLen = some (h.length / 2) ∧
      1 ≤ h.length / 2 ∧ h.length / 2 ≤ 8 ∧
      doc.SessionID_bytes.take (h.length / 2) = (hex_bytes h).map some) ∧
    (¬ isSessionIDText h →
      ∃ o, main k env = some o ∧ o.encoder_input = none ∧ Step.encode ∉ o.trace ∧
        o.exit_status = 1 ∧ o.stdout = []) := by
  obtain ⟨haccept, hreject⟩ := parse_session_id_spec h hs
  have hvalid_of_ok : ∀ r r', populate_session_id k env r = Except.ok r' →
      isSessionIDText h := by
    intro r r' hok
    by_contra hnot
    rw [populate_session_id_reject k env r h henv (hreject hnot)] at hok
    cases hok
  refine ⟨fun r => ⟨fun ⟨r', hok⟩ => hvalid_of_ok r r' hok, fun hv => ?_⟩, ?_, ?_⟩
  · have hcopy := memcpy_some k.iso20_sessionIDType_BYTES_SIZE r.doc.SessionID_bytes
      ((hex_bytes h).map some) (h.length / 2) (by have := hv.2.2.1; omega)
      (by rw [List.length_map, hex_bytes_length])
    simp only [populate_session_id, henv, haccept hv, hcopy]
    exact ⟨_, rfl⟩
  · intro o doc hmain hdoc
    rcases main_cases k env o hmain with ⟨hnone, _⟩ | ⟨tr, r, hrun, hr, _⟩
    · rw [hnone] at hdoc
      cases hdoc
    rw [hr] at hdoc
    injection hdoc with hdoc
    subst hdoc
    obtain ⟨r1, r2, r3, r4, r5, r6, r7, h1, h2, h3, h4, h5, h6, h7, h8⟩ :=
      stages_ok k env _ r tr hrun
    have hv := hvalid_of_ok r1 r2 h2
    obtain ⟨_, e1⟩ := populate_request_ok env _ r1 h1
    obtain ⟨text, bytes, len, cells, htext, hparse, hcopy, e2⟩ :=
      populate_session_id_ok k env r1 r2 h2
    rw [henv] at htext
    injection htext with htext
    subst htext
    rw [haccept hv] at hparse
    injection hparse with hparse
    injection hparse with hbytes hlen
    subst hbytes hlen
    obtain ⟨_, _, _, _, e3⟩ := populate_timestamp_ok env r2 r3 h3
    have e4 := populate_signature_ok env r3 r4 h4
    obtain ⟨table, len5, array5, e5⟩ := populate_sub_certificates_flag k _ r4 r5 h5
    obtain ⟨nodes6, array6, _, _, _, e6⟩ := populate_root_certificate_ids_ok k _ _ r5 r6 h6
    obtain ⟨_, maxc, _, _, e7⟩ := populate_maximum_chains_ok env r6 r7 h7
    obtain ⟨len8, array8, e8⟩ := populate_prioritized_emaids_flag k _ _ r7 r h8
    subst e1 e2 e3 e4 e5 e6 e7 e8
    dsimp only
    obtain ⟨hne, heven, hle, _⟩ := hv
    have hpos : h.length ≠ 0 := fun h0 => hne (List.length_eq_zero.1 h0)
    refine ⟨⟨hne, heven, hle, by assumption⟩, ?_, by omega, by omega, ?_⟩
    · rw [uint16_small _ (by omega)]
    · dsimp only at hcopy
      obtain ⟨_, htake, _, _⟩ := memcpy_prefix _ _ _ cells (h.length / 2)
        (by simp only [initial_doc, List.length_replicate]; omega) hcopy
      rw [htake, List.take_of_length_le (by rw [List.length_map, hex_bytes_length])]
  · intro hnot
    have hparse := hreject hnot
    by_cases h1 : env.read_error = true
    · exact ⟨⟨1, [], [], none⟩, by simp only [main, if_pos h1], rfl, by decide, rfl, rfl⟩
    by_cases h2 : env.document_parsed = false ∨ env.context_created = false
    · exact ⟨⟨exit_status 0 false, [], [], none⟩, by simp only [main, if_neg h1, if_pos h2],
        rfl, by decide, rfl, rfl⟩
    rcases populate_request_cases env ⟨initial_doc k, initial_decoding_table⟩ with
      he | ⟨r1, hok⟩
    · refine ⟨⟨exit_status 0 false, [], [Step.request], none⟩, ?_, rfl, by decide, rfl, rfl⟩
      simp only [main, if_neg h1, if_neg h2, stages, run_stages, he, List.nil_append]
    · refine ⟨⟨exit_status 0 false, [], [Step.request, Step.session_id], none⟩, ?_, rfl,
        by decide, rfl, rfl⟩
      simp only [main, if_neg h1, if_neg h2, stages, run_stages, hok,
        populate_session_id_reject k env r1 h henv hparse, List.nil_append,
        List.singleton_append]

/-- C17, on the sample run, whose SessionID text is `01AB`: the encoder
receives a SessionID of the two bytes 1 and 171. -/
theorem session_id_validation_witness :
    ∃ o doc, main sample_constants sample_env = some o ∧ o.encoder_input = some doc ∧
      isSessionIDText [48, 49, 65, 66] ∧ doc.SessionID_bytesLen = some 2 ∧
      doc.SessionID_bytes.take 2 = [some 1, some 171] :=
  ⟨_, _, rfl, rfl,
    ((session_id_validation sample_constants sample_env [48, 49, 65, 66] (by decide)
      (by decide) rfl).2.1 _ _ rfl rfl).1, rfl, rfl⟩

/-! ## The mandatory fields -/

theorem store_root_certificate_id_ok (k : Constants)
    (convert_to_signed : Int → Option exi_signed_t) (children : List XmlChild)
    (st st' : Unit × X509IssuerSerialType)
    (h : store_root_certificate_id k convert_to_signed children st = Except.ok st') :
    root_id_ok convert_to_signed children := by
  unfold store_root_certificate_id at h
  dsimp only at h
  split at h
  · rename_i name serial hname hname_xml hserial hserial_xml
    split_ifs at h with hc
    split at h
    · cases h
    · rename_i v hv
      push_neg at hc
      obtain ⟨hc1, hc2, hc3⟩ := hc
      refine ⟨hname, ⟨name, hname_xml⟩, hserial, serial, hserial_xml, ?_, hc2, hc3, v, hv⟩
      simpa using hc1
  · cases h

/-- When the block of `main` on the root certificate IDs completes, the node
set is not empty and every node that the loop processed has a name and a
serial number that was converted. -/
theorem populate_root_certificate_ids_entries (k : Constants)
    (convert_to_signed : Int → Option exi_signed_t)
    (root_id_nodes : Option (List (List XmlChild))) (r r' : Run)
    (h : populate_root_certificate_ids k convert_to_signed root_id_nodes r = Except.ok r') :
    ∃ nodes, root_id_nodes = some nodes ∧ nodes ≠ [] ∧
      ∀ i children, i < min nodes.length k.iso20_X509IssuerSerialType_20_ARRAY_SIZE →
        nodes[i]? = some children → root_id_ok convert_to_signed children := by
  obtain ⟨nodes, array, hsome, hpos, hloop, _⟩ :=
    populate_root_certificate_ids_ok k convert_to_signed root_id_nodes r r' h
  refine ⟨nodes, hsome, fun hnil => by rw [hnil] at hpos; simp at hpos, ?_⟩
  intro i children hi hchildren
  obtain ⟨_, _, hdone⟩ := populate_array_spec _ nodes _ _ _ _ _ hloop
  rw [clamp_count_eq] at hdone
  obtain ⟨node, cell, cell', g1, g2, hnode, _, hentry, _⟩ := hdone i hi
  rw [hchildren] at hnode
  injection hnode with hnode
  subst hnode
  exact store_root_certificate_id_ok k convert_to_signed children _ _ hentry

/-- The blocks that a run of `main` entered, when block `j` of the sequence
cannot complete: at most `j + 1` blocks, and the encoder is not called. -/
theorem main_stops_at (k : Constants) (env : Env) (o : Outcome) (j : Nat)
    (hmain : main k env = some o)
    (hfail : ∃ step block, (stages k env)[j]? = some (step, block) ∧
      ∀ r r', block r ≠ Except.ok r') :
    o.trace.length ≤ j + 1 ∧ o.encoder_input = none := by
  obtain ⟨hlen, hnot⟩ := run_stages_fails (stages k env) j
    ⟨initial_doc k, initial_decoding_table⟩ [] hfail
  rcases main_cases k env o hmain with ⟨hnone, _, _, htr⟩ | ⟨tr, r, hrun, _⟩
  · refine ⟨?_, hnone⟩
    rcases htr with hnil | ⟨e, hrun⟩
    · rw [hnil]
      simp
    · rw [hrun] at hlen
      simpa using hlen
  · rw [hrun] at hnot
    exact absurd rfl (hnot r)

/-- The order of the blocks.  On every run of `main`, the blocks entered are a
prefix of the fixed processing order, and the encoder is called only after all
of them, on the record they populated.  When it is called, the count of
`CertificateInstallationReq` nodes is 1, the SessionID, the TimeStamp and the
`MaximumContractCertificateChains` passed the tests of their blocks, and the
node set of the root certificate IDs is not empty and every processed node has
an `X509IssuerName` and an `X509SerialNumber` that passed the tests of the
block.  A block that stops ends the population: no later block is entered and
the encoder is not called.  What the tests of a block let pass is not part of
this statement. -/
theorem no_partial_record (k : Constants) (env : Env) (o : Outcome)
    (hmain : main k env = some o) :
    o.trace <+: processing_order ∧
    (Step.encode ∈ o.trace ↔ o.encoder_input ≠ none) ∧
    (o.encoder_input ≠ none →
      o.trace = processing_order ∧
      env.request_count = 1 ∧
      (∃ text v, env.session_id = some text ∧ parse_session_id text = some v) ∧
      (∃ text v, env.timestamp = some text ∧ parse_timestamp text = some v) ∧
      (∃ nodes, env.root_ids = some nodes ∧ nodes ≠ [] ∧
        ∀ i children, i < min nodes.length k.iso20_X509IssuerSerialType_20_ARRAY_SIZE →
          nodes[i]? = some children → root_id_ok env.convert_to_signed children) ∧
      (∃ text v, env.max_chains = some text ∧ parse_max_chains text = some v)) ∧
    (env.request_count ≠ 1 → o.trace.length ≤ 1 ∧ o.encoder_input = none) ∧
    ((∀ text, env.session_id = some text → parse_session_id text = none) →
      o.trace.length ≤ 2 ∧ o.encoder_input = none) ∧
    ((∀ text, env.timestamp = some text → parse_timestamp text = none) →
      o.trace.length ≤ 3 ∧ o.encoder_input = none) ∧
    ((∀ nodes, env.root_ids = some nodes → nodes = [] ∨
        ∃ i children, i < min nodes.length k.iso20_X509IssuerSerialType_20_ARRAY_SIZE ∧
          nodes[i]? = some children ∧ ¬ root_id_ok env.convert_to_signed children) →
      o.trace.length ≤ 6 ∧ o.encoder_input = none) ∧
    ((∀ text, env.max_chains = some text → parse_max_chains text = none) →
      o.trace.length ≤ 7 ∧ o.encoder_input = none) := by
  refine ⟨?_, ?_, ?_, ?_, ?_, ?_, ?_, ?_⟩
  · rcases main_cases k env o hmain with ⟨_, _, _, htr⟩ | ⟨tr, r, hrun, _, htr, _⟩
    · rcases htr with hnil | ⟨e, hrun⟩
      · rw [hnil]
        exact List.nil_prefix
      · obtain ⟨n, _, hn, _⟩ := stages_trace k env ⟨initial_doc k, initial_decoding_table⟩
        rw [hrun] at hn
        simp only at hn
        rw [hn]
        exact List.take_prefix _ _
    · rw [htr, stages_trace_ok k env _ r tr hrun]
  · rcases main_cases k env o hmain with ⟨hnone, _, _, htr⟩ | ⟨tr, r, hrun, hdoc, htr, _⟩
    · refine ⟨fun hmem => ?_, fun hne => absurd hnone hne⟩
      exfalso
      rcases htr with hnil | ⟨e, hrun⟩
      · rw [hnil] at hmem
        simp at hmem
      · obtain ⟨n, hn8, hn, _⟩ := stages_trace k env ⟨initial_doc k, initial_decoding_table⟩
        rw [hrun] at hn
        simp only at hn
        rw [hn] at hmem
        have hsub : Step.encode ∈ processing_order.take 8 :=
          List.mem_of_mem_take
            (by rw [List.take_take, min_eq_left hn8]; exact hmem)
        revert hsub
        decide
    · refine ⟨fun _ => by rw [hdoc]; simp, fun _ => by rw [htr]; simp⟩
  · intro hne
    rcases main_cases k env o hmain with ⟨hnone, _⟩ | ⟨tr, r, hrun, _, htr, _⟩
    · exact absurd hnone hne
    obtain ⟨r1, r2, r3, r4, r5, r6, r7, h1, h2, h3, h4, h5, h6, h7, h8⟩ :=
      stages_ok k env _ r tr hrun
    obtain ⟨hcount, _⟩ := populate_request_ok env _ r1 h1
    obtain ⟨text2, bytes, len, _, htext2, hparse2, _⟩ := populate_session_id_ok k env r1 r2 h2
    obtain ⟨text3, ts, htext3, hparse3, _⟩ := populate_timestamp_ok env r2 r3 h3
    obtain ⟨text7, maxc, htext7, hparse7, _⟩ := populate_maximum_chains_ok env r6 r7 h7
    exact ⟨by rw [htr]; exact stages_trace_ok k env _ r tr hrun, hcount,
      ⟨text2, _, htext2, hparse2⟩, ⟨text3, _, htext3, hparse3⟩,
      populate_root_certificate_ids_entries k _ _ r5 r6 h6, ⟨text7, _, htext7, hparse7⟩⟩
  · intro hbad
    refine main_stops_at k env o 0 hmain ⟨_, _, rfl, fun r r' hok => ?_⟩
    exact hbad (populate_request_ok env r r' hok).1
  · intro hbad
    refine main_stops_at k env o 1 hmain ⟨_, _, rfl, fun r r' hok => ?_⟩
    obtain ⟨text, bytes, len, _, htext, hparse, _⟩ := populate_session_id_ok k env r r' hok
    rw [hbad text htext] at hparse
    cases hparse
  · intro hbad
    refine main_stops_at k env o 2 hmain ⟨_, _, rfl, fun r r' hok => ?_⟩
    obtain ⟨text, ts, htext, hparse, _⟩ := populate_timestamp_ok env r r' hok
    rw [hbad text htext] at hparse
    cases hparse
  · intro hbad
    refine main_stops_at k env o 5 hmain ⟨_, _, rfl, fun r r' hok => ?_⟩
    obtain ⟨nodes, hsome, hne, hall⟩ := populate_root_certificate_ids_entries k _ _ r r' hok
    rcases hbad nodes hsome with hnil | ⟨i, children, hi, hchildren, hnot⟩
    · exact hne hnil
    · exact hnot (hall i children hi hchildren)
  · intro hbad
    refine main_stops_at k env o 6 hmain ⟨_, _, rfl, fun r r' hok => ?_⟩
    obtain ⟨text, maxc, htext, hparse, _⟩ := populate_maximum_chains_ok env r r' hok
    rw [hbad text htext] at hparse
    cases hparse

/-- On the sample run every block is entered, in the processing order, before
the encoder is called. -/
theorem no_partial_record_witness :
    ∃ o, main sample_constants sample_env = some o ∧ o.trace = processing_order ∧
      o.trace <+: processing_order ∧ (Step.encode ∈ o.trace ↔ o.encoder_input ≠ none) :=
  ⟨_, rfl, rfl, (no_partial_record sample_constants sample_env _ rfl).1,
    (no_partial_record sample_constants sample_env _ rfl).2.1⟩

/-- C18, evaluated where it fails: in the sample run with the TimeStamp text
`-1`, which is no decimal numeral and denotes no value of `[0, 2^64 - 1]`,
every block completes, the encoder is called on a record whose
`Header.TimeStamp` is `2^64 - 1`, and `main` writes the output line and
returns 0. -/
theorem encoder_receives_invalid_timestamp :
    sample_env_negative_timestamp.timestamp = some [45, 49] ∧
    ¬ isNumeral [45, 49] ∧
    ∃ o doc, main sample_constants sample_env_negative_timestamp = some o ∧
      o.encoder_input = some doc ∧ o.trace = processing_order ∧
      doc.TimeStamp = some 18446744073709551615 ∧
      o.exit_status = 0 ∧ o.stdout = [65, 81, 61, 61, 10] :=
  ⟨rfl, fun h => absurd (h.2 45 (List.mem_cons_self _ _)) (by decide),
    _, _, rfl, rfl, rfl, rfl, rfl, rfl⟩

/-! ## Runs without an outcome -/

theorem run_stages_fuel : ∀ (l : List (Step × (Run → Except Abort Run))) (r : Run)
    (tr : List Step),
    (∀ sb ∈ l, ∀ r, sb.2 r ≠ Except.error Abort.out_of_fuel) →
    (run_stages l r tr).2 ≠ Except.error Abort.out_of_fuel := by
  intro l
  induction l with
  | nil =>
    intro r tr _
    simp [run_stages]
  | cons sb rest ih =>
    intro r tr hall
    obtain ⟨step, block⟩ := sb
    unfold run_stages
    split
    · exact ih _ _ (fun sb hsb => hall sb (List.mem_cons_of_mem _ hsb))
    · rename_i e he
      intro h
      have h' : e = Abort.out_of_fuel := by injection h
      rw [h'] at he
      exact hall (step, block) (List.mem_cons_self _ _) r he

/-- The iteration budgets of the loop models of `main` never run out. -/
theorem stages_fuel (k : Constants) (env : Env) (r : Run) (tr : List Step) :
    (run_stages (stages k env) r tr).2 ≠ Except.error Abort.out_of_fuel := by
  apply run_stages_fuel
  intro sb hsb r
  simp only [stages, List.mem_cons, List.mem_singleton, List.not_mem_nil, or_false] at hsb
  rcases hsb with h | h | h | h | h | h | h | h <;> subst h <;> dsimp only
  · unfold populate_request
    split_ifs <;> simp
  · unfold populate_session_id
    split
    · simp
    · split
      · simp
      · split <;> simp
  · unfold populate_timestamp
    split
    · simp
    · split <;> simp
  · unfold populate_signature
    split_ifs <;> simp
  · exact populate_sub_certificates_fuel k _ r
  · exact populate_root_certificate_ids_fuel k _ _ r
  · unfold populate_maximum_chains
    split
    · simp
    · split <;> simp
  · exact populate_prioritized_emaids_fuel k _ _ r

/-- A run of `main` has no outcome only when a block reads outside an object
or when the encoder reports more bytes than its buffer holds. -/
theorem main_none (k : Constants) (env : Env) (h : main k env = none) :
    (∃ tr, run_stages (stages k env) ⟨initial_doc k, initial_decoding_table⟩ [] =
      (tr, Except.error Abort.undefined)) ∨
    (∃ tr r, run_stages (stages k env) ⟨initial_doc k, initial_decoding_table⟩ [] =
        (tr, Except.ok r) ∧
      (env.encode r.doc).2.2 > (env.encode r.doc).2.1.length) := by
  have hfuel := stages_fuel k env ⟨initial_doc k, initial_decoding_table⟩ []
  unfold main at h
  split_ifs at h with h1 h2
  split at h
  · cases h
  · rename_i tr e hne heq
    cases e with
    | cleanup => exact absurd rfl hne
    | undefined => exact Or.inl ⟨tr, heq⟩
    | out_of_fuel =>
      rw [heq] at hfuel
      exact absurd rfl hfuel
  · rename_i tr r heq
    dsimp only at h
    split_ifs at h with h3 h4
    · exact Or.inr ⟨tr, r, heq, h4⟩
    · obtain ⟨buf, hrun, _⟩ := base64_encode_prefix (env.encode r.doc).2.1
        (env.encode r.doc).2.2 (by omega)
      rw [hrun] at h
      cases h

/-! ## The decoding table in a run of the program -/

/-- A call of `base64_decode` whose guard `base64_decoding_table['A'] == -1`
is false leaves the table as it was. -/
theorem base64_decode_table_of_guard (table input : List Int) (input_len : Nat)
    (hguard : ¬ table.getD 65 0 = -1) :
    (base64_decode table input input_len).2 = table := by
  unfold base64_decode
  split_ifs with h4
  · rfl
  · dsimp only
    split <;> rfl

/-- A call of `base64_decode` in the initial state of the table leaves the
table in that state: the guard reads entry `'A'`, which is 0, and
`build_base64_decoding_table` is not called. -/
theorem base64_decode_table_unchanged (input : List Int) (input_len : Nat) :
    (base64_decode initial_decoding_table input input_len).2 = initial_decoding_table :=
  base64_decode_table_of_guard _ input input_len initial_table_guard

set_option maxRecDepth 20000 in
/-- C21, evaluated where it fails: starting from the table as the C runtime
initialises it, a call of `base64_decode`, whatever its input and its length,
leaves the table as it was, so the table is never built.  On the first call,
with the text `QUJD` (length 4), the lookups use the zero table: `Q` has the
sextet 0, where the built table has 16, the entry of `!` is 0, where the built
table has -1, and the call returns three bytes 0 instead of `ABC`. -/
theorem lazy_table_never_built :
    (∀ input input_len,
      (base64_decode initial_decoding_table input input_len).2 = initial_decoding_table) ∧
    initial_decoding_table ≠ built_decoding_table ∧
    base64_decode initial_decoding_table [81, 85, 74, 68] 4 =
      (DecodeResult.ok [some 0, some 0, some 0] 3, initial_decoding_table) ∧
    sextet initial_decoding_table [81, 85, 74, 68] 0 = some 0 ∧
    sextet built_decoding_table [81, 85, 74, 68] 0 = some 16 ∧
    initial_decoding_table.get? 33 = some 0 ∧
    built_decoding_table.get? 33 = some (-1) := by
  refine ⟨base64_decode_table_unchanged, ?_, rfl, rfl, rfl, rfl, rfl⟩
  intro h
  have h1 : initial_decoding_table.get? 33 = built_decoding_table.get? 33 := by rw [h]
  have h2 : initial_decoding_table.get? 33 = some 0 := rfl
  have h3 : built_decoding_table.get? 33 = some (-1) := rfl
  rw [h2, h3] at h1
  cases h1

/-! ## The bytes of a sub-certificate -/

/-- The loop of `main` over a node set with an invariant of the global state:
as `populate_array_spec`, and every iteration starts in a state that
satisfies the invariant. -/
theorem populate_array_spec_inv {M E G : Type} (entry : M → G × E → Except Abort (G × E))
    (I : G → Prop)
    (hI : ∀ node g cell g' cell', I g → entry node (g, cell) = Except.ok (g', cell') → I g')
    (nodeTab : List M) (count : Nat) (g g' : G) (array array' : List E) (hg : I g)
    (hrun : populate_array entry nodeTab count (g, array) = Except.ok (g', array')) :
    I g' ∧
    (∀ i, i < count → ∃ node cell cell' g1 g2, I g1 ∧ nodeTab[i]? = some node ∧
      array[i]? = some cell ∧ entry node (g1, cell) = Except.ok (g2, cell') ∧
      array'[i]? = some cell') := by
  have hinv := for_loop_inv count (populate_array_body entry nodeTab)
    (fun n (st : G × List E) => I st.1 ∧
      (∀ i, n ≤ i → st.2[i]? = array[i]?) ∧
      (∀ i, i < n → ∃ node cell cell' g1 g2, I g1 ∧ nodeTab[i]? = some node ∧
        array[i]? = some cell ∧ entry node (g1, cell) = Except.ok (g2, cell') ∧
        st.2[i]? = some cell'))
    (by
      intro i st st' hi hP hbody
      obtain ⟨hst, hrest, hdone⟩ := hP
      simp only [populate_array_body, List.get?_eq_getElem?] at hbody
      split at hbody
      · rename_i node cell hnode hcell
        split at hbody
        · rename_i g2 cell' hentry
          have hst' : st' = (g2, st.2.set i cell') := by injection hbody with h; exact h.symm
          rw [hst']
          refine ⟨hI node st.1 cell g2 cell' hst hentry, ?_, ?_⟩
          · intro j hj
            simp only
            rw [List.getElem?_set_ne (by omega)]
            exact hrest j (by omega)
          · intro j hj
            by_cases hji : j = i
            · subst hji
              refine ⟨node, cell, cell', st.1, g2, hst, hnode, ?_, hentry, ?_⟩
              · rw [← hrest j (le_refl _)]
                exact hcell
              · simp only
                have hlt : j < st.2.length := by
                  rcases Nat.lt_or_ge j st.2.length with h | h
                  · exact h
                  · rw [List.getElem?_eq_none h] at hcell
                    cases hcell
                exact List.getElem?_set_self hlt
            · obtain ⟨n1, c1, c1', a1, a2, h0, h1, h2, h3, h4⟩ := hdone j (by omega)
              refine ⟨n1, c1, c1', a1, a2, h0, h1, h2, h3, ?_⟩
              simp only
              rw [List.getElem?_set_ne (by omega)]
              exact h4
        · cases hbody
      · cases hbody)
    count 0 (g, array) (g', array') (Nat.zero_le _)
    ⟨hg, fun _ _ => rfl, fun i hi => absurd hi (Nat.not_lt_zero _)⟩ hrun
  exact ⟨hinv.1, hinv.2.2⟩

/-- The buffer that a successful call of `base64_decode` on a C string
returns has `*output_len` cells, each of them written with a byte. -/
theorem base64_decode_ok_cells (table text : List Int) (d : List (Option Nat)) (n : Nat)
    (table' : List Int) (hs : ∀ c ∈ text, c ≠ 0) (hsize : text.length < 2 ^ 64)
    (hok : base64_decode table text (strlen text) = (DecodeResult.ok d n, table')) :
    d.length = n ∧ ∀ p, p < n → ∃ w, d[p]? = some (some w) ∧ w < 256 := by
  rw [strlen_eq_length text hs] at hok
  have h4 : text.length % 4 = 0 := by
    by_contra h
    rw [base64_decode_bad_length table text text.length h] at hok
    simp at hok
  have hpos : 0 < text.length := by
    by_contra h
    have h0 : text.length = 0 := by omega
    have hnil : text = [] := List.length_eq_zero.1 h0
    subst hnil
    simp [base64_decode, size_t_sub] at hok
  have hn : 4 ≤ text.length := by omega
  have hs1 : size_t_sub text.length 1 = text.length - 1 :=
    size_t_sub_small _ _ (by omega) hsize
  have hs2 : size_t_sub text.length 2 = text.length - 2 :=
    size_t_sub_small _ _ (by omega) hsize
  obtain ⟨last, hlast⟩ : ∃ c, text[text.length - 1]? = some c :=
    ⟨_, List.getElem?_eq_getElem (by omega)⟩
  obtain ⟨before_last, hbefore⟩ : ∃ c, text[text.length - 2]? = some c :=
    ⟨_, List.getElem?_eq_getElem (by omega)⟩
  have hlen := output_len_eq text.length last before_last h4 hn hsize
  simp only [base64_decode, if_neg (not_not.2 h4), hs1, hs2, List.get?_eq_getElem?,
    hlast, hbefore, Prod.mk.injEq] at hok
  rw [hlen] at hok
  obtain ⟨e1, e2, e3⟩ := base64_decode_loop_ok _ text text.length _ h4 _ _ _ _ _ _
    hok.1 (by rfl) (by simp) (Nat.zero_le _) (by omega) (fun p hp => absurd hp (by omega))
  exact ⟨by rw [e2, e1], fun p hp => e3 p (by rw [← e1]; exact hp)⟩

/-- The body of the loop over the `Certificate` nodes on a text that
`base64_decode` accepts: the copy is of `min(len, B)` bytes, it is done, and
the entry receives that number as `bytesLen`. -/
theorem store_sub_certificate_copy (k : Constants) (table text : List Int)
    (cell : certificateType) (d : List (Option Nat)) (n : Nat) (table' : List Int)
    (hB : k.iso20_certificateType_BYTES_SIZE < 65536)
    (hs : ∀ c ∈ text, c ≠ 0) (hsize : text.length < 2 ^ 64)
    (hok : base64_decode table text (strlen text) = (DecodeResult.ok d n, table')) :
    ∃ bytes, d.length = n ∧
      memcpy k.iso20_certificateType_BYTES_SIZE cell.bytes d
        (min n k.iso20_certificateType_BYTES_SIZE) = some bytes ∧
      store_sub_certificate k (some text) (table, cell) =
        Except.ok (table', ⟨bytes, some (min n k.iso20_certificateType_BYTES_SIZE)⟩) := by
  obtain ⟨hlen, _⟩ := base64_decode_ok_cells table text d n table' hs hsize hok
  have hcopy := memcpy_some k.iso20_certificateType_BYTES_SIZE cell.bytes d
    (min n k.iso20_certificateType_BYTES_SIZE) (Nat.min_le_right _ _)
    (by rw [hlen]; exact Nat.min_le_left _ _)
  refine ⟨_, hlen, hcopy, ?_⟩
  by_cases hbig : n > k.iso20_certificateType_BYTES_SIZE
  · have hmin : min n k.iso20_certificateType_BYTES_SIZE =
        k.iso20_certificateType_BYTES_SIZE := by omega
    rw [hmin] at hcopy ⊢
    simp only [store_sub_certificate, hok, if_pos hbig, hcopy, uint16_small _ hB]
  · have hmin : min n k.iso20_certificateType_BYTES_SIZE = n := by omega
    rw [hmin] at hcopy ⊢
    simp only [store_sub_certificate, hok, if_neg hbig, hcopy, uint16_small n (by omega)]

/-- When the body of the loop over the `Certificate` nodes completes, the node
has a text and `base64_decode` returned a buffer for it. -/
theorem store_sub_certificate_ok (k : Constants) (node : Option (List Int))
    (table table' : List Int) (cell cell' : certificateType)
    (h : store_sub_certificate k node (table, cell) = Except.ok (table', cell')) :
    ∃ text d n, node = some text ∧
      base64_decode table text (strlen text) = (DecodeResult.ok d n, table') := by
  unfold store_sub_certificate at h
  split at h
  · cases h
  · rename_i text
    dsimp only at h
    split at h
    · cases h
    · rename_i d n t heq
      refine ⟨text, d, n, rfl, ?_⟩
      rw [heq]
      split_ifs at h <;> split at h
      · cases h
      · injection h with h
        injection h with h1 _
        rw [h1]
      · cases h
      · injection h with h
        injection h with h1 _
        rw [h1]
    · cases h
    · cases h

/-- The body of the loop over the `Certificate` nodes is undefined only when
`base64_decode` reads outside the text or the table, never because of the
copy into the entry. -/
theorem store_sub_certificate_undefined (k : Constants) (table text : List Int)
    (cell : certificateType) (hB : k.iso20_certificateType_BYTES_SIZE < 65536)
    (hs : ∀ c ∈ text, c ≠ 0) (hsize : text.length < 2 ^ 64)
    (h : store_sub_certificate k (some text) (table, cell) = Except.error Abort.undefined) :
    (base64_decode table text (strlen text)).1 = DecodeResult.out_of_bounds := by
  cases hdec : base64_decode table text (strlen text) with
  | mk result table' =>
    cases result with
    | null =>
      simp only [store_sub_certificate, hdec] at h
      cases h
    | ok d n =>
      obtain ⟨bytes, _, _, hstore⟩ :=
        store_sub_certificate_copy k table text cell d n table' hB hs hsize hdec
      rw [hstore] at h
      cases h
    | out_of_bounds => rfl
    | out_of_fuel =>
      simp only [store_sub_certificate, hdec] at h
      cases h

/-- C22: with `B = iso20_certificateType_BYTES_SIZE` below 65536 and an entry
buffer of `B` cells, the loop body copies, for a text that `base64_decode`
decodes to a buffer `d` of `len` bytes, exactly `min(len, B)` bytes: the copy
stays within the entry and within `d` (a larger copy would be undefined, and
the body is undefined only when `base64_decode` itself reads outside an
object), the entry receives `bytesLen = min(len, B)` and the first `bytesLen`
bytes of `d`, and its cells from `bytesLen` on are untouched: an oversized
blob is truncated, not rejected.  On every run of `main` that reaches the
encoder, every stored sub-certificate entry `i` is of this form for the text
of node `i`, decoded with the table in its initial state. -/
theorem sub_certificate_blob_bound (k : Constants)
    (hB : k.iso20_certificateType_BYTES_SIZE < 65536) :
    (∀ (table text : List Int) (cell : certificateType) (d : List (Option Nat)) (n : Nat)
        (table' : List Int),
      (∀ c ∈ text, c ≠ 0) → text.length < 2 ^ 64 →
      cell.bytes.length = k.iso20_certificateType_BYTES_SIZE →
      base64_decode table text (strlen text) = (DecodeResult.ok d n, table') →
      ∃ cell', store_sub_certificate k (some text) (table, cell) =
          Except.ok (table', cell') ∧
        d.length = n ∧
        memcpy k.iso20_certificateType_BYTES_SIZE cell.bytes d
          (min n k.iso20_certificateType_BYTES_SIZE) = some cell'.bytes ∧
        cell'.bytesLen = some (min n k.iso20_certificateType_BYTES_SIZE) ∧
        cell'.bytes.take (min n k.iso20_certificateType_BYTES_SIZE) =
          d.take (min n k.iso20_certificateType_BYTES_SIZE) ∧
        cell'.bytes.length = k.iso20_certificateType_BYTES_SIZE ∧
        cell'.bytes.drop (min n k.iso20_certificateType_BYTES_SIZE) =
          cell.bytes.drop (min n k.iso20_certificateType_BYTES_SIZE)) ∧
    (∀ (dst src : List (Option Nat)) (copied : Nat),
      memcpy k.iso20_certificateType_BYTES_SIZE dst src copied = none ↔
        k.iso20_certificateType_BYTES_SIZE < copied ∨ src.length < copied) ∧
    (∀ (table text : List Int) (cell : certificateType),
      (∀ c ∈ text, c ≠ 0) → text.length < 2 ^ 64 →
      store_sub_certificate k (some text) (table, cell) = Except.error Abort.undefined →
      (base64_decode table text (strlen text)).1 = DecodeResult.out_of_bounds) ∧
    (∀ (env : Env) (o : Outcome) (doc : Doc) (nodes : List (Option (List Int))),
      main k env = some o → o.encoder_input = some doc → env.sub_certs = some nodes →
      (∀ text, some text ∈ nodes → (∀ c ∈ text, c ≠ 0) ∧ text.length < 2 ^ 64) →
      ∀ i, i < min nodes.length k.iso20_certificateType_3_ARRAY_SIZE →
        ∃ text d n cell', nodes[i]? = some (some text) ∧
          base64_decode initial_decoding_table text (strlen text) =
            (DecodeResult.ok d n, initial_decoding_table) ∧
          d.length = n ∧
          doc.SubCertificates_array[i]? = some cell' ∧
          memcpy k.iso20_certificateType_BYTES_SIZE
            (List.replicate k.iso20_certificateType_BYTES_SIZE none) d
            (min n k.iso20_certificateType_BYTES_SIZE) = some cell'.bytes ∧
          cell'.bytesLen = some (min n k.iso20_certificateType_BYTES_SIZE) ∧
          min n k.iso20_certificateType_BYTES_SIZE ≤ k.iso20_certificateType_BYTES_SIZE ∧
          cell'.bytes.take (min n k.iso20_certificateType_BYTES_SIZE) =
            d.take (min n k.iso20_certificateType_BYTES_SIZE) ∧
          cell'.bytes.length = k.iso20_certificateType_BYTES_SIZE) := by
  have hentry : ∀ (table text : List Int) (cell : certificateType) (d : List (Option Nat))
      (n : Nat) (table' : List Int),
      (∀ c ∈ text, c ≠ 0) → text.length < 2 ^ 64 →
      cell.bytes.length = k.iso20_certificateType_BYTES_SIZE →
      base64_decode table text (strlen text) = (DecodeResult.ok d n, table') →
      ∃ cell', store_sub_certificate k (some text) (table, cell) =
          Except.ok (table', cell') ∧
        d.length = n ∧
        memcpy k.iso20_certificateType_BYTES_SIZE cell.bytes d
          (min n k.iso20_certificateType_BYTES_SIZE) = some cell'.bytes ∧
        cell'.bytesLen = some (min n k.iso20_certificateType_BYTES_SIZE) ∧
        cell'.bytes.take (min n k.iso20_certificateType_BYTES_SIZE) =
          d.take (min n k.iso20_certificateType_BYTES_SIZE) ∧
        cell'.bytes.length = k.iso20_certificateType_BYTES_SIZE ∧
        cell'.bytes.drop (min n k.iso20_certificateType_BYTES_SIZE) =
          cell.bytes.drop (min n k.iso20_certificateType_BYTES_SIZE) := by
    intro table text cell d n table' hs hsize hcell hok
    obtain ⟨bytes, hlen, hcopy, hstore⟩ :=
      store_sub_certificate_copy k table text cell d n table' hB hs hsize hok
    obtain ⟨_, htake, hlength, hdrop⟩ := memcpy_prefix _ _ _ bytes _
      (by rw [hcell]; exact Nat.min_le_right _ _) hcopy
    exact ⟨_, hstore, hlen, hcopy, rfl, htake, by rw [hlength, hcell], hdrop⟩
  refine ⟨hentry, fun dst src copied => memcpy_eq_none _ dst src copied,
    fun table text cell hs hsize h =>
      store_sub_certificate_undefined k table text cell hB hs hsize h, ?_⟩
  intro env o doc nodes hmain hdoc hsub htexts i hi
  rcases main_cases k env o hmain with ⟨hnone, _⟩ | ⟨tr, r, hrun, hr, _⟩
  · rw [hnone] at hdoc
    cases hdoc
  rw [hr] at hdoc
  injection hdoc with hdoc
  subst hdoc
  obtain ⟨r1, r2, r3, r4, r5, r6, r7, h1, h2, h3, h4, h5, h6, h7, h8⟩ :=
    stages_ok k env _ r tr hrun
  obtain ⟨_, e1⟩ := populate_request_ok env _ r1 h1
  obtain ⟨_, _, _, _, _, _, _, e2⟩ := populate_session_id_ok k env r1 r2 h2
  obtain ⟨_, _, _, _, e3⟩ := populate_timestamp_ok env r2 r3 h3
  have e4 := populate_signature_ok env r3 r4 h4
  rw [hsub] at h5
  have hpos : 0 < nodes.length := by omega
  obtain ⟨table, array, hloop, e5⟩ := populate_sub_certificates_ok k nodes r4 r5 hpos h5
  obtain ⟨nodes6, array6, _, _, _, e6⟩ := populate_root_certificate_ids_ok k _ _ r5 r6 h6
  obtain ⟨_, maxc, _, _, e7⟩ := populate_maximum_chains_ok env r6 r7 h7
  obtain ⟨len8, array8, e8⟩ := populate_prioritized_emaids_flag k _ _ r7 r h8
  subst e1 e2 e3 e4
  dsimp only at hloop
  obtain ⟨_, hentries⟩ := populate_array_spec_inv (store_sub_certificate k)
    (fun g => g = initial_decoding_table)
    (by
      intro node g cell g' cell' hg hentry
      obtain ⟨text, d, n, _, hdec⟩ := store_sub_certificate_ok k node g g' cell cell' hentry
      have htable := base64_decode_table_unchanged text (strlen text)
      rw [← hg, hdec] at htable
      rw [hg] at htable
      exact htable)
    nodes _ _ _ _ _ rfl hloop
  rw [clamp_count_eq] at hentries
  obtain ⟨node, cell, cell', g1, g2, hg1, hnode, hcell, hstored, harray⟩ := hentries i hi
  subst hg1
  obtain ⟨text, d, n, hnode', hdec⟩ :=
    store_sub_certificate_ok k node _ g2 cell cell' hstored
  subst hnode'
  have hg2 : g2 = initial_decoding_table := by
    have htable := base64_decode_table_unchanged text (strlen text)
    rw [hdec] at htable
    exact htable
  subst hg2
  obtain ⟨hs, hsize⟩ := htexts text (List.getElem?_mem hnode)
  have hcell' : cell = ⟨List.replicate k.iso20_certificateType_BYTES_SIZE none, none⟩ := by
    simp only [initial_doc, List.getElem?_replicate] at hcell
    split_ifs at hcell
    injection hcell with hcell
    exact hcell.symm
  have hbytes : cell.bytes.length = k.iso20_certificateType_BYTES_SIZE := by
    rw [hcell']
    exact List.length_replicate _ _
  obtain ⟨cell'', hstore, hlen, hcopy, hblen, htake, hblength, _⟩ :=
    hentry _ text cell d n _ hs hsize hbytes hdec
  rw [hstored] at hstore
  injection hstore with hstore
  injection hstore with _ hcells
  subst hcells
  subst e5 e6 e7 e8
  rw [hcell'] at hcopy
  exact ⟨text, d, n, cell', hnode, hdec, hlen, harray, hcopy, hblen, Nat.min_le_right _ _,
    htake, hblength⟩

/-- C22, on the text `QUJDQUJD`, which decodes to 6 bytes, and an entry of 4
bytes: the copy is of 4 bytes, the entry receives them and `bytesLen = 4`,
whereas a copy of the 6 bytes is undefined; and on the sample run, whose
sub-certificate `QUJD` decodes to 3 bytes: entry 0 holds them and
`bytesLen = 3`. -/
theorem sub_certificate_blob_bound_witness :
    (∃ cell', store_sub_certificate sample_constants (some [81, 85, 74, 68, 81, 85, 74, 68])
        (initial_decoding_table, ⟨[none, none, none, none], none⟩) =
          Except.ok (initial_decoding_table, cell') ∧
      ([some 0, some 0, some 0, some 0, some 0, some 0] : List (Option Nat)).length = 6 ∧
      memcpy 4 [none, none, none, none]
        [some 0, some 0, some 0, some 0, some 0, some 0] 4 = some cell'.bytes ∧
      cell'.bytesLen = some 4 ∧
      cell'.bytes.take 4 = [some 0, some 0, some 0, some 0] ∧
      cell'.bytes.length = 4 ∧
      cell'.bytes.drop 4 = []) ∧
    memcpy 4 [none, none, none, none]
      [some 0, some 0, some 0, some 0, some 0, some 0] 6 = none ∧
    (∃ o doc, main sample_constants sample_env = some o ∧ o.encoder_input = some doc ∧
      doc.SubCertificates_array[0]? = some ⟨[some 0, some 0, some 0, none], some 3⟩ ∧
      ∃ text d n cell', ([some [81, 85, 74, 68]] : List (Option (List Int)))[0]? =
          some (some text) ∧
        base64_decode initial_decoding_table text (strlen text) =
          (DecodeResult.ok d n, initial_decoding_table) ∧
        d.length = n ∧
        doc.SubCertificates_array[0]? = some cell' ∧
        memcpy 4 [none, none, none, none] d (min n 4) = some cell'.bytes ∧
        cell'.bytesLen = some (min n 4) ∧ min n 4 ≤ 4 ∧
        cell'.bytes.take (min n 4) = d.take (min n 4) ∧ cell'.bytes.length = 4) :=
  ⟨(sub_certificate_blob_bound sample_constants (by decide)).1 initial_decoding_table
      [81, 85, 74, 68, 81, 85, 74, 68] ⟨[none, none, none, none], none⟩
      [some 0, some 0, some 0, some 0, some 0, some 0] 6 initial_decoding_table
      (by decide) (by norm_num) rfl rfl,
    rfl,
    _, _, rfl, rfl, rfl,
    (sub_certificate_blob_bound sample_constants (by decide)).2.2.2 sample_env _ _
      [some [81, 85, 74, 68]] rfl rfl rfl
      (by
        intro text ht
        simp only [List.mem_singleton, Option.some.injEq] at ht
        subst ht
        exact ⟨by decide, by norm_num⟩)
      0 (by decide)⟩

end ExiRequest
